import Mathlib

/-!
Verification of accounting-service: reference checksum, status derivation, tax
aggregation.

A shallow embedding of `reference.go`, `errors.go`, `helpers.go`,
`merit/auth.go` and of parts of `merit_adapter.go`, `merit/request.go`,
`merit/customers.go`, `customer_service.go` and `invoice_service.go`, and the
properties proved of them.

Go values are modelled as follows.

* A Go `string` is a finite sequence of bytes: `GoString = List (Fin 256)`.
  `len(s)` is the number of bytes, `s[i]` is a byte, and `for _, ch := range s`
  walks the string by UTF-8 decoding (an invalid sequence yields U+FFFD and
  advances one byte), as the Go language specification says.  The functions of
  the packages `strings`, `unicode`, `utf8` and `strconv` that the code calls
  are modelled on all byte strings, valid UTF-8 or not.
* `int` is the 64 bit two's complement integer of the supported platforms:
  the additions of the checksum loop are wrapped with `wrapInt64`.
* An `error` is a value of `GoError`; `errors.Is` is `errorsIs`.
* `decimal.Decimal` is an unscaled integer together with a base ten exponent.
* The order in which a map is ranged over is a parameter of the function that
  does so.
* What the environment answers (the HTTP exchange, the provider behind an
  interface, `strings.ToLower`, the methods of `time.Time`) is a parameter of
  the function that asks.
* SHA-256, HMAC and the standard base64 encoding are modelled as the functions
  that FIPS 180-4, RFC 2104 and RFC 4648 define, on bytes.
* The goroutines of `BatchCreate` are a transition system: a state, the steps
  that can be taken in it, and schedules that pick the steps.
-/

namespace Accounting

set_option maxRecDepth 100000


/-! ## Go strings and the pieces of the standard library that are used -/

/-- A byte. -/
abbrev Byte := Fin 256

/-- A Go string: an immutable sequence of bytes. -/
abbrev GoString := List Byte

/-- The constant `utf8.RuneError`, U+FFFD. -/
def RuneError : Nat := 0xFFFD

/-- The constant `utf8.RuneSelf`: bytes below it are single byte runes. -/
def RuneSelf : Nat := 0x80

/-- A continuation byte lies in `lo ..= hi`. -/
def inRange (lo hi : Nat) (b : Byte) : Bool := decide (lo ≤ b.val) && decide (b.val ≤ hi)

/-- Model of `utf8.DecodeRuneInString`: the first rune of `s` and its width in
bytes.  Invalid or truncated encodings give `(RuneError, 1)`, the empty string
gives `(RuneError, 0)`.  The case split on the first byte is the table
`first`, the bounds on the second byte are the table `acceptRanges`. -/
def decodeRune : GoString → Nat × Nat
  | [] => (RuneError, 0)
  | s0 :: rest =>
    if s0.val < 0x80 then (s0.val, 1)
    else if s0.val < 0xC2 then (RuneError, 1)
    else if s0.val < 0xE0 then
      match rest with
      | s1 :: _ =>
        if inRange 0x80 0xBF s1 then ((s0.val % 32) * 64 + s1.val % 64, 2)
        else (RuneError, 1)
      | _ => (RuneError, 1)
    else if s0.val < 0xF0 then
      match rest with
      | s1 :: s2 :: _ =>
        let lo := if s0.val = 0xE0 then 0xA0 else 0x80
        let hi := if s0.val = 0xED then 0x9F else 0xBF
        if inRange lo hi s1 && inRange 0x80 0xBF s2 then
          ((s0.val % 16) * 4096 + (s1.val % 64) * 64 + s2.val % 64, 3)
        else (RuneError, 1)
      | _ => (RuneError, 1)
    else if s0.val < 0xF5 then
      match rest with
      | s1 :: s2 :: s3 :: _ =>
        let lo := if s0.val = 0xF0 then 0x90 else 0x80
        let hi := if s0.val = 0xF4 then 0x8F else 0xBF
        if inRange lo hi s1 && inRange 0x80 0xBF s2 && inRange 0x80 0xBF s3 then
          ((s0.val % 8) * 262144 + (s1.val % 64) * 4096 + (s2.val % 64) * 64 + s3.val % 64, 4)
        else (RuneError, 1)
      | _ => (RuneError, 1)
    else (RuneError, 1)

/-- Model of `utf8.RuneStart`: the byte is not a continuation byte. -/
def runeStart (b : Byte) : Bool := !inRange 0x80 0xBF b

/-- The backward scan of `utf8.DecodeLastRuneInString`.  `before` holds the
bytes in front of the last byte, nearest first; the result is the number of
bytes the scan steps back: it stops at the first rune start among the three
nearest bytes, at the start of the string, or one byte past the limit of
`utf8.UTFMax` bytes. -/
def scanBack (before : GoString) : Nat :=
  match before with
  | [] => 0
  | c1 :: r1 =>
    if runeStart c1 then 1
    else match r1 with
      | [] => 1
      | c2 :: r2 =>
        if runeStart c2 then 2
        else match r2 with
          | [] => 2
          | c3 :: r3 =>
            if runeStart c3 then 3
            else match r3 with
              | [] => 3
              | _ :: _ => 4

/-- Model of `utf8.DecodeLastRuneInString`: the last rune of `s` and its width.
The function looks back over at most `utf8.UTFMax = 4` bytes for the start of
the rune, decodes forward from there and answers `(RuneError, 1)` unless that
rune ends exactly at the end of `s`. -/
def decodeLastRune (s : GoString) : Nat × Nat :=
  match s.reverse with
  | [] => (RuneError, 0)
  | b :: before =>
    if b.val < 0x80 then (b.val, 1)
    else
      let start := s.length - 1 - scanBack before
      let (r, size) := decodeRune (s.drop start)
      if start + size ≠ s.length then (RuneError, 1) else (r, size)

/-- Model of `unicode.IsSpace`: the Unicode White_Space property. -/
def isSpace (r : Nat) : Bool :=
  (0x09 ≤ r && r ≤ 0x0D) || r = 0x20 || r = 0x85 || r = 0xA0 || r = 0x1680 ||
  (0x2000 ≤ r && r ≤ 0x200A) || r = 0x2028 || r = 0x2029 || r = 0x202F ||
  r = 0x205F || r = 0x3000

/-- Model of `strings.TrimLeftFunc(s, unicode.IsSpace)`: the runes of `s` are
visited from the left, the result starts at the first rune that is not white
space, and is empty when there is none.  `fuel` bounds the number of runes
visited; every rune is at least one byte wide, so `s.length` is enough. -/
def trimLeftLoop : Nat → GoString → GoString
  | 0, _ => []
  | _, [] => []
  | fuel + 1, s@(_ :: _) =>
    let (r, size) := decodeRune s
    if isSpace r then trimLeftLoop fuel (s.drop size) else s

/-- The string `strings.TrimLeftFunc(s, unicode.IsSpace)`. -/
def trimLeftSpace (s : GoString) : GoString := trimLeftLoop s.length s

/-- Model of `lastIndexFunc(s, unicode.IsSpace, false)`: the byte index at which
the last rune that is not white space starts, `none` for Go's `-1`.  The loop
variable `i` runs down from `len(s)`. -/
def lastIndexLoop (s : GoString) : Nat → Nat → Option Nat
  | 0, _ => none
  | fuel + 1, i =>
    if i = 0 then none
    else
      let (r, size) := decodeLastRune (s.take i)
      if isSpace r then lastIndexLoop s fuel (i - size) else some (i - size)

/-- Model of `strings.TrimRightFunc(s, unicode.IsSpace)`. -/
def trimRightSpace (s : GoString) : GoString :=
  match lastIndexLoop s s.length s.length with
  | none => []
  | some i =>
    match s.drop i with
    | b :: _ =>
      if RuneSelf ≤ b.val then s.take (i + (decodeRune (s.drop i)).2) else s.take (i + 1)
    | [] => s.take (i + 1)

/-- Model of `strings.TrimSpace`: leading and trailing Unicode white space
removed (`TrimFunc(s, unicode.IsSpace)`). -/
def trimSpace (s : GoString) : GoString := trimRightSpace (trimLeftSpace s)

/-- Model of `utf8.AppendRune` for a valid code point: its UTF-8 encoding. -/
def encodeRune (r : Nat) : GoString :=
  if r < 0x80 then [Fin.ofNat r]
  else if r < 0x800 then [Fin.ofNat (0xC0 + r / 64), Fin.ofNat (0x80 + r % 64)]
  else if r < 0x10000 then
    [Fin.ofNat (0xE0 + r / 4096), Fin.ofNat (0x80 + r / 64 % 64), Fin.ofNat (0x80 + r % 64)]
  else
    [Fin.ofNat (0xF0 + r / 262144), Fin.ofNat (0x80 + r / 4096 % 64),
      Fin.ofNat (0x80 + r / 64 % 64), Fin.ofNat (0x80 + r % 64)]

/-- The Go string written as the literal `s`. -/
def lit (s : String) : GoString := s.toList.flatMap fun c => encodeRune c.toNat

/-- Wrap an integer into the range of a 64 bit signed `int`. -/
def wrapInt64 (x : Int) : Int := (x + 2 ^ 63) % 2 ^ 64 - 2 ^ 63

/-- Model of `strconv.Itoa`: the decimal digits of `n`, with a leading `-` when
`n` is negative. -/
def itoa (n : Int) : GoString :=
  let digits : GoString := (Nat.toDigits 10 n.natAbs).map fun c => Fin.ofNat c.toNat
  if n < 0 then (45 : Byte) :: digits else digits

/-! ## errors.go -/

/-- The sentinel errors declared in `errors.go`.  Each is a distinct value made
by `errors.New`, so two sentinels are equal only when they are the same
variable. -/
inductive Sentinel
  | ErrNotFound
  | ErrAuthFailed
  | ErrRateLimit
  | ErrUnsupportedProvider
  | ErrInvalidInput
  deriving DecidableEq, Repr

/-- Go error values that occur in the package.
* `sentinel` is one of the package level variables;
* `errorf format args` is the result of `fmt.Errorf(format, args...)` for a
  format without `%w`: a fresh error with no `Unwrap` method;
* `providerError` is a `*ProviderError`, whose `Unwrap` returns `Err`;
* `apiError` is a `*merit.APIError`, which has no `Unwrap` method;
* `wrapf format args err` is the result of `fmt.Errorf` for a format with one
  `%w` that stands for `err`: its `Unwrap` returns `err`. -/
inductive GoError
  | sentinel (s : Sentinel)
  | errorf (format : String) (args : List GoString)
  | providerError (provider op : String) (err : GoError)
  | apiError (statusCode : Int) (message : GoString)
  | wrapf (format : String) (args : List GoString) (err : GoError)
  deriving DecidableEq, Repr

/-- Model of `errors.Is(err, target)` for a sentinel target: `err` is compared
with the target and then unwrapped, until the chain ends. -/
def errorsIs : GoError → Sentinel → Bool
  | .sentinel s, target => decide (s = target)
  | .errorf _ _, _ => false
  | .providerError _ _ err, target => errorsIs err target
  | .apiError _ _, _ => false
  | .wrapf _ _ err, target => errorsIs err target

/-- Model of the method `Unwrap` as `errors.Unwrap` sees it: the wrapped error,
`none` when the error wraps nothing. -/
def unwrap : GoError → Option GoError
  | .sentinel _ => none
  | .errorf _ _ => none
  | .providerError _ _ err => some err
  | .apiError _ _ => none
  | .wrapf _ _ err => some err

/-- Model of `errors.As(err, &apiErr)` for `apiErr` of type `*merit.APIError`:
the first `APIError` in the chain of `err`, as its status code and message. -/
def errorsAsAPIError : GoError → Option (Int × GoString)
  | .sentinel _ => none
  | .errorf _ _ => none
  | .providerError _ _ err => errorsAsAPIError err
  | .apiError statusCode message => some (statusCode, message)
  | .wrapf _ _ err => errorsAsAPIError err

/-- The function `IsNotFound`; the argument `none` is the `nil` error. -/
def IsNotFound (err : Option GoError) : Bool :=
  match err with
  | none => false
  | some e => errorsIs e .ErrNotFound

/-- The function `IsAuthFailed`. -/
def IsAuthFailed (err : Option GoError) : Bool :=
  match err with
  | none => false
  | some e => errorsIs e .ErrAuthFailed

/-- The function `IsRateLimit`. -/
def IsRateLimit (err : Option GoError) : Bool :=
  match err with
  | none => false
  | some e => errorsIs e .ErrRateLimit

/-! ## reference.go -/

/-- The slice `weights := []int{7, 3, 1}`. -/
def weights : List Int := [7, 3, 1]

/-- The loop of `calculateEstonian371CheckDigit`.  The first argument is `i + 1`
for the loop variable `i`, which runs from `len(base) - 1` down to `0`; the
second is the running `sum`. -/
def checkDigitLoop (base : GoString) : Nat → Int → Int
  | 0, sum => sum
  | i + 1, sum =>
    let digit : Int := ((base.getD i 0 - 48 : Byte).val : Int)
    let weight : Int := weights.getD ((base.length - 1 - i) % 3) 0
    checkDigitLoop base i (wrapInt64 (sum + digit * weight))

/-- The function `calculateEstonian371CheckDigit`.  Go's `%` truncates towards
zero, which is `Int.tmod`. -/
def calculateEstonian371CheckDigit (base : GoString) : Int :=
  let sum := checkDigitLoop base base.length 0
  Int.tmod (10 - Int.tmod sum 10) 10

/-- The loop `for _, ch := range s { if ch < '0' || ch > '9' { return ... } }`:
`true` when the loop meets a rune outside `'0'..'9'` and returns early.  `fuel`
bounds the number of runes visited; `s.length` is enough. -/
def rangeHasNonDigit : Nat → GoString → Bool
  | 0, _ => false
  | _, [] => false
  | fuel + 1, s@(_ :: _) =>
    let (ch, size) := decodeRune s
    if ch < 48 ∨ ch > 57 then true else rangeHasNonDigit fuel (s.drop size)

/-- The function `GenerateEstonianReference`. -/
def GenerateEstonianReference (base : GoString) : Except GoError GoString :=
  let base := trimSpace base
  if base = [] then
    .error (.errorf "base number cannot be empty" [])
  else if rangeHasNonDigit base.length base then
    .error (.errorf "base number must contain only digits, got: %s" [base])
  else
    let checkDigit := calculateEstonian371CheckDigit base
    .ok (base ++ itoa checkDigit)

/-- The function `ValidateEstonianReference`. -/
def ValidateEstonianReference (reference : GoString) : Bool :=
  let reference := trimSpace reference
  if reference.length < 2 then false
  else if rangeHasNonDigit reference.length reference then false
  else
    let base := reference.take (reference.length - 1)
    let providedCheckDigit : Int :=
      ((reference.getD (reference.length - 1) 0 - 48 : Byte).val : Int)
    let expectedCheckDigit := calculateEstonian371CheckDigit base
    decide (providedCheckDigit = expectedCheckDigit)

/-! ## Notions used to state the properties of reference.go -/

/-- The runes that `for _, ch := range s` produces, in order.  `fuel` bounds
the number of runes; `s.length` is enough. -/
def runesLoop : Nat → GoString → List Nat
  | 0, _ => []
  | _, [] => []
  | fuel + 1, s@(_ :: _) =>
    let (ch, size) := decodeRune s
    ch :: runesLoop fuel (s.drop size)

/-- The code points of `s`, as a range loop sees them. -/
def runes (s : GoString) : List Nat := runesLoop s.length s

/-- The byte is one of `'0'..'9'`. -/
def isDigitByte (b : Byte) : Bool := decide (48 ≤ b.val) && decide (b.val ≤ 57)

/-- The rune is one of `'0'..'9'`. -/
def isDigitRune (r : Nat) : Bool := decide (48 ≤ r) && decide (r ≤ 57)

/-- The code points with the Unicode White_Space property. -/
def spaceRunes : List Nat :=
  [0x09, 0x0A, 0x0B, 0x0C, 0x0D, 0x20, 0x85, 0xA0, 0x1680, 0x2000, 0x2001, 0x2002, 0x2003,
    0x2004, 0x2005, 0x2006, 0x2007, 0x2008, 0x2009, 0x200A, 0x2028, 0x2029, 0x202F, 0x205F,
    0x3000]

/-- The bytes of a run of runes, each in its UTF-8 encoding. -/
def encodeRunes (rs : List Nat) : GoString := rs.flatMap encodeRune

/-- The string is empty or starts with a byte that is not a continuation
byte. -/
def startsClean : GoString → Bool
  | [] => true
  | h :: _ => runeStart h

/-- The weight `w(i mod 3)` of the digit at position `i` from the right:
`w(0) = 7`, `w(1) = 3`, `w(2) = 1`. -/
def weight371 (i : Nat) : Nat := [7, 3, 1].getD (i % 3) 0

/-- The value of a digit character. -/
def digitValue (d : Byte) : Nat := d.val - 48

/-- The weighted sum as the specification words it: the digit at position `i`,
counted from the right starting at `0`, times `w(i mod 3)`, summed over all
positions. -/
def weightedSum (b : GoString) : Nat :=
  (b.reverse.enum.map fun p => digitValue p.2 * weight371 p.1).sum

/-- The check digit as the specification words it:
`(10 - (sum mod 10)) mod 10`. -/
def specCheckDigit (b : GoString) : Nat := (10 - weightedSum b % 10) % 10

/-- The digit character for a value below ten. -/
def digitByte (c : Nat) : Byte := Fin.ofNat (48 + c)

/-! ## decimal.Decimal and merit_adapter.go -/

/-- Model of `decimal.Decimal` (shopspring): the number `value * 10 ^ exp` with
an arbitrary precision integer `value`.  The zero value of the type has a nil
`value`, which every method reads as `0`; it is modelled as `⟨0, 0⟩`.  The
exponent is not bounded here. -/
structure Decimal where
  value : Int
  exp : Int
  deriving DecidableEq, Repr

namespace Decimal

/-- The zero value `decimal.Decimal{}`. -/
def zero : Decimal := ⟨0, 0⟩

/-- The rational number that a decimal stands for. -/
def toRat (d : Decimal) : ℚ := (d.value : ℚ) * (10 : ℚ) ^ d.exp

/-- Model of `Decimal.Sign`: the sign of the unscaled value. -/
def Sign (d : Decimal) : Int := Int.sign d.value

/-- Model of `Decimal.IsPositive`: `d.Sign() == 1`. -/
def IsPositive (d : Decimal) : Bool := decide (d.Sign = 1)

/-- Model of `Decimal.Mul`: the values are multiplied, the exponents added. -/
def Mul (d d2 : Decimal) : Decimal := ⟨d.value * d2.value, d.exp + d2.exp⟩

/-- Model of `Decimal.rescale`: the same number with exponent `exp`; digits
are cut off (`big.Int.Quo`) when the exponent grows. -/
def rescale (d : Decimal) (exp : Int) : Decimal :=
  if d.exp = exp then d
  else
    let diff := (exp - d.exp).natAbs
    if exp > d.exp then ⟨Int.tdiv d.value (10 ^ diff), exp⟩
    else ⟨d.value * 10 ^ diff, exp⟩

/-- Model of `decimal.RescalePair`: both numbers at the smaller exponent. -/
def RescalePair (d1 d2 : Decimal) : Decimal × Decimal :=
  if d1.exp < d2.exp then (d1, d2.rescale d1.exp)
  else if d1.exp > d2.exp then (d1.rescale d2.exp, d2)
  else (d1, d2)

/-- Model of `Decimal.Add`. -/
def Add (d d2 : Decimal) : Decimal :=
  let (rd, rd2) := RescalePair d d2
  ⟨rd.value + rd2.value, rd.exp⟩

end Decimal

/-- The type `InvoiceStatus` with its three constants. -/
inductive InvoiceStatus
  | InvoiceStatusUnpaid
  | InvoiceStatusPartial
  | InvoiceStatusPaid
  deriving DecidableEq, Repr

open InvoiceStatus in
/-- The function `deriveInvoiceStatus`. -/
def deriveInvoiceStatus (paid : Bool) (paidAmount : Decimal) : InvoiceStatus :=
  if paid then InvoiceStatusPaid
  else if paidAmount.IsPositive then InvoiceStatusPartial
  else InvoiceStatusUnpaid

/-- The struct `CreateInvoiceLineInput`.  The field `Type_` is the Go field
`Type`. -/
structure CreateInvoiceLineInput where
  Code : GoString := []
  Description : GoString := []
  Quantity : Decimal := Decimal.zero
  UnitPrice : Decimal := Decimal.zero
  TaxID : GoString := []
  AccountCode : GoString := []
  Type_ : Option Int := none
  UOMName : GoString := []
  deriving DecidableEq, Repr

/-- The struct `merit.DimensionRef`. -/
structure DimensionRef where
  DimID : Option Int := none
  DimValueID : GoString := []
  DimCode : GoString := []
  deriving DecidableEq, Repr

/-- The struct `merit.ItemRef`.  The field `Type_` is the Go field `Type`. -/
structure ItemRef where
  Code : GoString := []
  Description : GoString := []
  Type_ : Option Int := none
  UOMName : GoString := []
  DefLocationCode : GoString := []
  GTUCode : Option Int := none
  SalesAccCode : GoString := []
  PurchaseAccCode : GoString := []
  InventoryAccCode : GoString := []
  CostAccCode : GoString := []
  deriving DecidableEq, Repr

/-- The struct `merit.InvoiceRow`. -/
structure InvoiceRow where
  Item : ItemRef := {}
  Quantity : Decimal := Decimal.zero
  Price : Decimal := Decimal.zero
  DiscountPct : Decimal := Decimal.zero
  DiscountAmount : Decimal := Decimal.zero
  TaxID : GoString := []
  LocationCode : GoString := []
  DepartmentCode : GoString := []
  GLAccountCode : GoString := []
  Dimensions : List DimensionRef := []
  ItemCostAmount : Decimal := Decimal.zero
  ProjectCode : GoString := []
  CostCenterCode : GoString := []
  VatDate : GoString := []
  deriving DecidableEq, Repr

/-- The struct `merit.TaxAmountEntry`. -/
structure TaxAmountEntry where
  TaxID : GoString := []
  Amount : Decimal := Decimal.zero
  deriving DecidableEq, Repr

/-- A Go `map[string]decimal.Decimal`: its entries, one per key. -/
abbrev TaxMap := List (GoString × Decimal)

/-- The map read `m[k]`: the value stored under `k`, the zero value when the
key is absent. -/
def mapGet : TaxMap → GoString → Decimal
  | [], _ => Decimal.zero
  | (k', v') :: rest, k => if k' = k then v' else mapGet rest k

/-- The map write `m[k] = v`: the entry of `k` is replaced, or added when the
key is new. -/
def mapSet : TaxMap → GoString → Decimal → TaxMap
  | [], k, v => [(k, v)]
  | (k', v') :: rest, k, v => if k' = k then (k', v) :: rest else (k', v') :: mapSet rest k v

/-- The row that the loop of `buildRowsAndTaxes` stores for a line. -/
def lineRow (line : CreateInvoiceLineInput) : InvoiceRow :=
  { Item := { Code := line.Code, Description := line.Description, Type_ := line.Type_,
              UOMName := line.UOMName },
    Quantity := line.Quantity,
    Price := line.UnitPrice,
    TaxID := line.TaxID,
    GLAccountCode := line.AccountCode }

/-- The map update of one pass of the loop of `buildRowsAndTaxes`:
`taxAmounts[line.TaxID] = taxAmounts[line.TaxID].Add(amount)` with
`amount := line.Quantity.Mul(line.UnitPrice)`. -/
def taxStep (taxAmounts : TaxMap) (line : CreateInvoiceLineInput) : TaxMap :=
  let amount := line.Quantity.Mul line.UnitPrice
  mapSet taxAmounts line.TaxID ((mapGet taxAmounts line.TaxID).Add amount)

/-- The map `taxAmounts` after the first loop of `buildRowsAndTaxes`. -/
def taxAmountsOf (lines : List CreateInvoiceLineInput) : TaxMap :=
  lines.foldl taxStep []

/-- Go does not specify the order in which `for ... range` visits a map.  An
iteration order is a function that lists the entries of a map in some order. -/
def IsIterationOrder (iter : TaxMap → TaxMap) : Prop := ∀ m, (iter m).Perm m

/-- The function `buildRowsAndTaxes`.  The order `iter` in which the second
loop visits the map is a parameter. -/
def buildRowsAndTaxes (iter : TaxMap → TaxMap) (lines : List CreateInvoiceLineInput) :
    List InvoiceRow × List TaxAmountEntry :=
  let rows := lines.map lineRow
  let taxAmounts := taxAmountsOf lines
  let taxes := (iter taxAmounts).map fun kv => { TaxID := kv.1, Amount := kv.2 : TaxAmountEntry }
  (rows, taxes)

/-- The exact sum of `Quantity * UnitPrice` over the lines with tax identifier
`k`. -/
def lineTotal (lines : List CreateInvoiceLineInput) (k : GoString) : ℚ :=
  ((lines.filter fun l => decide (l.TaxID = k)).map
    fun l => l.Quantity.toRat * l.UnitPrice.toRat).sum

/-! ## merit_adapter.go: error wrapping and code mappings -/

/-- The method `meritProvider.wrapError`; `none` is the `nil` error. -/
def wrapError (op : String) (err : Option GoError) : Option GoError :=
  match err with
  | none => none
  | some err =>
    match errorsAsAPIError err with
    | some (statusCode, _) =>
      let sentinel : GoError :=
        if statusCode = 401 ∨ statusCode = 403 then .sentinel .ErrAuthFailed
        else if statusCode = 404 then .sentinel .ErrNotFound
        else if statusCode = 429 then .sentinel .ErrRateLimit
        else err
      some (.providerError "merit" op sentinel)
    | none => some (.providerError "merit" op err)

/-- The string type `ItemType`. -/
abbrev ItemType := GoString

/-- The constant `ItemTypeStock`. -/
def ItemTypeStock : ItemType := lit "stock"

/-- The constant `ItemTypeService`. -/
def ItemTypeService : ItemType := lit "service"

/-- The constant `ItemTypeItem`. -/
def ItemTypeItem : ItemType := lit "item"

/-- The string type `PaymentDirection`. -/
abbrev PaymentDirection := GoString

/-- The constant `PaymentDirectionCustomer`. -/
def PaymentDirectionCustomer : PaymentDirection := lit "customer"

/-- The constant `PaymentDirectionVendor`. -/
def PaymentDirectionVendor : PaymentDirection := lit "vendor"

/-- The constant `PaymentDirectionOtherIncome`. -/
def PaymentDirectionOtherIncome : PaymentDirection := lit "other_income"

/-- The constant `PaymentDirectionOtherExpense`. -/
def PaymentDirectionOtherExpense : PaymentDirection := lit "other_expense"

/-- The constant `merit.ItemTypeStock`. -/
def merit.ItemTypeStock : Int := 1

/-- The constant `merit.ItemTypeService`. -/
def merit.ItemTypeService : Int := 2

/-- The constant `merit.ItemTypeItem`. -/
def merit.ItemTypeItem : Int := 3

/-- The constant `merit.DirectionCustomers`. -/
def merit.DirectionCustomers : Int := 1

/-- The constant `merit.DirectionVendors`. -/
def merit.DirectionVendors : Int := 2

/-- The constant `merit.DirectionOtherIncome`. -/
def merit.DirectionOtherIncome : Int := 3

/-- The constant `merit.DirectionOtherExpenses`. -/
def merit.DirectionOtherExpenses : Int := 4

/-- The function `mapPaymentDirection`. -/
def mapPaymentDirection (d : Int) : PaymentDirection :=
  if d = merit.DirectionCustomers then PaymentDirectionCustomer
  else if d = merit.DirectionVendors then PaymentDirectionVendor
  else if d = merit.DirectionOtherIncome then PaymentDirectionOtherIncome
  else if d = merit.DirectionOtherExpenses then PaymentDirectionOtherExpense
  else PaymentDirectionCustomer

/-- The function `mapItemTypeToMerit`. -/
def mapItemTypeToMerit (t : ItemType) : Int :=
  if t = ItemTypeStock then merit.ItemTypeStock
  else if t = ItemTypeService then merit.ItemTypeService
  else if t = ItemTypeItem then merit.ItemTypeItem
  else merit.ItemTypeItem

/-- The function `mapMeritItemType`. -/
def mapMeritItemType (t : Int) : ItemType :=
  if t = merit.ItemTypeStock then ItemTypeStock
  else if t = merit.ItemTypeService then ItemTypeService
  else if t = merit.ItemTypeItem then ItemTypeItem
  else ItemTypeItem

/-! ## merit/request.go -/

/-- What the HTTP client hands to `post`: the status code, and the outcome of
`io.ReadAll(resp.Body)`. -/
structure HTTPResponse where
  StatusCode : Int
  Body : Except GoError GoString

/-- The method `Client.post`, from the outcome of each call it makes.
* `marshal` is the outcome of `json.Marshal(payload)`;
* `newRequestErr` is the error of `http.NewRequestWithContext`;
* `send` is the outcome of `c.httpClient.Do(req)`;
* `unmarshal body r` is `json.Unmarshal(body, result)` when `result` points to
  `r`: what the target holds afterwards, and the error;
* `result` is the target the caller passes, `none` for `nil`.
The function returns the error and what the target holds afterwards. -/
def post {R : Type} (marshal : Except GoError GoString) (newRequestErr : Option GoError)
    (send : Except GoError HTTPResponse) (unmarshal : GoString → R → R × Option GoError)
    (result : Option R) : Option GoError × Option R :=
  match marshal with
  | .error err => (some (.wrapf "merit: marshal request: %w" [] err), result)
  | .ok _ =>
    match newRequestErr with
    | some err => (some (.wrapf "merit: create request: %w" [] err), result)
    | none =>
      match send with
      | .error err => (some (.wrapf "merit: send request: %w" [] err), result)
      | .ok resp =>
        match resp.Body with
        | .error err => (some (.wrapf "merit: read response: %w" [] err), result)
        | .ok respBody =>
          if resp.StatusCode < 200 ∨ resp.StatusCode ≥ 300 then
            (some (.apiError resp.StatusCode respBody), result)
          else
            match result with
            | some r =>
              if respBody.length > 0 then
                match unmarshal respBody r with
                | (r', some err) => (some (.wrapf "merit: unmarshal response: %w" [] err), some r')
                | (r', none) => (none, some r')
              else (none, result)
            | none => (none, result)

/-- The tax amounts grouped by `TaxID` in the order in which each `TaxID` first
occurs in the lines. -/
def taxesByFirstOccurrence (lines : List CreateInvoiceLineInput) : List TaxAmountEntry :=
  (taxAmountsOf lines).map fun kv => { TaxID := kv.1, Amount := kv.2 : TaxAmountEntry }

/-- The distinct elements of a list in the order in which each occurs first. -/
def firstOccurrences : List GoString → List GoString
  | [] => []
  | a :: l => a :: (firstOccurrences l).filter fun x => decide (x ≠ a)

/-! ## Customers: inputs.go, types.go, merit/types.go, merit_adapter.go, customer_service.go -/

/-- The struct `Customer`. -/
structure Customer where
  ID : GoString := []
  Name : GoString := []
  RegNo : GoString := []
  VATRegNo : GoString := []
  Email : GoString := []
  Phone : GoString := []
  Address : GoString := []
  City : GoString := []
  County : GoString := []
  PostalCode : GoString := []
  CountryCode : GoString := []
  Currency : GoString := []
  PaymentDays : Int := 0
  Contact : GoString := []
  HomePage : GoString := []
  deriving DecidableEq, Repr

/-- The struct `CreateCustomerInput`. -/
structure CreateCustomerInput where
  Name : GoString := []
  RegNo : GoString := []
  VATRegNo : GoString := []
  Email : GoString := []
  Phone : GoString := []
  Address : GoString := []
  City : GoString := []
  County : GoString := []
  PostalCode : GoString := []
  CountryCode : GoString := []
  Currency : GoString := []
  PaymentDays : Option Int := none
  Contact : GoString := []
  deriving DecidableEq, Repr

/-- The struct `UpdateCustomerInput`; a nil pointer is `none`. -/
structure UpdateCustomerInput where
  ID : GoString := []
  Name : Option GoString := none
  Email : Option GoString := none
  Phone : Option GoString := none
  Address : Option GoString := none
  City : Option GoString := none
  PostalCode : Option GoString := none
  CountryCode : Option GoString := none
  RegNo : Option GoString := none
  VATRegNo : Option GoString := none
  deriving DecidableEq, Repr

/-- The struct `merit.UpdateCustomerRequest`. -/
structure UpdateCustomerRequest where
  ID : GoString := []
  Name : GoString := []
  CountryCode : GoString := []
  Address : GoString := []
  City : GoString := []
  PostalCode : GoString := []
  PhoneNo : GoString := []
  PhoneNo2 : GoString := []
  Email : GoString := []
  RegNo : GoString := []
  VatRegNo : GoString := []
  SalesInvLang : GoString := []
  RefNoBase : GoString := []
  EInvPaymId : GoString := []
  EInvOperator : Option Int := none
  BankAccount : GoString := []
  CustGrCode : GoString := []
  CustGrId : GoString := []
  Contact : GoString := []
  ApixEInv : GoString := []
  GroupInv : Option Bool := none
  PaymentDeadLine : Option Int := none
  OverdueCharge : Decimal := Decimal.zero
  NotTDCustomer : Option Bool := none
  deriving DecidableEq, Repr

/-- The struct `merit.CustomerListItem`. -/
structure CustomerListItem where
  CustomerID : GoString := []
  Name : GoString := []
  RegNo : GoString := []
  Contact : GoString := []
  PhoneNo : GoString := []
  PhoneNo2 : GoString := []
  Address : GoString := []
  City : GoString := []
  County : GoString := []
  PostalCode : GoString := []
  CountryName : GoString := []
  CountryCode : GoString := []
  FaxNo : GoString := []
  Email : GoString := []
  HomePage : GoString := []
  CurrencyCode : GoString := []
  CustomerGroupID : GoString := []
  CustomerGroupName : GoString := []
  PaymentDeadLine : Int := 0
  OverdueCharge : Decimal := Decimal.zero
  VatRegNo : GoString := []
  NotTDCustomer : Bool := false
  BankName : GoString := []
  BankAccount : GoString := []
  SalesInvLang : GoString := []
  RefNoBase : GoString := []
  Dimensions : List DimensionRef := []
  ChangedDate : GoString := []
  GLNCode : GoString := []
  PartyCode : GoString := []
  deriving DecidableEq, Repr

/-- The request that `meritProvider.UpdateCustomer` builds before it calls the
client: the `ID`, and each field of the input that is present. -/
def updateCustomerRequest (input : UpdateCustomerInput) : UpdateCustomerRequest :=
  let req : UpdateCustomerRequest := { ID := input.ID }
  let req := match input.Name with
    | some v => { req with Name := v }
    | none => req
  let req := match input.Email with
    | some v => { req with Email := v }
    | none => req
  let req := match input.Phone with
    | some v => { req with PhoneNo := v }
    | none => req
  let req := match input.Address with
    | some v => { req with Address := v }
    | none => req
  let req := match input.City with
    | some v => { req with City := v }
    | none => req
  let req := match input.PostalCode with
    | some v => { req with PostalCode := v }
    | none => req
  let req := match input.CountryCode with
    | some v => { req with CountryCode := v }
    | none => req
  let req := match input.RegNo with
    | some v => { req with RegNo := v }
    | none => req
  let req := match input.VATRegNo with
    | some v => { req with VatRegNo := v }
    | none => req
  req

/-- The method `meritProvider.UpdateCustomer`; `clientUpdateCustomer` is the
client call `p.client.UpdateCustomer(ctx, req)`. -/
def UpdateCustomer (clientUpdateCustomer : UpdateCustomerRequest → Option GoError)
    (input : UpdateCustomerInput) : Option GoError :=
  wrapError "UpdateCustomer" (clientUpdateCustomer (updateCustomerRequest input))

/-- The value of a member of a JSON object, as far as the wire shapes need
it. -/
inductive JSONValue
  | str (s : GoString)
  | num (n : Int)
  | bool (b : Bool)
  | decimal (d : Decimal)
  deriving DecidableEq, Repr

/-- A string field tagged `omitempty`: left out when the string is empty. -/
def omitEmptyString (key : String) (v : GoString) : List (String × JSONValue) :=
  if v = [] then [] else [(key, .str v)]

/-- An `*int` field tagged `omitempty`: left out when the pointer is nil. -/
def omitNilInt (key : String) (v : Option Int) : List (String × JSONValue) :=
  match v with
  | none => []
  | some n => [(key, .num n)]

/-- A `*bool` field tagged `omitempty`: left out when the pointer is nil. -/
def omitNilBool (key : String) (v : Option Bool) : List (String × JSONValue) :=
  match v with
  | none => []
  | some b => [(key, .bool b)]

/-- Model of `json.Marshal` on a `merit.UpdateCustomerRequest`: the members of
the JSON object in the order of the struct fields.  `encoding/json` leaves out
a field tagged `omitempty` when it is false, 0, a nil pointer or interface, or
an empty array, slice, map or string; a struct value such as
`decimal.Decimal` is none of these, so `OverdueCharge` is written whatever it
holds. -/
def marshalUpdateCustomerRequest (req : UpdateCustomerRequest) : List (String × JSONValue) :=
  [("Id", .str req.ID)] ++
  omitEmptyString "Name" req.Name ++
  omitEmptyString "CountryCode" req.CountryCode ++
  omitEmptyString "Address" req.Address ++
  omitEmptyString "City" req.City ++
  omitEmptyString "PostalCode" req.PostalCode ++
  omitEmptyString "PhoneNo" req.PhoneNo ++
  omitEmptyString "PhoneNo2" req.PhoneNo2 ++
  omitEmptyString "Email" req.Email ++
  omitEmptyString "RegNo" req.RegNo ++
  omitEmptyString "VatRegNo" req.VatRegNo ++
  omitEmptyString "SalesInvLang" req.SalesInvLang ++
  omitEmptyString "RefNoBase" req.RefNoBase ++
  omitEmptyString "EInvPaymId" req.EInvPaymId ++
  omitNilInt "EInvOperator" req.EInvOperator ++
  omitEmptyString "BankAccount" req.BankAccount ++
  omitEmptyString "CustGrCode" req.CustGrCode ++
  omitEmptyString "CustGrId" req.CustGrId ++
  omitEmptyString "Contact" req.Contact ++
  omitEmptyString "ApixEinv" req.ApixEInv ++
  omitNilBool "GroupInv" req.GroupInv ++
  omitNilInt "PaymentDeadLine" req.PaymentDeadLine ++
  [("OverdueCharge", .decimal req.OverdueCharge)] ++
  omitNilBool "NotTDCustomer" req.NotTDCustomer

/-- The function `mapCustomerListItem`. -/
def mapCustomerListItem (item : CustomerListItem) : Customer :=
  { ID := item.CustomerID,
    Name := item.Name,
    RegNo := item.RegNo,
    VATRegNo := item.VatRegNo,
    Email := item.Email,
    Phone := item.PhoneNo,
    Address := item.Address,
    City := item.City,
    County := item.County,
    PostalCode := item.PostalCode,
    CountryCode := item.CountryCode,
    Currency := item.CurrencyCode,
    PaymentDays := item.PaymentDeadLine,
    Contact := item.Contact,
    HomePage := item.HomePage }

/-- The loop of `meritProvider.FindCustomerByEmail` over the listed items;
`email` is the queried address, already trimmed and lower-cased. -/
def findCustomerLoop (ToLower : GoString → GoString) (email : GoString) :
    List CustomerListItem → Option Customer
  | [] => none
  | item :: rest =>
    if ToLower (trimSpace item.Email) = email then some (mapCustomerListItem item)
    else findCustomerLoop ToLower email rest

/-- The method `meritProvider.FindCustomerByEmail`.  `ToLower` is
`strings.ToLower`, whose Unicode case tables are not part of the repository;
`items` and `err` are what `p.client.ListCustomers` returns. -/
def FindCustomerByEmail (ToLower : GoString → GoString) (items : List CustomerListItem)
    (err : Option GoError) (email : GoString) : Option Customer × Option GoError :=
  match err with
  | some e => (none, wrapError "FindCustomerByEmail" (some e))
  | none =>
    let email := ToLower (trimSpace email)
    match findCustomerLoop ToLower email items with
    | some c => (some c, none)
    | none => (none, some (.providerError "merit" "FindCustomerByEmail" (.sentinel .ErrNotFound)))

/-- A call that `CustomerService.FindOrCreate` makes on its provider. -/
inductive ProviderCall
  | FindCustomerByEmail (email : GoString)
  | CreateCustomer (input : CreateCustomerInput)
  deriving DecidableEq, Repr

/-- The two methods of the interface `Provider` that
`CustomerService.FindOrCreate` uses.  A provider may keep state: each method
takes the state before the call and returns the state after it. -/
structure CustomerProvider (σ : Type) where
  FindCustomerByEmail : σ → GoString → (Option Customer × Option GoError) × σ
  CreateCustomer : σ → CreateCustomerInput → (Option Customer × Option GoError) × σ

/-- The method `CustomerService.FindOrCreate`: what it returns, the state of
the provider afterwards, and the calls it made on the provider, in order. -/
def FindOrCreate {σ : Type} (p : CustomerProvider σ) (st : σ) (email : GoString)
    (input : CreateCustomerInput) :
    (Option Customer × Option GoError) × σ × List ProviderCall :=
  match p.FindCustomerByEmail st email with
  | ((existing, err), st1) =>
    if err ≠ none ∧ IsNotFound err = false then
      ((none, err), st1, [.FindCustomerByEmail email])
    else if existing ≠ none then
      ((existing, none), st1, [.FindCustomerByEmail email])
    else
      match p.CreateCustomer st1 input with
      | (r, st2) => (r, st2, [.FindCustomerByEmail email, .CreateCustomer input])

/-! ## invoice_service.go: BatchCreate -/

/-- The struct `BatchResult`; `Invoice` is the type of the invoices that the
provider hands out. -/
structure BatchResult (Invoice : Type) where
  Invoice : Option Invoice := none
  Err : Option GoError := none
  Index : Int := 0

/-- Where a goroutine started by `BatchCreate` stands.
* `waiting`: at `sem <- struct{}{}`, not yet admitted;
* `calling`: admitted, `s.provider.CreateInvoice(ctx, in)` is in flight;
* `finished`: the call has returned and `results[idx]` is written;
* `released`: the deferred `<-sem` has run;
* `done`: the deferred `wg.Done()` has run. -/
inductive Phase
  | waiting
  | calling
  | finished
  | released
  | done
  deriving DecidableEq, Repr

/-- A goroutine started by `BatchCreate` with its arguments `idx` and `in`. -/
structure Goroutine (Input : Type) where
  idx : Nat
  input : Input
  phase : Phase

/-- The state of a run of `BatchCreate`: the number `i` of inputs that the loop
has handled, the slice `results`, the number `sem` of values in the channel
`sem`, the counter `wg` of the wait group, the goroutines started so far, and
whether `wg.Wait()` has returned. -/
structure BatchState (Input Invoice : Type) where
  i : Nat
  results : List (BatchResult Invoice)
  sem : Nat
  wg : Nat
  goroutines : List (Goroutine Input)
  returned : Bool

/-- The capacity of the channel `sem`: `make(chan struct{}, 5)`. -/
def semCapacity : Nat := 5

/-- One step of a run of `BatchCreate`, taken by the main goroutine (`spawn`,
`ret`) or by the goroutine with the given number. -/
inductive Action
  | spawn
  | acquire (g : Nat)
  | finish (g : Nat)
  | release (g : Nat)
  | done (g : Nat)
  | ret
  deriving DecidableEq, Repr

/-- The state in which `BatchCreate` starts its loop:
`results := make([]BatchResult, len(inputs))`, an empty channel, a wait group
at zero. -/
def batchInit {Input Invoice : Type} (inputs : List Input) : BatchState Input Invoice :=
  { i := 0,
    results := List.replicate inputs.length {},
    sem := 0,
    wg := 0,
    goroutines := [],
    returned := false }

/-- The goroutine numbered `g` moves on to `phase`. -/
def setPhase {Input : Type} (gs : List (Goroutine Input)) (g : Nat) (gr : Goroutine Input)
    (phase : Phase) : List (Goroutine Input) :=
  gs.set g { gr with phase := phase }

/-- The effect of one step, `none` when the step cannot be taken in the state.
* `spawn`: one pass of the loop: `results[i].Index = i`, `wg.Add(1)`, `go`;
* `acquire g`: `sem <- struct{}{}`, possible while the channel is not full;
* `finish g`: the call `CreateInvoice(ctx, in)` returns what `f` gives, and
  the goroutine stores it in `results[idx]`;
* `release g`: the deferred `<-sem`;
* `done g`: the deferred `wg.Done()`;
* `ret`: `wg.Wait()` returns after the loop, when the counter is zero. -/
def step {Input Invoice : Type} (f : Input → Option Invoice × Option GoError)
    (inputs : List Input) (s : BatchState Input Invoice) :
    Action → Option (BatchState Input Invoice)
  | .spawn =>
    if s.returned then none
    else
      match inputs[s.i]?, s.results[s.i]? with
      | some input, some r =>
        some { s with
          i := s.i + 1,
          results := s.results.set s.i { r with Index := (s.i : Int) },
          wg := s.wg + 1,
          goroutines := s.goroutines ++ [{ idx := s.i, input := input, phase := .waiting }] }
      | _, _ => none
  | .acquire g =>
    match s.goroutines[g]? with
    | some gr =>
      if gr.phase = .waiting ∧ s.sem < semCapacity then
        some { s with sem := s.sem + 1, goroutines := setPhase s.goroutines g gr .calling }
      else none
    | none => none
  | .finish g =>
    match s.goroutines[g]? with
    | some gr =>
      match s.results[gr.idx]? with
      | some r =>
        if gr.phase = .calling then
          some { s with
            results := s.results.set gr.idx
              { r with Invoice := (f gr.input).1, Err := (f gr.input).2 },
            goroutines := setPhase s.goroutines g gr .finished }
        else none
      | none => none
    | none => none
  | .release g =>
    match s.goroutines[g]? with
    | some gr =>
      if gr.phase = .finished ∧ 0 < s.sem then
        some { s with sem := s.sem - 1, goroutines := setPhase s.goroutines g gr .released }
      else none
    | none => none
  | .done g =>
    match s.goroutines[g]? with
    | some gr =>
      if gr.phase = .released ∧ 0 < s.wg then
        some { s with wg := s.wg - 1, goroutines := setPhase s.goroutines g gr .done }
      else none
    | none => none
  | .ret =>
    if s.returned = false ∧ s.i = inputs.length ∧ s.wg = 0 then
      some { s with returned := true }
    else none

/-- The state after the steps of a schedule, `none` when one of them cannot be
taken. -/
def exec {Input Invoice : Type} (f : Input → Option Invoice × Option GoError)
    (inputs : List Input) : List Action → BatchState Input Invoice →
    Option (BatchState Input Invoice)
  | [], s => some s
  | a :: rest, s =>
    match step f inputs s a with
    | some s' => exec f inputs rest s'
    | none => none

/-- The method `InvoiceService.BatchCreate` under a schedule of its goroutines:
the slice it returns, when the schedule runs it up to its `return`. -/
def BatchCreate {Input Invoice : Type} (f : Input → Option Invoice × Option GoError)
    (inputs : List Input) (schedule : List Action) : Option (List (BatchResult Invoice)) :=
  match exec f inputs schedule (batchInit inputs) with
  | some s => if s.returned then some s.results else none
  | none => none

/-- One for a goroutine whose provider call is in flight, zero otherwise. -/
def isCalling : Phase → Nat
  | .calling => 1
  | _ => 0

/-- One for a goroutine that holds a place in the channel `sem`, zero
otherwise. -/
def holdsPlace : Phase → Nat
  | .calling => 1
  | .finished => 1
  | _ => 0

/-- One for a goroutine that has not yet called `wg.Done()`, zero otherwise. -/
def notDone : Phase → Nat
  | .done => 0
  | _ => 1

/-- The number of provider calls in flight. -/
def inFlight {Input Invoice : Type} (s : BatchState Input Invoice) : Nat :=
  (s.goroutines.map fun gr => isCalling gr.phase).sum

/-- The number of goroutines that hold a place in the channel `sem`. -/
def holders {Input Invoice : Type} (s : BatchState Input Invoice) : Nat :=
  (s.goroutines.map fun gr => holdsPlace gr.phase).sum

/-- The number of goroutines that have not yet called `wg.Done()`. -/
def pending {Input Invoice : Type} (s : BatchState Input Invoice) : Nat :=
  (s.goroutines.map fun gr => notDone gr.phase).sum

/-- The number of steps a goroutine still has to take. -/
def stepsLeft : Phase → Nat
  | .waiting => 4
  | .calling => 3
  | .finished => 2
  | .released => 1
  | .done => 0

/-- The number of steps that a run still has to take. -/
def runMeasure {Input Invoice : Type} (inputs : List Input) (s : BatchState Input Invoice) :
    Nat :=
  (if s.returned then 0 else 1) + 5 * (inputs.length - s.i) +
    (s.goroutines.map fun gr => stepsLeft gr.phase).sum

/-- The result of `BatchCreate` as the specification words it: at position `i`
the index `i` and what the provider gives for `inputs[i]`. -/
def batchSpec {Input Invoice : Type} (f : Input → Option Invoice × Option GoError)
    (inputs : List Input) : List (BatchResult Invoice) :=
  inputs.enum.map fun p => { Invoice := (f p.2).1, Err := (f p.2).2, Index := (p.1 : Int) }

/-- What `results[k]` holds in a state: the index once the loop has passed `k`,
the outcome of the call once goroutine `k` has finished it. -/
def slotOf {Input Invoice : Type} (f : Input → Option Invoice × Option GoError)
    (s : BatchState Input Invoice) (k : Nat) : BatchResult Invoice :=
  match s.goroutines[k]? with
  | some gr =>
    if gr.phase = .waiting ∨ gr.phase = .calling then { Index := (k : Int) }
    else { Invoice := (f gr.input).1, Err := (f gr.input).2, Index := (k : Int) }
  | none => {}

/-- The facts that hold in every state of a run. -/
structure BatchInv {Input Invoice : Type} (f : Input → Option Invoice × Option GoError)
    (inputs : List Input) (s : BatchState Input Invoice) : Prop where
  i_le : s.i ≤ inputs.length
  len_goroutines : s.goroutines.length = s.i
  len_results : s.results.length = inputs.length
  args : ∀ (g : Nat) (gr : Goroutine Input), s.goroutines[g]? = some gr → gr.idx = g ∧ inputs[g]? = some gr.input
  sem_eq : s.sem = holders s
  sem_le : s.sem ≤ semCapacity
  wg_eq : s.wg = pending s
  slots : ∀ (k : Nat) (r : BatchResult Invoice), s.results[k]? = some r → r = slotOf f s k
  ret_done : s.returned = true → s.i = inputs.length ∧ pending s = 0

/-! ## merit/auth.go: crypto/sha256, crypto/hmac, encoding/base64 and sign -/

/-- A byte from a number, reduced modulo 256. -/
def byteOf (n : Nat) : Byte := Fin.ofNat (n % 256)

/-- Addition of `uint32` values. -/
def add32 (a b : Nat) : Nat := (a + b) % 2 ^ 32

/-- The function `bits.RotateLeft32(x, -n)`: rotation to the right by `n`. -/
def rotr32 (x n : Nat) : Nat := ((x >>> n) ||| (x <<< (32 - n))) % 2 ^ 32

/-- The table `_K` of `crypto/sha256`. -/
def sha256K : List Nat :=
  [0x428a2f98, 0x71374491, 0xb5c0fbcf, 0xe9b5dba5, 0x3956c25b, 0x59f111f1, 0x923f82a4, 0xab1c5ed5,
   0xd807aa98, 0x12835b01, 0x243185be, 0x550c7dc3, 0x72be5d74, 0x80deb1fe, 0x9bdc06a7, 0xc19bf174,
   0xe49b69c1, 0xefbe4786, 0x0fc19dc6, 0x240ca1cc, 0x2de92c6f, 0x4a7484aa, 0x5cb0a9dc, 0x76f988da,
   0x983e5152, 0xa831c66d, 0xb00327c8, 0xbf597fc7, 0xc6e00bf3, 0xd5a79147, 0x06ca6351, 0x14292967,
   0x27b70a85, 0x2e1b2138, 0x4d2c6dfc, 0x53380d13, 0x650a7354, 0x766a0abb, 0x81c2c92e, 0x92722c85,
   0xa2bfe8a1, 0xa81a664b, 0xc24b8b70, 0xc76c51a3, 0xd192e819, 0xd6990624, 0xf40e3585, 0x106aa070,
   0x19a4c116, 0x1e376c08, 0x2748774c, 0x34b0bcb5, 0x391c0cb3, 0x4ed8aa4a, 0x5b9cca4f, 0x682e6ff3,
   0x748f82ee, 0x78a5636f, 0x84c87814, 0x8cc70208, 0x90befffa, 0xa4506ceb, 0xbef9a3f7, 0xc67178f2]

/-- The chaining value of SHA-256: the eight `uint32` words `h[0..7]`. -/
structure Digest where
  h0 : Nat
  h1 : Nat
  h2 : Nat
  h3 : Nat
  h4 : Nat
  h5 : Nat
  h6 : Nat
  h7 : Nat
  deriving DecidableEq, Repr

/-- The initial chaining value `init0 .. init7`. -/
def sha256Init : Digest :=
  ⟨0x6a09e667, 0xbb67ae85, 0x3c6ef372, 0xa54ff53a, 0x510e527f, 0x9b05688c, 0x1f83d9ab,
    0x5be0cd19⟩

/-- The big-endian `uint32` made of four bytes. -/
def be32 (a b c d : Byte) : Nat := a.val <<< 24 ||| b.val <<< 16 ||| c.val <<< 8 ||| d.val

/-- The first sixteen words of the message schedule: the block read as
big-endian words. -/
def blockWords : GoString → List Nat
  | a :: b :: c :: d :: rest => be32 a b c d :: blockWords rest
  | _ => []

/-- The message schedule extended by `n` more words:
`w[i] = σ1(w[i-2]) + w[i-7] + σ0(w[i-15]) + w[i-16]`. -/
def extendSchedule : Nat → List Nat → List Nat
  | 0, w => w
  | n + 1, w =>
    let i := w.length
    let v1 := w.getD (i - 2) 0
    let t1 := rotr32 v1 17 ^^^ rotr32 v1 19 ^^^ (v1 >>> 10)
    let v2 := w.getD (i - 15) 0
    let t2 := rotr32 v2 7 ^^^ rotr32 v2 18 ^^^ (v2 >>> 3)
    extendSchedule n (w ++ [add32 (add32 (add32 t1 (w.getD (i - 7) 0)) t2) (w.getD (i - 16) 0)])

/-- One round of the compression function, with round constant `k` and
schedule word `w`. -/
def sha256Round (s : Digest) (kw : Nat × Nat) : Digest :=
  let t1 := add32 (add32 (add32 (add32 s.h7
    (rotr32 s.h4 6 ^^^ rotr32 s.h4 11 ^^^ rotr32 s.h4 25))
    ((s.h4 &&& s.h5) ^^^ ((s.h4 ^^^ (2 ^ 32 - 1)) &&& s.h6))) kw.1) kw.2
  let t2 := add32 (rotr32 s.h0 2 ^^^ rotr32 s.h0 13 ^^^ rotr32 s.h0 22)
    ((s.h0 &&& s.h1) ^^^ (s.h0 &&& s.h2) ^^^ (s.h1 &&& s.h2))
  ⟨add32 t1 t2, s.h0, s.h1, s.h2, add32 s.h3 t1, s.h4, s.h5, s.h6⟩

/-- The function `block` of `crypto/sha256` on one block of 64 bytes. -/
def sha256Block (s : Digest) (p : GoString) : Digest :=
  let w := extendSchedule 48 (blockWords p)
  let r := (sha256K.zip w).foldl sha256Round s
  ⟨add32 s.h0 r.h0, add32 s.h1 r.h1, add32 s.h2 r.h2, add32 s.h3 r.h3,
    add32 s.h4 r.h4, add32 s.h5 r.h5, add32 s.h6 r.h6, add32 s.h7 r.h7⟩

/-- The blocks of a padded message, one after the other.  `fuel` bounds the
number of blocks. -/
def sha256Blocks : Nat → Digest → GoString → Digest
  | 0, s, _ => s
  | _, s, [] => s
  | fuel + 1, s, p@(_ :: _) => sha256Blocks fuel (sha256Block s (p.take 64)) (p.drop 64)

/-- The big-endian bytes of a `uint32`. -/
def putUint32 (x : Nat) : GoString :=
  [byteOf (x >>> 24), byteOf (x >>> 16), byteOf (x >>> 8), byteOf x]

/-- The big-endian bytes of a `uint64`. -/
def putUint64 (x : Nat) : GoString :=
  [byteOf (x >>> 56), byteOf (x >>> 48), byteOf (x >>> 40), byteOf (x >>> 32),
    byteOf (x >>> 24), byteOf (x >>> 16), byteOf (x >>> 8), byteOf x]

/-- The padding that `checkSum` writes after a message of `len` bytes: `0x80`,
zeros up to 56 modulo 64, and the length in bits as a `uint64`. -/
def sha256Padding (len : Nat) : GoString :=
  let t := if len % 64 < 56 then 56 - len % 64 else 64 + 56 - len % 64
  (128 : Byte) :: List.replicate (t - 1) (0 : Byte) ++ putUint64 ((len <<< 3) % 2 ^ 64)

/-- The bytes of a chaining value, big-endian word by word. -/
def Digest.bytes (d : Digest) : GoString :=
  putUint32 d.h0 ++ putUint32 d.h1 ++ putUint32 d.h2 ++ putUint32 d.h3 ++
    putUint32 d.h4 ++ putUint32 d.h5 ++ putUint32 d.h6 ++ putUint32 d.h7

/-- Model of a `crypto/sha256` hash after `data` has been written to it:
what `Sum(nil)` returns. -/
def sha256Sum (data : GoString) : GoString :=
  let p := data ++ sha256Padding data.length
  (sha256Blocks (p.length / 64) sha256Init p).bytes

/-- The constant `sha256.BlockSize`. -/
def sha256BlockSize : Nat := 64

/-- Model of the type `hmac` of `crypto/hmac` over SHA-256.  A hash is
modelled by the bytes written to it; `inner` is what the inner hash has
received, the outer hash is reset when the sum is taken. -/
structure HMAC where
  opad : GoString
  ipad : GoString
  inner : GoString
  deriving DecidableEq, Repr

/-- A key copied into a pad of `sha256.BlockSize` bytes, each byte combined
with `x` by exclusive or. -/
def hmacPad (key : GoString) (x : Nat) : GoString :=
  (key ++ List.replicate (sha256BlockSize - key.length) (0 : Byte)).map
    fun b => byteOf (b.val ^^^ x)

/-- The function `hmac.New(sha256.New, key)`. -/
def hmacNew (key : GoString) : HMAC :=
  let key := if key.length > sha256BlockSize then sha256Sum key else key
  let ipad := hmacPad key 0x36
  let opad := hmacPad key 0x5c
  { opad := opad, ipad := ipad, inner := ipad }

/-- The method `Write` of an `hmac`. -/
def HMAC.Write (h : HMAC) (p : GoString) : HMAC := { h with inner := h.inner ++ p }

/-- The method `Sum` of an `hmac`, called with `nil`. -/
def HMAC.Sum (h : HMAC) : GoString := sha256Sum (h.opad ++ sha256Sum h.inner)

/-- The alphabet of `base64.StdEncoding`. -/
def encodeStd : GoString :=
  lit "ABCDEFGHIJKLMNOPQRSTUVWXYZabcdefghijklmnopqrstuvwxyz0123456789+/"

/-- The padding character `base64.StdPadding`. -/
def StdPadding : Byte := 61

/-- The character that stands for six bits. -/
def base64Char (v : Nat) : Byte := encodeStd.getD (v % 64) 0

/-- The method `base64.StdEncoding.EncodeToString`. -/
def EncodeToString : GoString → GoString
  | [] => []
  | [a] =>
    let v := a.val <<< 16
    [base64Char (v >>> 18), base64Char (v >>> 12), StdPadding, StdPadding]
  | [a, b] =>
    let v := a.val <<< 16 ||| b.val <<< 8
    [base64Char (v >>> 18), base64Char (v >>> 12), base64Char (v >>> 6), StdPadding]
  | a :: b :: c :: rest =>
    let v := a.val <<< 16 ||| b.val <<< 8 ||| c.val
    base64Char (v >>> 18) :: base64Char (v >>> 12) :: base64Char (v >>> 6) :: base64Char v ::
      EncodeToString rest

/-- The function `sign`. -/
def sign (apiID apiKey ts body : GoString) : GoString :=
  let data := apiID ++ ts ++ body
  let key := apiKey
  let mac := hmacNew key
  let mac := mac.Write data
  let sig := mac.Sum
  EncodeToString sig

/-- HMAC-SHA256 of RFC 2104: `H((K ⊕ opad) ∥ H((K ⊕ ipad) ∥ message))`, where
`K` is the key, hashed first when it is longer than a block, filled with zeros
to the length of a block. -/
def hmacSHA256 (key message : GoString) : GoString :=
  let k := if key.length > 64 then sha256Sum key else key
  let k := k ++ List.replicate (64 - k.length) (0 : Byte)
  sha256Sum (k.map (fun b => byteOf (b.val ^^^ 0x5c)) ++
    sha256Sum (k.map (fun b => byteOf (b.val ^^^ 0x36)) ++ message))

/-- The signature as the specification words it. -/
def signSpec (apiID apiKey ts body : GoString) : GoString :=
  EncodeToString (hmacSHA256 apiKey (apiID ++ ts ++ body))

/-! ## Items: inputs.go, merit/types.go, merit_adapter.go -/

/-- The struct `UpdateItemInput`; a nil pointer is `none`. -/
structure UpdateItemInput where
  ID : GoString := []
  Code : Option GoString := none
  Description : Option GoString := none
  SalesPrice : Option Decimal := none
  TaxID : Option GoString := none
  deriving DecidableEq, Repr

/-- The struct `merit.UpdateItemRequest`. -/
structure UpdateItemRequest where
  ID : GoString := []
  Code : GoString := []
  Description : GoString := []
  SalesPrice : Decimal := Decimal.zero
  ItemGrCode : GoString := []
  DiscountPct : Decimal := Decimal.zero
  EANCode : GoString := []
  NameEN : GoString := []
  LastPurchasePrice : Decimal := Decimal.zero
  SalesAccountCode : GoString := []
  InventoryAccountCode : GoString := []
  ItemCostAccountCode : GoString := []
  TaxID : GoString := []
  GTUCode : Option Int := none
  deriving DecidableEq, Repr

/-- The request that `meritProvider.UpdateItem` builds before it calls the
client: the `ID`, and each field of the input that is present. -/
def updateItemRequest (input : UpdateItemInput) : UpdateItemRequest :=
  let req : UpdateItemRequest := { ID := input.ID }
  let req := match input.Code with
    | some v => { req with Code := v }
    | none => req
  let req := match input.Description with
    | some v => { req with Description := v }
    | none => req
  let req := match input.SalesPrice with
    | some v => { req with SalesPrice := v }
    | none => req
  let req := match input.TaxID with
    | some v => { req with TaxID := v }
    | none => req
  req

/-- The method `meritProvider.UpdateItem`; `clientUpdateItem` is the client
call `p.client.UpdateItem(ctx, req)`. -/
def UpdateItem (clientUpdateItem : UpdateItemRequest → Option GoError)
    (input : UpdateItemInput) : Option GoError :=
  wrapError "UpdateItem" (clientUpdateItem (updateItemRequest input))

/-- Model of `json.Marshal` on a `merit.UpdateItemRequest`: the members of the
JSON object in the order of the struct fields.  The three fields of type
`decimal.Decimal` are struct values, which `omitempty` never leaves out. -/
def marshalUpdateItemRequest (req : UpdateItemRequest) : List (String × JSONValue) :=
  [("Id", .str req.ID)] ++
  omitEmptyString "Code" req.Code ++
  omitEmptyString "Description" req.Description ++
  [("SalesPrice", .decimal req.SalesPrice)] ++
  omitEmptyString "ItemGrCode" req.ItemGrCode ++
  [("DiscountPct", .decimal req.DiscountPct)] ++
  omitEmptyString "EANCode" req.EANCode ++
  omitEmptyString "NameEN" req.NameEN ++
  [("LastPurchasePrice", .decimal req.LastPurchasePrice)] ++
  omitEmptyString "SalesAccountCode" req.SalesAccountCode ++
  omitEmptyString "InventoryAccountCode" req.InventoryAccountCode ++
  omitEmptyString "ItemCostAccountCode" req.ItemCostAccountCode ++
  omitEmptyString "TaxId" req.TaxID ++
  omitNilInt "GTUCode" req.GTUCode

/-- The member of a JSON object with a given key, if there is one. -/
def jsonMember (obj : List (String × JSONValue)) (key : String) : Option JSONValue :=
  (obj.find? fun kv => kv.1 == key).map Prod.snd

/-- The string is empty or consists of white space only: every rune that a
range loop over it produces is white space. -/
def isBlank (s : GoString) : Bool := (runes s).all isSpace

/-- An error from outside the package, such as one of the network or of the
JSON decoder: no `*APIError` and no `ErrNotFound` is in its chain. -/
def isExternal (e : GoError) : Bool :=
  (errorsAsAPIError e).isNone && !errorsIs e .ErrNotFound

/-! ## merit/customers.go and the provider behind CustomerService -/

/-- The method `Client.ListCustomers` of package `merit`: `post` with a pointer
to a nil slice as the target.  The arguments are those of `post`. -/
def merit.ListCustomers (marshal : Except GoError GoString) (newRequestErr : Option GoError)
    (send : Except GoError HTTPResponse)
    (unmarshal : GoString → List CustomerListItem → List CustomerListItem × Option GoError) :
    List CustomerListItem × Option GoError :=
  match post marshal newRequestErr send unmarshal (some []) with
  | (some err, _) => ([], some err)
  | (none, result) => (result.getD [], none)

/-- The provider of a `CustomerService` that is backed by `meritProvider`:
`FindCustomerByEmail` is the method of `meritProvider` on what the listing call
of the client answers.  The state `σ` is that of the backend, which the
listing call and the creation of a customer read and change. -/
def meritCustomerProvider {σ : Type} (ToLower : GoString → GoString)
    (listCustomers : σ → (List CustomerListItem × Option GoError) × σ)
    (createCustomer : σ → CreateCustomerInput → (Option Customer × Option GoError) × σ) :
    CustomerProvider σ :=
  { FindCustomerByEmail := fun st email =>
      match listCustomers st with
      | ((items, err), st1) => (FindCustomerByEmail ToLower items err email, st1),
    CreateCustomer := createCustomer }

/-! ## helpers.go -/

/-- What the code uses of the type `time.Time` of the standard library, for a
type `Time` of time values: the zero value `time.Time{}`, the method `IsZero`,
the method `Format` with its layout, and the function `time.Parse` with its
layout and its input. -/
structure TimeOps (Time : Type) where
  zero : Time
  IsZero : Time → Bool
  Format : Time → GoString → GoString
  Parse : GoString → GoString → Time × Option GoError

/-- The constant `meritDateFormat`. -/
def meritDateFormat : GoString := lit "20060102"

/-- The function `parseDate`; the error of `time.Parse` is dropped. -/
def parseDate {Time : Type} (ops : TimeOps Time) (s : GoString) : Time :=
  if s = [] then ops.zero
  else (ops.Parse meritDateFormat s).1

/-- The function `formatDate`. -/
def formatDate {Time : Type} (ops : TimeOps Time) (t : Time) : GoString :=
  if ops.IsZero t then []
  else ops.Format t meritDateFormat

/-! ## Invoices and purchases: types.go, inputs.go, merit/types.go -/

/-- The struct `InvoiceLine`. -/
structure InvoiceLine where
  ID : GoString := []
  Description : GoString := []
  Quantity : Decimal := Decimal.zero
  UnitPrice : Decimal := Decimal.zero
  TaxID : GoString := []
  TaxName : GoString := []
  TaxPct : Decimal := Decimal.zero
  AmountExclVat : Decimal := Decimal.zero
  AmountInclVat : Decimal := Decimal.zero
  VatAmount : Decimal := Decimal.zero
  AccountCode : GoString := []
  deriving DecidableEq, Repr

/-- The struct `InvoicePayment`. -/
structure InvoicePayment (Time : Type) where
  Date : Time
  Amount : Decimal := Decimal.zero
  Method : GoString := []
  PaymentID : GoString := []

/-- The struct `Invoice`.  A field that a composite literal leaves out holds
its zero value. -/
structure Invoice (Time : Type) where
  ID : GoString := []
  Number : GoString := []
  CustomerName : GoString := []
  CustomerID : GoString := []
  DocDate : Time
  DueDate : Time
  TotalAmount : Decimal := Decimal.zero
  TaxAmount : Decimal := Decimal.zero
  PaidAmount : Decimal := Decimal.zero
  Currency : GoString := []
  Paid : Bool := false
  Status : InvoiceStatus
  ReferenceNo : GoString := []
  Lines : List InvoiceLine := []
  Payments : List (InvoicePayment Time) := []

/-- The struct `PurchaseInvoice`. -/
structure PurchaseInvoice (Time : Type) where
  ID : GoString := []
  Number : GoString := []
  VendorName : GoString := []
  VendorID : GoString := []
  DocDate : Time
  DueDate : Time
  TotalAmount : Decimal := Decimal.zero
  TaxAmount : Decimal := Decimal.zero
  PaidAmount : Decimal := Decimal.zero
  Currency : GoString := []
  Paid : Bool := false
  Status : InvoiceStatus
  ReferenceNo : GoString := []

/-- The struct `CreateInvoiceInput`. -/
structure CreateInvoiceInput (Time : Type) where
  CustomerID : GoString := []
  CustomerName : GoString := []
  CustomerRegNo : GoString := []
  CustomerEmail : GoString := []
  CustomerAddress : GoString := []
  CustomerCountryCode : GoString := []
  DocDate : Time
  DueDate : Time
  InvoiceNo : GoString := []
  RefNo : GoString := []
  Currency : GoString := []
  Lines : List CreateInvoiceLineInput := []
  TotalAmount : Decimal := Decimal.zero
  Comment : GoString := []
  FooterComment : GoString := []

/-- The struct `CreateCreditNoteInput`. -/
structure CreateCreditNoteInput (Time : Type) where
  CustomerID : GoString := []
  CustomerName : GoString := []
  CustomerRegNo : GoString := []
  CustomerEmail : GoString := []
  CustomerAddress : GoString := []
  CustomerCountryCode : GoString := []
  DocDate : Time
  DueDate : Time
  InvoiceNo : GoString := []
  RefNo : GoString := []
  Currency : GoString := []
  Lines : List CreateInvoiceLineInput := []
  Comment : GoString := []
  FooterComment : GoString := []
  OriginalInvoiceNo : GoString := []

/-- The struct `CreatePurchaseInput`. -/
structure CreatePurchaseInput (Time : Type) where
  VendorID : GoString := []
  VendorName : GoString := []
  VendorRegNo : GoString := []
  VendorEmail : GoString := []
  VendorAddress : GoString := []
  VendorCountryCode : GoString := []
  DocDate : Time
  DueDate : Time
  BillNo : GoString := []
  RefNo : GoString := []
  Currency : GoString := []
  Lines : List CreateInvoiceLineInput := []
  Comment : GoString := []
  FooterComment : GoString := []

/-- The constant `merit.DocInvoice`. -/
def merit.DocInvoice : Int := 1

/-- The constant `merit.DocCredit`. -/
def merit.DocCredit : Int := 5

/-- The struct `merit.InvoiceListItem`. -/
structure InvoiceListItem where
  SIHId : GoString := []
  DepartmentCode : GoString := []
  DepartmentName : GoString := []
  InvoiceNo : GoString := []
  DocumentDate : GoString := []
  TransactionDate : GoString := []
  CustomerName : GoString := []
  CustomerRegNo : GoString := []
  CustomerID : GoString := []
  HComment : GoString := []
  FComment : GoString := []
  DueDate : GoString := []
  CurrencyCode : GoString := []
  CurrencyRate : Decimal := Decimal.zero
  TaxAmount : Decimal := Decimal.zero
  RoundingAmount : Decimal := Decimal.zero
  TotalAmount : Decimal := Decimal.zero
  ProfitAmount : Decimal := Decimal.zero
  TotalSum : Decimal := Decimal.zero
  UserName : GoString := []
  ReferenceNo : GoString := []
  PriceInclVat : Bool := false
  VatRegNo : GoString := []
  PaidAmount : Decimal := Decimal.zero
  EInvSent : Bool := false
  EmailSent : GoString := []
  Paid : Bool := false
  ChangedDate : GoString := []
  AccountingDoc : Int := 0
  BatchInfo : GoString := []

/-- The struct `merit.InvoiceDetailRow`. -/
structure InvoiceDetailRow where
  SILId : GoString := []
  ArticleCode : GoString := []
  LocationCode : GoString := []
  Quantity : Decimal := Decimal.zero
  Price : Decimal := Decimal.zero
  TaxID : GoString := []
  TaxName : GoString := []
  TaxPct : Decimal := Decimal.zero
  AmountExclVat : Decimal := Decimal.zero
  AmountInclVat : Decimal := Decimal.zero
  VatAmount : Decimal := Decimal.zero
  AccountCode : GoString := []
  DepartmentCode : GoString := []
  DepartmentName : GoString := []
  ItemCostAmount : Decimal := Decimal.zero
  ProfitAmount : Decimal := Decimal.zero
  DiscountPct : Decimal := Decimal.zero
  DiscountAmount : Decimal := Decimal.zero
  Description : GoString := []
  UOMName : GoString := []
  FixAsset : Bool := false

/-- The struct `merit.PaymentInfo`. -/
structure PaymentInfo where
  PaymDate : GoString := []
  Amount : Decimal := Decimal.zero
  PaymentMethod : GoString := []
  PaymentID : GoString := []

/-- The struct `merit.Attachment`. -/
structure Attachment where
  FileName : GoString := []
  FileContent : GoString := []

/-- The struct `merit.InvoiceDetail`. -/
structure InvoiceDetail where
  SIHId : GoString := []
  DepartmentCode : GoString := []
  DepartmentName : GoString := []
  ProjectCode : GoString := []
  ProjectName : GoString := []
  BatchInfo : GoString := []
  InvoiceNo : GoString := []
  DocumentDate : GoString := []
  TransactionDate : GoString := []
  CustomerID : GoString := []
  CustomerName : GoString := []
  CustomerRegNo : GoString := []
  HComment : GoString := []
  FComment : GoString := []
  DueDate : GoString := []
  CurrencyCode : GoString := []
  CurrencyRate : Decimal := Decimal.zero
  TaxAmount : Decimal := Decimal.zero
  RoundingAmount : Decimal := Decimal.zero
  TotalAmount : Decimal := Decimal.zero
  ProfitAmount : Decimal := Decimal.zero
  TotalSum : Decimal := Decimal.zero
  UserName : GoString := []
  ReferenceNo : GoString := []
  PriceInclVat : Bool := false
  VatRegNo : GoString := []
  PaidAmount : Decimal := Decimal.zero
  EInvSent : Bool := false
  EmailSent : GoString := []
  EInvOperator : Int := 0
  ContractNo : GoString := []
  Paid : Bool := false
  Contact : GoString := []
  Dimensions : List DimensionRef := []
  Lines : List InvoiceDetailRow := []
  Payments : List PaymentInfo := []
  Attachment : Option Attachment := none

/-- The struct `merit.PurchaseListItem`. -/
structure PurchaseListItem where
  PIHId : GoString := []
  DepartmentCode : GoString := []
  DepartmentName : GoString := []
  BatchInfo : GoString := []
  BillNo : GoString := []
  DocumentDate : GoString := []
  TransactionDate : GoString := []
  DueDate : GoString := []
  VendorID : GoString := []
  VendorName : GoString := []
  VendorRegNo : GoString := []
  ReferenceNo : GoString := []
  CurrencyCode : GoString := []
  CurrencyRate : Decimal := Decimal.zero
  TaxAmount : Decimal := Decimal.zero
  RoundingAmount : Decimal := Decimal.zero
  TotalAmount : Decimal := Decimal.zero
  ProfitAmount : Decimal := Decimal.zero
  TotalSum : Decimal := Decimal.zero
  PriceInclVat : Bool := false
  PaidAmount : Decimal := Decimal.zero
  FileExists : Bool := false
  Paid : Bool := false
  ChangedDate : GoString := []

/-- The struct `merit.CustomerRef`, which is also `merit.PayerRef`. -/
structure CustomerRef where
  ID : GoString := []
  Name : GoString := []
  RegNo : GoString := []
  NotTDCustomer : Option Bool := none
  VatRegNo : GoString := []
  CurrencyCode : GoString := []
  PaymentDeadLine : Option Int := none
  OverDueCharge : Decimal := Decimal.zero
  RefNoBase : GoString := []
  Address : GoString := []
  CountryCode : GoString := []
  County : GoString := []
  City : GoString := []
  PostalCode : GoString := []
  PhoneNo : GoString := []
  PhoneNo2 : GoString := []
  HomePage : GoString := []
  Email : GoString := []
  SalesInvLang : GoString := []
  Contact : GoString := []
  GLNCode : GoString := []
  PartyCode : GoString := []
  EInvOperator : Option Int := none
  EInvPaymId : GoString := []
  BankAccount : GoString := []
  Dimensions : List DimensionRef := []
  CustGrCode : GoString := []
  ShowBalance : Option Bool := none
  ApixEInv : GoString := []
  GroupInv : Option Bool := none
  deriving DecidableEq, Repr

/-- The struct `merit.VendorRef`. -/
structure VendorRef where
  ID : GoString := []
  Name : GoString := []
  RegNo : GoString := []
  VatAccountable : Option Bool := none
  VatRegNo : GoString := []
  CurrencyCode : GoString := []
  PaymentDeadLine : Option Int := none
  OverDueCharge : Decimal := Decimal.zero
  Address : GoString := []
  City : GoString := []
  County : GoString := []
  PostalCode : GoString := []
  CountryCode : GoString := []
  PhoneNo : GoString := []
  PhoneNo2 : GoString := []
  HomePage : GoString := []
  Email : GoString := []
  deriving DecidableEq, Repr

/-- The struct `merit.PaymentEntry`. -/
structure PaymentEntry where
  PaymentMethod : GoString := []
  PaidAmount : Decimal := Decimal.zero
  PaymDate : GoString := []
  deriving DecidableEq, Repr

/-- The struct `merit.CreateInvoiceRequest`. -/
structure CreateInvoiceRequest where
  Customer : CustomerRef := {}
  AccountingDoc : Int := 0
  DocDate : GoString := []
  DueDate : GoString := []
  TransactionDate : GoString := []
  InvoiceNo : GoString := []
  RefNo : GoString := []
  CurrencyCode : GoString := []
  CurrencyRate : Decimal := Decimal.zero
  DepartmentCode : GoString := []
  Dimensions : List DimensionRef := []
  InvoiceRow : List InvoiceRow := []
  TaxAmount : List TaxAmountEntry := []
  RoundingAmount : Decimal := Decimal.zero
  TotalAmount : Decimal := Decimal.zero
  Payment : Option PaymentEntry := none
  Hcomment : GoString := []
  Fcomment : GoString := []
  ContractNo : GoString := []
  PDF : GoString := []
  FileName : GoString := []
  Payer : Option CustomerRef := none
  ReserveItems : Bool := false
  deriving DecidableEq, Repr

/-- The struct `merit.CreateInvoiceResponse`. -/
structure CreateInvoiceResponse where
  CustomerID : GoString := []
  InvoiceID : GoString := []
  InvoiceNo : GoString := []
  RefNo : GoString := []
  NewCustomer : Bool := false
  deriving DecidableEq, Repr

/-- The struct `merit.CreatePurchaseRequest`. -/
structure CreatePurchaseRequest where
  Vendor : VendorRef := {}
  ExpenseClaim : Bool := false
  DocDate : GoString := []
  DueDate : GoString := []
  TransactionDate : GoString := []
  BillNo : GoString := []
  RefNo : GoString := []
  BankAccount : GoString := []
  CurrencyCode : GoString := []
  CurrencyRate : Decimal := Decimal.zero
  DepartmentCode : GoString := []
  Dimensions : List DimensionRef := []
  InvoiceRow : List InvoiceRow := []
  TaxAmount : List TaxAmountEntry := []
  RoundingAmount : Decimal := Decimal.zero
  TotalAmount : Decimal := Decimal.zero
  Payment : Option PaymentEntry := none
  Hcomment : GoString := []
  Fcomment : GoString := []
  AttachmentObj : Option Attachment := none

/-- The struct `merit.CreatePurchaseResponse`. -/
structure CreatePurchaseResponse where
  VendorID : GoString := []
  BillID : GoString := []
  BillNo : GoString := []
  RefNo : GoString := []
  BatchInfo : GoString := []
  deriving DecidableEq, Repr

/-! ## merit_adapter.go: invoices and purchases -/

/-- The request that `meritProvider.CreateInvoice` builds before it calls the
client.  No field of the request is taken from `input.TotalAmount`. -/
def createInvoiceRequest {Time : Type} (ops : TimeOps Time) (iter : TaxMap → TaxMap)
    (input : CreateInvoiceInput Time) : CreateInvoiceRequest :=
  match buildRowsAndTaxes iter input.Lines with
  | (rows, taxes) =>
    { Customer := {
        ID := input.CustomerID,
        Name := input.CustomerName,
        RegNo := input.CustomerRegNo,
        Email := input.CustomerEmail,
        Address := input.CustomerAddress,
        CountryCode := input.CustomerCountryCode },
      AccountingDoc := merit.DocInvoice,
      DocDate := formatDate ops input.DocDate,
      DueDate := formatDate ops input.DueDate,
      InvoiceNo := input.InvoiceNo,
      RefNo := input.RefNo,
      CurrencyCode := input.Currency,
      InvoiceRow := rows,
      TaxAmount := taxes,
      Hcomment := input.Comment,
      Fcomment := input.FooterComment }

/-- The method `meritProvider.CreateInvoice`.  `clientCreateInvoice` is the
client call `p.client.CreateInvoice(ctx, req)`, which returns a response or an
error; `iter` is the order in which the map of tax amounts is ranged over. -/
def CreateInvoice {Time : Type} (ops : TimeOps Time) (iter : TaxMap → TaxMap)
    (clientCreateInvoice : CreateInvoiceRequest → Except GoError CreateInvoiceResponse)
    (input : CreateInvoiceInput Time) : Option (Invoice Time) × Option GoError :=
  let req := createInvoiceRequest ops iter input
  match clientCreateInvoice req with
  | .error err => (none, wrapError "CreateInvoice" (some err))
  | .ok resp =>
    (some {
      ID := resp.InvoiceID,
      Number := resp.InvoiceNo,
      CustomerName := input.CustomerName,
      CustomerID := resp.CustomerID,
      DocDate := input.DocDate,
      DueDate := input.DueDate,
      Currency := input.Currency,
      ReferenceNo := resp.RefNo,
      Status := .InvoiceStatusUnpaid }, none)

/-- The request that `meritProvider.CreateCreditNote` builds. -/
def createCreditNoteRequest {Time : Type} (ops : TimeOps Time) (iter : TaxMap → TaxMap)
    (input : CreateCreditNoteInput Time) : CreateInvoiceRequest :=
  match buildRowsAndTaxes iter input.Lines with
  | (rows, taxes) =>
    { Customer := {
        ID := input.CustomerID,
        Name := input.CustomerName,
        RegNo := input.CustomerRegNo,
        Email := input.CustomerEmail,
        Address := input.CustomerAddress,
        CountryCode := input.CustomerCountryCode },
      AccountingDoc := merit.DocCredit,
      DocDate := formatDate ops input.DocDate,
      DueDate := formatDate ops input.DueDate,
      InvoiceNo := input.InvoiceNo,
      RefNo := input.RefNo,
      CurrencyCode := input.Currency,
      InvoiceRow := rows,
      TaxAmount := taxes,
      Hcomment := input.Comment,
      Fcomment := input.FooterComment }

/-- The method `meritProvider.CreateCreditNote`. -/
def CreateCreditNote {Time : Type} (ops : TimeOps Time) (iter : TaxMap → TaxMap)
    (clientCreateInvoice : CreateInvoiceRequest → Except GoError CreateInvoiceResponse)
    (input : CreateCreditNoteInput Time) : Option (Invoice Time) × Option GoError :=
  let req := createCreditNoteRequest ops iter input
  match clientCreateInvoice req with
  | .error err => (none, wrapError "CreateCreditNote" (some err))
  | .ok resp =>
    (some {
      ID := resp.InvoiceID,
      Number := resp.InvoiceNo,
      CustomerName := input.CustomerName,
      CustomerID := resp.CustomerID,
      DocDate := input.DocDate,
      DueDate := input.DueDate,
      Currency := input.Currency,
      ReferenceNo := resp.RefNo,
      Status := .InvoiceStatusUnpaid }, none)

/-- The request that `meritProvider.CreatePurchase` builds. -/
def createPurchaseRequest {Time : Type} (ops : TimeOps Time) (iter : TaxMap → TaxMap)
    (input : CreatePurchaseInput Time) : CreatePurchaseRequest :=
  match buildRowsAndTaxes iter input.Lines with
  | (rows, taxes) =>
    { Vendor := {
        ID := input.VendorID,
        Name := input.VendorName,
        RegNo := input.VendorRegNo,
        Email := input.VendorEmail,
        Address := input.VendorAddress,
        CountryCode := input.VendorCountryCode },
      DocDate := formatDate ops input.DocDate,
      DueDate := formatDate ops input.DueDate,
      BillNo := input.BillNo,
      RefNo := input.RefNo,
      CurrencyCode := input.Currency,
      InvoiceRow := rows,
      TaxAmount := taxes,
      Hcomment := input.Comment,
      Fcomment := input.FooterComment }

/-- The method `meritProvider.CreatePurchase`; `clientCreatePurchase` is the
client call `p.client.CreatePurchase(ctx, req)`. -/
def CreatePurchase {Time : Type} (ops : TimeOps Time) (iter : TaxMap → TaxMap)
    (clientCreatePurchase : CreatePurchaseRequest → Except GoError CreatePurchaseResponse)
    (input : CreatePurchaseInput Time) : Option (PurchaseInvoice Time) × Option GoError :=
  let req := createPurchaseRequest ops iter input
  match clientCreatePurchase req with
  | .error err => (none, wrapError "CreatePurchase" (some err))
  | .ok resp =>
    (some {
      ID := resp.BillID,
      Number := resp.BillNo,
      VendorName := input.VendorName,
      VendorID := resp.VendorID,
      DocDate := input.DocDate,
      DueDate := input.DueDate,
      Currency := input.Currency,
      ReferenceNo := resp.RefNo,
      Status := .InvoiceStatusUnpaid }, none)

/-- The function `mapInvoiceListItem`. -/
def mapInvoiceListItem {Time : Type} (ops : TimeOps Time) (item : InvoiceListItem) :
    Invoice Time :=
  { ID := item.SIHId,
    Number := item.InvoiceNo,
    CustomerName := item.CustomerName,
    CustomerID := item.CustomerID,
    DocDate := parseDate ops item.DocumentDate,
    DueDate := parseDate ops item.DueDate,
    TotalAmount := item.TotalAmount,
    TaxAmount := item.TaxAmount,
    PaidAmount := item.PaidAmount,
    Currency := item.CurrencyCode,
    Paid := item.Paid,
    Status := deriveInvoiceStatus item.Paid item.PaidAmount,
    ReferenceNo := item.ReferenceNo }

/-- The function `mapInvoiceDetail`, on the struct that its argument points
to. -/
def mapInvoiceDetail {Time : Type} (ops : TimeOps Time) (d : InvoiceDetail) : Invoice Time :=
  let lines : List InvoiceLine := d.Lines.map fun row =>
    { ID := row.SILId,
      Description := row.Description,
      Quantity := row.Quantity,
      UnitPrice := row.Price,
      TaxID := row.TaxID,
      TaxName := row.TaxName,
      TaxPct := row.TaxPct,
      AmountExclVat := row.AmountExclVat,
      AmountInclVat := row.AmountInclVat,
      VatAmount := row.VatAmount,
      AccountCode := row.AccountCode }
  let payments : List (InvoicePayment Time) := d.Payments.map fun pm =>
    { Date := parseDate ops pm.PaymDate,
      Amount := pm.Amount,
      Method := pm.PaymentMethod,
      PaymentID := pm.PaymentID }
  { ID := d.SIHId,
    Number := d.InvoiceNo,
    CustomerName := d.CustomerName,
    CustomerID := d.CustomerID,
    DocDate := parseDate ops d.DocumentDate,
    DueDate := parseDate ops d.DueDate,
    TotalAmount := d.TotalAmount,
    TaxAmount := d.TaxAmount,
    PaidAmount := d.PaidAmount,
    Currency := d.CurrencyCode,
    Paid := d.Paid,
    Status := deriveInvoiceStatus d.Paid d.PaidAmount,
    ReferenceNo := d.ReferenceNo,
    Lines := lines,
    Payments := payments }

/-- The function `mapPurchaseListItem`. -/
def mapPurchaseListItem {Time : Type} (ops : TimeOps Time) (item : PurchaseListItem) :
    PurchaseInvoice Time :=
  { ID := item.PIHId,
    Number := item.BillNo,
    VendorName := item.VendorName,
    VendorID := item.VendorID,
    DocDate := parseDate ops item.DocumentDate,
    DueDate := parseDate ops item.DueDate,
    TotalAmount := item.TotalAmount,
    TaxAmount := item.TaxAmount,
    PaidAmount := item.PaidAmount,
    Currency := item.CurrencyCode,
    Paid := item.Paid,
    Status := deriveInvoiceStatus item.Paid item.PaidAmount,
    ReferenceNo := item.ReferenceNo }

/-- The function `mapPurchaseDetail`, on the struct that its argument points
to. -/
def mapPurchaseDetail {Time : Type} (ops : TimeOps Time) (d : InvoiceDetail) :
    PurchaseInvoice Time :=
  { ID := d.SIHId,
    Number := d.InvoiceNo,
    VendorName := d.CustomerName,
    VendorID := d.CustomerID,
    DocDate := parseDate ops d.DocumentDate,
    DueDate := parseDate ops d.DueDate,
    TotalAmount := d.TotalAmount,
    TaxAmount := d.TaxAmount,
    PaidAmount := d.PaidAmount,
    Currency := d.CurrencyCode,
    Paid := d.Paid,
    Status := deriveInvoiceStatus d.Paid d.PaidAmount,
    ReferenceNo := d.ReferenceNo }

/-! ## Facts about the UTF-8 decoder -/

theorem decodeRune_ascii (b : Byte) (rest : GoString) (h : b.val < 0x80) :
    decodeRune (b :: rest) = (b.val, 1) := by
  simp [decodeRune, h]

/-- The five ways in which `decodeRune` answers on a non-empty string. -/
theorem decodeRune_cases (b : Byte) (rest : GoString) :
    (b.val < 0x80 ∧ decodeRune (b :: rest) = (b.val, 1)) ∨
    (0x80 ≤ b.val ∧ decodeRune (b :: rest) = (RuneError, 1)) ∨
    (∃ s1 t, rest = s1 :: t ∧ 0xC2 ≤ b.val ∧ b.val < 0xE0 ∧ 0x80 ≤ s1.val ∧ s1.val ≤ 0xBF ∧
      decodeRune (b :: rest) = ((b.val % 32) * 64 + s1.val % 64, 2)) ∨
    (∃ s1 s2 t, rest = s1 :: s2 :: t ∧ 0xE0 ≤ b.val ∧ b.val < 0xF0 ∧
      (if b.val = 0xE0 then 0xA0 else 0x80) ≤ s1.val ∧
      s1.val ≤ (if b.val = 0xED then 0x9F else 0xBF) ∧ 0x80 ≤ s2.val ∧ s2.val ≤ 0xBF ∧
      decodeRune (b :: rest) = ((b.val % 16) * 4096 + (s1.val % 64) * 64 + s2.val % 64, 3)) ∨
    (∃ s1 s2 s3 t, rest = s1 :: s2 :: s3 :: t ∧ 0xF0 ≤ b.val ∧ b.val < 0xF5 ∧
      (if b.val = 0xF0 then 0x90 else 0x80) ≤ s1.val ∧
      s1.val ≤ (if b.val = 0xF4 then 0x8F else 0xBF) ∧ 0x80 ≤ s2.val ∧ s2.val ≤ 0xBF ∧
      0x80 ≤ s3.val ∧ s3.val ≤ 0xBF ∧
      decodeRune (b :: rest) =
        ((b.val % 8) * 262144 + (s1.val % 64) * 4096 + (s2.val % 64) * 64 + s3.val % 64, 4)) := by
  by_cases h1 : b.val < 0x80
  · exact Or.inl ⟨h1, by simp [decodeRune, h1]⟩
  by_cases h2 : b.val < 0xC2
  · exact Or.inr (Or.inl ⟨by omega, by simp [decodeRune, h1, h2]⟩)
  by_cases h3 : b.val < 0xE0
  · cases rest with
    | nil => exact Or.inr (Or.inl ⟨by omega, by simp [decodeRune, h1, h2, h3]⟩)
    | cons s1 t =>
      by_cases hr : inRange 0x80 0xBF s1 = true
      · have hr2 := hr
        simp only [inRange, Bool.and_eq_true, decide_eq_true_eq] at hr2
        exact Or.inr (Or.inr (Or.inl ⟨s1, t, rfl, by omega, h3, hr2.1, hr2.2,
          by simp [decodeRune, h1, h2, h3, hr]⟩))
      · exact Or.inr (Or.inl ⟨by omega, by simp [decodeRune, h1, h2, h3, hr]⟩)
  by_cases h4 : b.val < 0xF0
  · match rest with
    | [] => exact Or.inr (Or.inl ⟨by omega, by simp [decodeRune, h1, h2, h3, h4]⟩)
    | [_] => exact Or.inr (Or.inl ⟨by omega, by simp [decodeRune, h1, h2, h3, h4]⟩)
    | s1 :: s2 :: t =>
      by_cases hr : (inRange (if b.val = 0xE0 then 0xA0 else 0x80)
          (if b.val = 0xED then 0x9F else 0xBF) s1 && inRange 0x80 0xBF s2) = true
      · have hr2 := hr
        simp only [inRange, Bool.and_eq_true, decide_eq_true_eq] at hr2
        exact Or.inr (Or.inr (Or.inr (Or.inl ⟨s1, s2, t, rfl, by omega, h4, hr2.1.1, hr2.1.2,
          hr2.2.1, hr2.2.2, by simp only [decodeRune, h1, h2, h3, h4, if_false, if_true, hr]⟩)))
      · exact Or.inr (Or.inl ⟨by omega,
          by simp only [decodeRune, h1, h2, h3, h4, if_false, if_true, hr]; simp⟩)
  by_cases h5 : b.val < 0xF5
  · match rest with
    | [] => exact Or.inr (Or.inl ⟨by omega, by simp [decodeRune, h1, h2, h3, h4, h5]⟩)
    | [_] => exact Or.inr (Or.inl ⟨by omega, by simp [decodeRune, h1, h2, h3, h4, h5]⟩)
    | [_, _] => exact Or.inr (Or.inl ⟨by omega, by simp [decodeRune, h1, h2, h3, h4, h5]⟩)
    | s1 :: s2 :: s3 :: t =>
      by_cases hr : (inRange (if b.val = 0xF0 then 0x90 else 0x80)
          (if b.val = 0xF4 then 0x8F else 0xBF) s1 && inRange 0x80 0xBF s2 &&
          inRange 0x80 0xBF s3) = true
      · have hr2 := hr
        simp only [inRange, Bool.and_eq_true, decide_eq_true_eq] at hr2
        exact Or.inr (Or.inr (Or.inr (Or.inr ⟨s1, s2, s3, t, rfl, by omega, h5, hr2.1.1.1,
          hr2.1.1.2, hr2.1.2.1, hr2.1.2.2, hr2.2.1, hr2.2.2,
          by simp only [decodeRune, h1, h2, h3, h4, h5, if_false, if_true, hr]⟩)))
      · exact Or.inr (Or.inl ⟨by omega,
          by simp only [decodeRune, h1, h2, h3, h4, h5, if_false, if_true, hr]; simp⟩)
  · exact Or.inr (Or.inl ⟨by omega, by simp [decodeRune, h1, h2, h3, h4, h5]⟩)

theorem decodeRune_size_pos (b : Byte) (rest : GoString) :
    1 ≤ (decodeRune (b :: rest)).2 := by
  rcases decodeRune_cases b rest with h | h | ⟨_, _, _, _, _, _, _, h⟩ |
    ⟨_, _, _, _, _, _, _, _, _, _, h⟩ | ⟨_, _, _, _, _, _, _, _, _, _, _, _, _, h⟩
  all_goals first | rw [h.2] | rw [h]
  all_goals simp

theorem decodeRune_size_le (s : GoString) : (decodeRune s).2 ≤ s.length := by
  cases s with
  | nil => simp [decodeRune]
  | cons b rest =>
    rcases decodeRune_cases b rest with h | h | ⟨_, _, hr, _, _, _, _, h⟩ |
      ⟨_, _, _, hr, _, _, _, _, _, _, h⟩ | ⟨_, _, _, _, hr, _, _, _, _, _, _, _, _, h⟩
    all_goals first | rw [h.2] | (rw [h]; subst hr)
    all_goals simp

/-- A rune below `RuneSelf` is only ever decoded from the single byte with
that value. -/
theorem decodeRune_lt_runeSelf (b : Byte) (rest : GoString)
    (h : (decodeRune (b :: rest)).1 < 0x80) :
    b.val < 0x80 ∧ decodeRune (b :: rest) = (b.val, 1) := by
  rcases decodeRune_cases b rest with h' | h' | ⟨s1, _, _, _, _, _, _, h'⟩ |
    ⟨s1, s2, _, _, _, _, _, _, _, _, h'⟩ | ⟨s1, s2, s3, _, _, _, _, _, _, _, _, _, _, h'⟩
  · exact h'
  · rw [h'.2] at h; simp [RuneError] at h
  · rw [h'] at h; simp only at h; omega
  · rw [h'] at h; simp only at h; split_ifs at * <;> omega
  · rw [h'] at h; simp only at h; split_ifs at * <;> omega

/-! ## The range loop over a string -/

theorem rangeHasNonDigit_cons (fuel : Nat) (b : Byte) (rest : GoString) :
    rangeHasNonDigit (fuel + 1) (b :: rest) =
      if (decodeRune (b :: rest)).1 < 48 ∨ (decodeRune (b :: rest)).1 > 57 then true
      else rangeHasNonDigit fuel ((b :: rest).drop (decodeRune (b :: rest)).2) := by
  simp [rangeHasNonDigit]

theorem runesLoop_cons (fuel : Nat) (b : Byte) (rest : GoString) :
    runesLoop (fuel + 1) (b :: rest) =
      (decodeRune (b :: rest)).1 ::
        runesLoop fuel ((b :: rest).drop (decodeRune (b :: rest)).2) := by
  simp [runesLoop]

/-- The early return of the digit check happens exactly when one of the runes
of the string is not a digit. -/
theorem rangeHasNonDigit_eq_any (fuel : Nat) (s : GoString) :
    rangeHasNonDigit fuel s = (runesLoop fuel s).any fun ch => !isDigitRune ch := by
  induction fuel generalizing s with
  | zero => simp [rangeHasNonDigit, runesLoop]
  | succ n ih =>
    cases s with
    | nil => simp [rangeHasNonDigit, runesLoop]
    | cons b rest =>
      rw [rangeHasNonDigit_cons, runesLoop_cons, List.any_cons, ih]
      by_cases h : (decodeRune (b :: rest)).1 < 48 ∨ (decodeRune (b :: rest)).1 > 57
      · have : isDigitRune (decodeRune (b :: rest)).1 = false := by
          simp only [isDigitRune, Bool.and_eq_false_imp, decide_eq_true_eq, decide_eq_false_iff_not]
          omega
        simp [h, this]
      · have : isDigitRune (decodeRune (b :: rest)).1 = true := by
          simp only [isDigitRune, Bool.and_eq_true, decide_eq_true_eq]
          omega
        simp [h, this]

/-- Any amount of fuel that covers the length of the string gives the same
runes. -/
theorem runesLoop_fuel (f1 f2 : Nat) (s : GoString) (h1 : s.length ≤ f1) (h2 : s.length ≤ f2) :
    runesLoop f1 s = runesLoop f2 s := by
  induction f1 generalizing f2 s with
  | zero =>
    have : s = [] := List.length_eq_zero.mp (by omega)
    subst this
    cases f2 <;> simp [runesLoop]
  | succ n ih =>
    cases s with
    | nil => cases f2 <;> simp [runesLoop]
    | cons b rest =>
      cases f2 with
      | zero => simp at h2
      | succ m =>
        rw [runesLoop_cons, runesLoop_cons]
        have hp := decodeRune_size_pos b rest
        congr 1
        apply ih
        · simp only [List.length_drop, List.length_cons] at h1 ⊢; omega
        · simp only [List.length_drop, List.length_cons] at h2 ⊢; omega

theorem runes_nil : runes [] = [] := rfl

/-- One step of the range loop: the first rune, then the runes of what follows
it. -/
theorem runes_cons (b : Byte) (rest : GoString) :
    runes (b :: rest) =
      (decodeRune (b :: rest)).1 :: runes ((b :: rest).drop (decodeRune (b :: rest)).2) := by
  unfold runes
  rw [List.length_cons, runesLoop_cons]
  congr 1
  apply runesLoop_fuel
  · have hp := decodeRune_size_pos b rest
    simp only [List.length_drop, List.length_cons]; omega
  · exact le_refl _

theorem runes_ascii (b : Byte) (rest : GoString) (h : b.val < 0x80) :
    runes (b :: rest) = b.val :: runes rest := by
  rw [runes_cons, decodeRune_ascii b rest h]; rfl

/-- The runes of a string are all digits exactly when its bytes are. -/
theorem runes_all_digit_iff (s : GoString) :
    (∀ r ∈ runes s, isDigitRune r = true) ↔ ∀ b ∈ s, isDigitByte b = true := by
  induction s with
  | nil => simp [runes_nil]
  | cons b rest ih =>
    constructor
    · intro h
      have h0 : isDigitRune (decodeRune (b :: rest)).1 = true :=
        h _ (by rw [runes_cons]; exact List.mem_cons_self _ _)
      simp only [isDigitRune, Bool.and_eq_true, decide_eq_true_eq] at h0
      obtain ⟨hb, hd⟩ := decodeRune_lt_runeSelf b rest (by omega)
      rw [runes_ascii b rest hb] at h
      rw [hd] at h0
      have hrest := ih.mp (fun r hr => h r (List.mem_cons_of_mem _ hr))
      intro c hc
      rcases List.mem_cons.mp hc with rfl | hc
      · simp only [isDigitByte, Bool.and_eq_true, decide_eq_true_eq]; exact h0
      · exact hrest c hc
    · intro h
      have hb := h b (List.mem_cons_self _ _)
      simp only [isDigitByte, Bool.and_eq_true, decide_eq_true_eq] at hb
      rw [runes_ascii b rest (by omega)]
      have hrest := ih.mpr (fun c hc => h c (List.mem_cons_of_mem _ hc))
      intro r hr
      rcases List.mem_cons.mp hr with rfl | hr
      · simp only [isDigitRune, Bool.and_eq_true, decide_eq_true_eq]; exact hb
      · exact hrest r hr

/-- The digit check of `GenerateEstonianReference` and
`ValidateEstonianReference` lets a string pass exactly when all its bytes are
digits. -/
theorem rangeHasNonDigit_eq_false_iff (s : GoString) :
    rangeHasNonDigit s.length s = false ↔ ∀ b ∈ s, isDigitByte b = true := by
  rw [← runes_all_digit_iff, rangeHasNonDigit_eq_any]
  simp [runes, List.any_eq_false]

/-! ## White space and its encodings -/

theorem isSpace_iff_mem (r : Nat) : isSpace r = true ↔ r ∈ spaceRunes := by
  simp only [isSpace, spaceRunes, Bool.or_eq_true, Bool.and_eq_true, decide_eq_true_eq,
    List.mem_cons, List.mem_singleton, List.not_mem_nil, or_false]
  omega

/-- Decoding undoes encoding on white space, whatever follows. -/
theorem decodeRune_encodeRune_space (r : Nat) (h : isSpace r = true) (s : GoString) :
    decodeRune (encodeRune r ++ s) = (r, (encodeRune r).length) := by
  rw [isSpace_iff_mem] at h
  fin_cases h <;> rfl

/-- Encoding undoes decoding: unless the decoder reports an invalid sequence,
the bytes it consumed are the encoding of the rune it returns. -/
theorem encodeRune_decodeRune (b : Byte) (rest : GoString)
    (h : decodeRune (b :: rest) ≠ (RuneError, 1)) :
    encodeRune (decodeRune (b :: rest)).1 = (b :: rest).take (decodeRune (b :: rest)).2 := by
  rcases decodeRune_cases b rest with h' | h' | ⟨s1, t, hr, _, _, _, _, h'⟩ |
    ⟨s1, s2, t, hr, _, _, _, _, _, _, h'⟩ | ⟨s1, s2, s3, t, hr, _, _, _, _, _, _, _, _, h'⟩
  · rw [h'.2]
    have : b.val < 128 := h'.1
    simp only [encodeRune, this, if_true, List.take_succ_cons, List.take_zero, List.cons.injEq,
      and_true]
    apply Fin.ext
    simp [Fin.ofNat]
  · exact absurd h'.2 h
  · rw [h']; subst hr
    have h1 : ¬ (b.val % 32 * 64 + s1.val % 64 < 128) := by omega
    have h2 : b.val % 32 * 64 + s1.val % 64 < 2048 := by omega
    simp only [encodeRune, h1, h2, if_true, if_false, List.take_succ_cons, List.take_zero,
      List.cons.injEq, and_true]
    constructor <;> apply Fin.ext <;> simp [Fin.ofNat] <;> omega
  · rw [h']; subst hr
    have hs1 : 0x80 ≤ s1.val ∧ s1.val ≤ 0xBF := by split_ifs at * <;> omega
    have h1 : ¬ (b.val % 16 * 4096 + s1.val % 64 * 64 + s2.val % 64 < 128) := by
      split_ifs at * <;> omega
    have h2 : ¬ (b.val % 16 * 4096 + s1.val % 64 * 64 + s2.val % 64 < 2048) := by
      split_ifs at * <;> omega
    have h3 : b.val % 16 * 4096 + s1.val % 64 * 64 + s2.val % 64 < 65536 := by omega
    simp only [encodeRune, h1, h2, h3, if_true, if_false, List.take_succ_cons, List.take_zero,
      List.cons.injEq, and_true]
    refine ⟨?_, ?_, ?_⟩ <;> apply Fin.ext <;> simp [Fin.ofNat] <;> omega
  · rw [h']; subst hr
    have hs1 : 0x80 ≤ s1.val ∧ s1.val ≤ 0xBF := by split_ifs at * <;> omega
    have h1 : ¬ (b.val % 8 * 262144 + s1.val % 64 * 4096 + s2.val % 64 * 64 + s3.val % 64
        < 128) := by split_ifs at * <;> omega
    have h2 : ¬ (b.val % 8 * 262144 + s1.val % 64 * 4096 + s2.val % 64 * 64 + s3.val % 64
        < 2048) := by split_ifs at * <;> omega
    have h3 : ¬ (b.val % 8 * 262144 + s1.val % 64 * 4096 + s2.val % 64 * 64 + s3.val % 64
        < 65536) := by split_ifs at * <;> omega
    simp only [encodeRune, h1, h2, h3, if_false, List.take_succ_cons, List.take_zero,
      List.cons.injEq, and_true]
    refine ⟨?_, ?_, ?_, ?_⟩ <;> apply Fin.ext <;> simp [Fin.ofNat] <;> omega

theorem encodeRune_ne_nil (r : Nat) : encodeRune r ≠ [] := by
  unfold encodeRune
  split_ifs <;> simp

theorem encodeRunes_nil : encodeRunes [] = [] := rfl

theorem encodeRunes_cons (r : Nat) (rs : List Nat) :
    encodeRunes (r :: rs) = encodeRune r ++ encodeRunes rs := by
  simp [encodeRunes]

theorem encodeRunes_append (rs qs : List Nat) :
    encodeRunes (rs ++ qs) = encodeRunes rs ++ encodeRunes qs := by
  simp [encodeRunes]

/-- What the decoder consumed for a white space rune is the encoding of that
rune. -/
theorem decodeRune_space_split (s : GoString) (h : isSpace (decodeRune s).1 = true) :
    s = encodeRune (decodeRune s).1 ++ s.drop (decodeRune s).2 ∧ 1 ≤ (decodeRune s).2 := by
  cases s with
  | nil => simp [decodeRune, RuneError, isSpace] at h
  | cons b rest =>
    have hne : decodeRune (b :: rest) ≠ (RuneError, 1) := by
      intro he
      rw [he] at h
      simp [RuneError, isSpace] at h
    rw [encodeRune_decodeRune b rest hne, List.take_append_drop]
    exact ⟨rfl, decodeRune_size_pos b rest⟩

/-! ## Trimming on the left -/

theorem trimLeftLoop_cons (fuel : Nat) (b : Byte) (rest : GoString) :
    trimLeftLoop (fuel + 1) (b :: rest) =
      if isSpace (decodeRune (b :: rest)).1 = true then
        trimLeftLoop fuel ((b :: rest).drop (decodeRune (b :: rest)).2)
      else b :: rest := by
  simp [trimLeftLoop]

theorem trimLeftLoop_fuel (f1 f2 : Nat) (s : GoString) (h1 : s.length ≤ f1)
    (h2 : s.length ≤ f2) : trimLeftLoop f1 s = trimLeftLoop f2 s := by
  induction f1 generalizing f2 s with
  | zero =>
    have : s = [] := List.length_eq_zero.mp (by omega)
    subst this
    cases f2 <;> simp [trimLeftLoop]
  | succ n ih =>
    cases s with
    | nil => cases f2 <;> simp [trimLeftLoop]
    | cons b rest =>
      cases f2 with
      | zero => simp at h2
      | succ m =>
        rw [trimLeftLoop_cons, trimLeftLoop_cons]
        have hp := decodeRune_size_pos b rest
        split_ifs
        · apply ih
          · simp only [List.length_drop, List.length_cons] at h1 ⊢; omega
          · simp only [List.length_drop, List.length_cons] at h2 ⊢; omega
        · rfl

theorem trimLeftSpace_nil : trimLeftSpace [] = [] := rfl

/-- One step of the left trim: a leading white space rune is dropped, anything
else ends the trim. -/
theorem trimLeftSpace_step (s : GoString) (hs : s ≠ []) :
    trimLeftSpace s =
      if isSpace (decodeRune s).1 = true then trimLeftSpace (s.drop (decodeRune s).2)
      else s := by
  cases s with
  | nil => exact absurd rfl hs
  | cons b rest =>
    unfold trimLeftSpace
    rw [List.length_cons, trimLeftLoop_cons]
    split_ifs
    · apply trimLeftLoop_fuel
      · have hp := decodeRune_size_pos b rest
        simp only [List.length_drop, List.length_cons]; omega
      · exact le_refl _
    · rfl

/-- A string that does not start with white space is its own left trim. -/
theorem trimLeftSpace_of_not_space (t : GoString)
    (h : t = [] ∨ isSpace (decodeRune t).1 = false) : trimLeftSpace t = t := by
  rcases h with rfl | h
  · rfl
  · by_cases ht : t = []
    · subst ht; rfl
    · rw [trimLeftSpace_step t ht, h]; simp

/-- White space in front of a string that does not start with white space is
trimmed off entirely, and nothing else is. -/
theorem trimLeftSpace_encodeRunes (rs : List Nat) (t : GoString)
    (hrs : ∀ r ∈ rs, isSpace r = true) (h : t = [] ∨ isSpace (decodeRune t).1 = false) :
    trimLeftSpace (encodeRunes rs ++ t) = t := by
  induction rs with
  | nil => simpa [encodeRunes_nil] using trimLeftSpace_of_not_space t h
  | cons r rs ih =>
    have hr := hrs r (List.mem_cons_self _ _)
    have hd := decodeRune_encodeRune_space r hr (encodeRunes rs ++ t)
    rw [encodeRunes_cons, List.append_assoc]
    rw [trimLeftSpace_step _ (by simp [encodeRune_ne_nil]), hd]
    simp only [hr, if_true, List.drop_left]
    exact ih (fun q hq => hrs q (List.mem_cons_of_mem _ hq))

/-- Every string is a run of white space runes followed by its left trim, and
the left trim does not start with white space. -/
theorem trimLeftSpace_decomp (s : GoString) :
    ∃ rs : List Nat, (∀ r ∈ rs, isSpace r = true) ∧ s = encodeRunes rs ++ trimLeftSpace s ∧
      (trimLeftSpace s = [] ∨ isSpace (decodeRune (trimLeftSpace s)).1 = false) := by
  generalize hn : s.length = n
  induction n using Nat.strong_induction_on generalizing s with
  | _ n ih =>
    by_cases hs : s = []
    · subst hs
      exact ⟨[], by simp, by simp [encodeRunes_nil, trimLeftSpace_nil], Or.inl rfl⟩
    · by_cases hsp : isSpace (decodeRune s).1 = true
      · obtain ⟨hsplit, hpos⟩ := decodeRune_space_split s hsp
        obtain ⟨rs, hrs, heq, hend⟩ := ih (s.drop (decodeRune s).2).length
          (by rw [List.length_drop]; have := List.length_pos.mpr hs; omega) _ rfl
        have hstep : trimLeftSpace s = trimLeftSpace (s.drop (decodeRune s).2) := by
          rw [trimLeftSpace_step s hs, if_pos hsp]
        refine ⟨(decodeRune s).1 :: rs, ?_, ?_, ?_⟩
        · intro r hr
          rcases List.mem_cons.mp hr with rfl | hr
          · exact hsp
          · exact hrs r hr
        · rw [encodeRunes_cons, List.append_assoc, hstep, ← heq]
          exact hsplit
        · rw [hstep]; exact hend
      · have hstep : trimLeftSpace s = s := by rw [trimLeftSpace_step s hs, if_neg hsp]
        refine ⟨[], by simp, by simp [encodeRunes_nil, hstep], Or.inr ?_⟩
        rw [hstep]
        simpa using hsp

/-! ## Decoding the last rune -/

theorem decodeRune_two (c s1 : Byte) (rest : GoString) (hc : 0xC2 ≤ c.val ∧ c.val < 0xE0)
    (h1 : 0x80 ≤ s1.val ∧ s1.val ≤ 0xBF) :
    decodeRune (c :: s1 :: rest) = ((c.val % 32) * 64 + s1.val % 64, 2) := by
  have a1 : ¬ c.val < 128 := by omega
  have a2 : ¬ c.val < 194 := by omega
  simp [decodeRune, inRange, a1, a2, hc.2, h1.1, h1.2]

theorem decodeRune_three (c s1 s2 : Byte) (rest : GoString) (hc : 0xE0 ≤ c.val ∧ c.val < 0xF0)
    (h1 : (if c.val = 0xE0 then 0xA0 else 0x80) ≤ s1.val ∧
      s1.val ≤ (if c.val = 0xED then 0x9F else 0xBF))
    (h2 : 0x80 ≤ s2.val ∧ s2.val ≤ 0xBF) :
    decodeRune (c :: s1 :: s2 :: rest) =
      ((c.val % 16) * 4096 + (s1.val % 64) * 64 + s2.val % 64, 3) := by
  have a1 : ¬ c.val < 128 := by omega
  have a2 : ¬ c.val < 194 := by omega
  have a3 : ¬ c.val < 224 := by omega
  simp [decodeRune, inRange, a1, a2, a3, hc.2, h1.1, h1.2, h2.1, h2.2]

theorem decodeRune_four (c s1 s2 s3 : Byte) (rest : GoString)
    (hc : 0xF0 ≤ c.val ∧ c.val < 0xF5)
    (h1 : (if c.val = 0xF0 then 0x90 else 0x80) ≤ s1.val ∧
      s1.val ≤ (if c.val = 0xF4 then 0x8F else 0xBF))
    (h2 : 0x80 ≤ s2.val ∧ s2.val ≤ 0xBF) (h3 : 0x80 ≤ s3.val ∧ s3.val ≤ 0xBF) :
    decodeRune (c :: s1 :: s2 :: s3 :: rest) =
      ((c.val % 8) * 262144 + (s1.val % 64) * 4096 + (s2.val % 64) * 64 + s3.val % 64, 4) := by
  have a1 : ¬ c.val < 128 := by omega
  have a2 : ¬ c.val < 194 := by omega
  have a3 : ¬ c.val < 224 := by omega
  have a4 : ¬ c.val < 240 := by omega
  simp [decodeRune, inRange, a1, a2, a3, a4, hc.2, h1.1, h1.2, h2.1, h2.2, h3.1, h3.2]

/-- A byte from `RuneSelf` up that is not followed by a continuation byte is
decoded as an invalid sequence of width one. -/
theorem decodeRune_no_continuation (c : Byte) (y : GoString) (hc : 0x80 ≤ c.val)
    (hy : startsClean y = true) : decodeRune (c :: y) = (RuneError, 1) := by
  rcases decodeRune_cases c y with h | h | ⟨s1, t, hr, _, _, h1, h2, _⟩ |
    ⟨s1, s2, t, hr, _, _, h1, h2, _⟩ | ⟨s1, s2, s3, t, hr, _, _, h1, h2, _⟩
  · omega
  · exact h.2
  all_goals
    subst hr
    simp only [startsClean, runeStart, inRange, Bool.not_eq_true', Bool.and_eq_false_imp,
      decide_eq_true_eq, decide_eq_false_iff_not] at hy
    first
      | omega
      | (split_ifs at * <;> omega)

/-- When the decoder consumes a whole string, it consumes just as much of that
string followed by anything that starts with a rune start. -/
theorem decodeRune_append_clean (x y : GoString) (hx : x ≠ [])
    (hd : (decodeRune x).2 = x.length) (hy : startsClean y = true) :
    decodeRune (x ++ y) = decodeRune x := by
  cases x with
  | nil => exact absurd rfl hx
  | cons c rest =>
    rcases decodeRune_cases c rest with h | h | ⟨s1, t, hr, hc1, hc2, h1, h2, h⟩ |
      ⟨s1, s2, t, hr, hc1, hc2, h1, h2, h3, h4, h⟩ |
      ⟨s1, s2, s3, t, hr, hc1, hc2, h1, h2, h3, h4, h5, h6, h⟩
    · rw [h.2, List.cons_append, decodeRune_ascii c _ h.1]
    · rw [h.2] at hd ⊢
      have : rest = [] := List.length_eq_zero.mp (by simpa using hd.symm)
      subst this
      exact decodeRune_no_continuation c y h.1 hy
    · rw [h] at hd ⊢; subst hr
      simp only [List.length_cons] at hd
      simp only [List.cons_append]
      exact decodeRune_two c s1 _ ⟨hc1, hc2⟩ ⟨h1, h2⟩
    · rw [h] at hd ⊢; subst hr
      simp only [List.cons_append]
      exact decodeRune_three c s1 s2 _ ⟨hc1, hc2⟩ ⟨h1, h2⟩ ⟨h3, h4⟩
    · rw [h] at hd ⊢; subst hr
      simp only [List.cons_append]
      exact decodeRune_four c s1 s2 s3 _ ⟨hc1, hc2⟩ ⟨h1, h2⟩ ⟨h3, h4⟩ ⟨h5, h6⟩

theorem decodeLastRune_nil : decodeLastRune [] = (RuneError, 0) := rfl

/-- The last rune of a string that ends in the byte `b`. -/
theorem decodeLastRune_concat (init : GoString) (b : Byte) :
    decodeLastRune (init ++ [b]) =
      if b.val < 0x80 then (b.val, 1)
      else if init.length - scanBack init.reverse +
          (decodeRune ((init ++ [b]).drop (init.length - scanBack init.reverse))).2
            ≠ init.length + 1 then (RuneError, 1)
      else decodeRune ((init ++ [b]).drop (init.length - scanBack init.reverse)) := by
  simp [decodeLastRune]

theorem decodeLastRune_ascii (init : GoString) (b : Byte) (h : b.val < 0x80) :
    decodeLastRune (init ++ [b]) = (b.val, 1) := by
  rw [decodeLastRune_concat, if_pos h]

/-- The width that `decodeLastRune` reports lies within the string, and unless
it reports the fallback `(RuneError, 1)` it is what `decodeRune` finds at that
distance from the end. -/
theorem decodeLastRune_spec (t : GoString) (ht : t ≠ []) :
    1 ≤ (decodeLastRune t).2 ∧ (decodeLastRune t).2 ≤ t.length ∧
      (decodeLastRune t = (RuneError, 1) ∨
        decodeRune (t.drop (t.length - (decodeLastRune t).2)) = decodeLastRune t) := by
  rcases List.eq_nil_or_concat t with rfl | ⟨init, b, rfl⟩
  · exact absurd rfl ht
  · rw [List.concat_eq_append] at *
    rw [decodeLastRune_concat]
    by_cases hb : b.val < 0x80
    · simp only [hb, if_true, List.length_append, List.length_singleton]
      refine ⟨le_refl _, by omega, Or.inr ?_⟩
      simp [decodeRune_ascii b [] hb]
    · simp only [hb, if_false]
      split_ifs with hne
      · simp
      · push_neg at hne
        have hle := decodeRune_size_le
          ((init ++ [b]).drop (init.length - scanBack init.reverse))
        have hd : (init ++ [b]).drop (init.length - scanBack init.reverse) ≠ [] := by
          intro h0
          have := congrArg List.length h0
          simp only [List.length_drop, List.length_append, List.length_singleton,
            List.length_nil] at this
          omega
        obtain ⟨c, rest, hcr⟩ := List.exists_cons_of_ne_nil hd
        have hpos := decodeRune_size_pos c rest
        rw [← hcr] at hpos
        refine ⟨hpos, ?_, Or.inr ?_⟩
        · simp only [List.length_append, List.length_singleton]; omega
        · congr 2
          simp only [List.length_append, List.length_singleton]; omega

theorem decodeLastRune_append_two (s : GoString) (a b : Byte) (r : Nat)
    (hb : ¬ b.val < 0x80) (ha : runeStart a = true) (hd : decodeRune [a, b] = (r, 2)) :
    decodeLastRune (s ++ [a, b]) = (r, 2) := by
  have hs : s ++ [a, b] = (s ++ [a]) ++ [b] := by simp
  have hk : scanBack (s ++ [a]).reverse = 1 := by simp [scanBack, ha]
  have hdrop : ((s ++ [a]) ++ [b]).drop s.length = [a, b] := by simp
  rw [hs, decodeLastRune_concat, if_neg hb, hk]
  simp only [List.length_append, List.length_singleton, Nat.add_sub_cancel]
  rw [hdrop, hd]
  simp

theorem decodeLastRune_append_three (s : GoString) (a b c : Byte) (r : Nat)
    (hc : ¬ c.val < 0x80) (hb : runeStart b = false) (ha : runeStart a = true)
    (hd : decodeRune [a, b, c] = (r, 3)) :
    decodeLastRune (s ++ [a, b, c]) = (r, 3) := by
  have hs : s ++ [a, b, c] = (s ++ [a, b]) ++ [c] := by simp
  have hk : scanBack (s ++ [a, b]).reverse = 2 := by simp [scanBack, ha, hb]
  have hdrop : ((s ++ [a, b]) ++ [c]).drop s.length = [a, b, c] := by simp
  rw [hs, decodeLastRune_concat, if_neg hc, hk]
  simp only [List.length_append, List.length_cons, List.length_nil, Nat.add_sub_cancel]
  rw [hdrop, hd]
  simp

/-- The last rune of a string that ends in the encoding of a white space rune
is that rune. -/
theorem decodeLastRune_encodeRune_space (r : Nat) (h : isSpace r = true) (s : GoString) :
    decodeLastRune (s ++ encodeRune r) = (r, (encodeRune r).length) := by
  rw [isSpace_iff_mem] at h
  fin_cases h
  all_goals first
    | exact decodeLastRune_ascii s _ (by decide)
    | exact decodeLastRune_append_two s _ _ _ (by decide) (by decide) rfl
    | exact decodeLastRune_append_three s _ _ _ _ (by decide) (by decide) (by decide) rfl

/-- The encoding of a white space rune starts with a rune start. -/
theorem startsClean_encodeRune_space (r : Nat) (h : isSpace r = true) (s : GoString) :
    startsClean (encodeRune r ++ s) = true := by
  rw [isSpace_iff_mem] at h
  fin_cases h <;> rfl

theorem startsClean_encodeRunes (rs : List Nat) (hrs : ∀ r ∈ rs, isSpace r = true) :
    startsClean (encodeRunes rs) = true := by
  cases rs with
  | nil => rfl
  | cons r rs =>
    rw [encodeRunes_cons]
    exact startsClean_encodeRune_space r (hrs r (List.mem_cons_self _ _)) _

/-! ## Trimming on the right -/

theorem lastIndexLoop_succ (s : GoString) (fuel i : Nat) :
    lastIndexLoop s (fuel + 1) i =
      if i = 0 then none
      else if isSpace (decodeLastRune (s.take i)).1 = true then
        lastIndexLoop s fuel (i - (decodeLastRune (s.take i)).2)
      else some (i - (decodeLastRune (s.take i)).2) := by
  simp [lastIndexLoop]

theorem lastIndexLoop_zero_index (s : GoString) (fuel : Nat) :
    lastIndexLoop s fuel 0 = none := by
  cases fuel <;> simp [lastIndexLoop]

/-- A white space rune found by the backward decoder is at least one byte
wide. -/
theorem decodeLastRune_space_pos (t : GoString) (h : isSpace (decodeLastRune t).1 = true) :
    1 ≤ (decodeLastRune t).2 := by
  by_cases ht : t = []
  · subst ht; simp [decodeLastRune_nil, RuneError, isSpace] at h
  · exact (decodeLastRune_spec t ht).1

theorem lastIndexLoop_fuel (s : GoString) (f1 f2 i : Nat) (h1 : i ≤ f1) (h2 : i ≤ f2) :
    lastIndexLoop s f1 i = lastIndexLoop s f2 i := by
  induction f1 generalizing f2 i with
  | zero =>
    have : i = 0 := by omega
    subst this
    rw [lastIndexLoop_zero_index, lastIndexLoop_zero_index]
  | succ n ih =>
    cases f2 with
    | zero =>
      have : i = 0 := by omega
      subst this
      rw [lastIndexLoop_zero_index, lastIndexLoop_zero_index]
    | succ m =>
      rw [lastIndexLoop_succ, lastIndexLoop_succ]
      split_ifs with h0 hsp
      · rfl
      · have := decodeLastRune_space_pos _ hsp
        exact ih m _ (by omega) (by omega)
      · rfl

/-- The backward scan from index `i` only reads the first `i` bytes. -/
theorem lastIndexLoop_append (t y : GoString) (fuel i : Nat) (hi : i ≤ t.length) :
    lastIndexLoop (t ++ y) fuel i = lastIndexLoop t fuel i := by
  induction fuel generalizing i with
  | zero => simp [lastIndexLoop]
  | succ n ih =>
    rw [lastIndexLoop_succ, lastIndexLoop_succ, List.take_append_of_le_length hi]
    split_ifs
    · rfl
    · exact ih _ (by omega)
    · rfl

/-- The backward scan over a string that ends in white space runes stops at the
last rune in front of them. -/
theorem lastIndexLoop_encodeRunes (t : GoString) (rs : List Nat)
    (hrs : ∀ r ∈ rs, isSpace r = true) (ht : t = [] ∨ isSpace (decodeLastRune t).1 = false)
    (fuel : Nat) (hf : (t ++ encodeRunes rs).length ≤ fuel) :
    lastIndexLoop (t ++ encodeRunes rs) fuel (t ++ encodeRunes rs).length =
      if t = [] then none else some (t.length - (decodeLastRune t).2) := by
  induction rs using List.reverseRecOn generalizing fuel with
  | nil =>
    simp only [encodeRunes_nil, List.append_nil] at hf ⊢
    by_cases h0 : t = []
    · subst h0; simp [lastIndexLoop_zero_index]
    · have hsp : isSpace (decodeLastRune t).1 = false := by
        rcases ht with h | h
        · exact absurd h h0
        · exact h
      have hpos := List.length_pos.mpr h0
      obtain ⟨n, rfl⟩ : ∃ n, fuel = n + 1 := ⟨fuel - 1, by omega⟩
      rw [lastIndexLoop_succ, List.take_length]
      simp [h0, hsp, Nat.ne_of_gt hpos]
  | append_singleton rs r ih =>
    have hr : isSpace r = true := hrs r (by simp)
    have hrs' : ∀ q ∈ rs, isSpace q = true := fun q hq => hrs q (by simp [hq])
    have henc : t ++ encodeRunes (rs ++ [r]) = (t ++ encodeRunes rs) ++ encodeRune r := by
      simp [encodeRunes_append, encodeRunes_cons, encodeRunes_nil]
    have hlen : 1 ≤ (encodeRune r).length := List.length_pos.mpr (encodeRune_ne_nil r)
    rw [henc] at hf ⊢
    simp only [List.length_append] at hf
    obtain ⟨n, rfl⟩ : ∃ n, fuel = n + 1 := ⟨fuel - 1, by omega⟩
    rw [lastIndexLoop_succ, List.take_length, decodeLastRune_encodeRune_space r hr]
    have hne : ((t ++ encodeRunes rs) ++ encodeRune r).length ≠ 0 := by
      simp only [List.length_append]; omega
    simp only [hne, hr, if_true, if_false]
    have hidx : ((t ++ encodeRunes rs) ++ encodeRune r).length - (encodeRune r).length =
        (t ++ encodeRunes rs).length := by
      simp only [List.length_append]; omega
    rw [hidx, lastIndexLoop_append _ _ _ _ (le_refl _)]
    exact ih hrs' n (by simp only [List.length_append]; omega)

/-- The rune that the backward decoder finds at the end of `t` is found by the
forward decoder with the same width, also when `t` is followed by something
that starts with a rune start. -/
theorem decodeLastRune_forward_width (t y : GoString) (ht : t ≠ [])
    (hy : startsClean y = true) :
    ∃ c rest, t.drop (t.length - (decodeLastRune t).2) = c :: rest ∧
      (c.val < 0x80 → (decodeLastRune t).2 = 1) ∧
      (0x80 ≤ c.val →
        (decodeRune (t.drop (t.length - (decodeLastRune t).2) ++ y)).2 =
          (decodeLastRune t).2) := by
  obtain ⟨hpos, hle, hcase⟩ := decodeLastRune_spec t ht
  have hxlen : (t.drop (t.length - (decodeLastRune t).2)).length = (decodeLastRune t).2 := by
    rw [List.length_drop]; omega
  have hxne : t.drop (t.length - (decodeLastRune t).2) ≠ [] := by
    intro h0
    rw [h0] at hxlen
    simp only [List.length_nil] at hxlen
    omega
  obtain ⟨c, rest, hx⟩ := List.exists_cons_of_ne_nil hxne
  refine ⟨c, rest, hx, ?_, ?_⟩
  · intro hc
    rcases hcase with hfb | hfw
    · rw [hfb]
    · rw [hx, decodeRune_ascii c rest hc] at hfw
      rw [← hfw]
  · intro hc
    rcases hcase with hfb | hfw
    · have hrest : rest = [] := by
        rw [hx, hfb] at hxlen
        simpa using hxlen
      rw [hx, hrest, hfb]
      simp only [List.cons_append, List.nil_append]
      rw [decodeRune_no_continuation c y hc hy]
    · rw [decodeRune_append_clean _ y hxne (by rw [hfw, hxlen]) hy, hfw]

/-- White space behind a string that does not end in white space is trimmed
off entirely, and nothing else is. -/
theorem trimRightSpace_encodeRunes (t : GoString) (rs : List Nat)
    (hrs : ∀ r ∈ rs, isSpace r = true) (ht : t = [] ∨ isSpace (decodeLastRune t).1 = false) :
    trimRightSpace (t ++ encodeRunes rs) = t := by
  unfold trimRightSpace
  rw [lastIndexLoop_encodeRunes t rs hrs ht _ (le_refl _)]
  by_cases h0 : t = []
  · simp [h0]
  · simp only [h0, if_false]
    obtain ⟨hpos, hle, _⟩ := decodeLastRune_spec t h0
    obtain ⟨c, rest, hx, hasc, hwid⟩ :=
      decodeLastRune_forward_width t (encodeRunes rs) h0 (startsClean_encodeRunes rs hrs)
    have hdrop : (t ++ encodeRunes rs).drop (t.length - (decodeLastRune t).2) =
        t.drop (t.length - (decodeLastRune t).2) ++ encodeRunes rs :=
      List.drop_append_of_le_length (by omega)
    rw [hdrop] at *
    rw [hx] at hwid ⊢
    simp only [List.cons_append, RuneSelf]
    by_cases hc : 0x80 ≤ c.val
    · have hw := hwid hc
      simp only [List.cons_append] at hw
      rw [if_pos hc, hw]
      have : t.length - (decodeLastRune t).2 + (decodeLastRune t).2 = t.length := by omega
      rw [this, List.take_left]
    · have hk := hasc (by omega)
      rw [if_neg hc]
      have : t.length - (decodeLastRune t).2 + 1 = t.length := by omega
      rw [this, List.take_left]

/-- Every string is a string that does not end in white space followed by a
run of white space runes. -/
theorem exists_right_decomp (s : GoString) :
    ∃ (t : GoString) (rs : List Nat), (∀ r ∈ rs, isSpace r = true) ∧
      s = t ++ encodeRunes rs ∧ (t = [] ∨ isSpace (decodeLastRune t).1 = false) := by
  generalize hn : s.length = n
  induction n using Nat.strong_induction_on generalizing s with
  | _ n ih =>
    by_cases hs : s = []
    · exact ⟨[], [], by simp, by simp [hs, encodeRunes_nil], Or.inl rfl⟩
    · by_cases hsp : isSpace (decodeLastRune s).1 = true
      · obtain ⟨hpos, hle, hcase⟩ := decodeLastRune_spec s hs
        have hfw : decodeRune (s.drop (s.length - (decodeLastRune s).2)) = decodeLastRune s := by
          rcases hcase with hfb | hfw
          · rw [hfb] at hsp; simp [RuneError, isSpace] at hsp
          · exact hfw
        have hsp' : isSpace (decodeRune (s.drop (s.length - (decodeLastRune s).2))).1 = true := by
          rw [hfw]; exact hsp
        obtain ⟨hsplit, _⟩ := decodeRune_space_split _ hsp'
        rw [hfw] at hsplit
        have hnil : (s.drop (s.length - (decodeLastRune s).2)).drop (decodeLastRune s).2 = [] := by
          apply List.drop_eq_nil_of_le
          rw [List.length_drop]; omega
        rw [hnil, List.append_nil] at hsplit
        obtain ⟨t, rs, hrs, heq, hend⟩ := ih (s.take (s.length - (decodeLastRune s).2)).length
          (by rw [List.length_take]; omega) _ rfl
        refine ⟨t, rs ++ [(decodeLastRune s).1], ?_, ?_, hend⟩
        · intro r hr
          rcases List.mem_append.mp hr with hr | hr
          · exact hrs r hr
          · rw [List.mem_singleton.mp hr]; exact hsp
        · rw [encodeRunes_append, encodeRunes_cons, encodeRunes_nil, List.append_nil,
            ← List.append_assoc, ← heq, ← hsplit, List.take_append_drop]
      · refine ⟨s, [], by simp, by simp [encodeRunes_nil], Or.inr ?_⟩
        simpa using hsp

/-- Every string is its right trim followed by a run of white space runes, and
the right trim does not end in white space. -/
theorem trimRightSpace_decomp (s : GoString) :
    ∃ rs : List Nat, (∀ r ∈ rs, isSpace r = true) ∧ s = trimRightSpace s ++ encodeRunes rs ∧
      (trimRightSpace s = [] ∨ isSpace (decodeLastRune (trimRightSpace s)).1 = false) := by
  obtain ⟨t, rs, hrs, heq, hend⟩ := exists_right_decomp s
  have ht : trimRightSpace s = t := by rw [heq]; exact trimRightSpace_encodeRunes t rs hrs hend
  exact ⟨rs, hrs, by rw [ht]; exact heq, by rw [ht]; exact hend⟩

/-! ## The 3-7-1 check digit -/

theorem tmod_ten_bounds (a : Int) : -10 < Int.tmod a 10 ∧ Int.tmod a 10 < 10 := by
  cases a with
  | ofNat n =>
    have : Int.tmod (Int.ofNat n) 10 = ((n % 10 : Nat) : Int) := rfl
    rw [this]; omega
  | negSucc n =>
    have : Int.tmod (Int.negSucc n) 10 = -(((n + 1) % 10 : Nat) : Int) := rfl
    rw [this]; omega

/-- The check digit is a single decimal digit for every input, whatever the
running sum did. -/
theorem calculateEstonian371CheckDigit_range (base : GoString) :
    0 ≤ calculateEstonian371CheckDigit base ∧ calculateEstonian371CheckDigit base ≤ 9 := by
  unfold calculateEstonian371CheckDigit
  simp only
  generalize checkDigitLoop base base.length 0 = sum
  obtain ⟨h1, h2⟩ := tmod_ten_bounds sum
  rw [Int.tmod_eq_emod (by omega) (by norm_num)]
  omega

theorem itoa_digit (c : Int) (h0 : 0 ≤ c) (h9 : c ≤ 9) : itoa c = [digitByte c.toNat] := by
  obtain ⟨n, rfl⟩ := Int.eq_ofNat_of_zero_le h0
  have hn : n < 10 := by omega
  simp only [Int.toNat_ofNat]
  interval_cases n <;> rfl

theorem wrapInt64_of_bounds (x : Int) (h0 : 0 ≤ x) (h1 : x < 2 ^ 63) : wrapInt64 x = x := by
  unfold wrapInt64
  omega

theorem weights_getD (p : Nat) : weights.getD (p % 3) 0 = (weight371 p : Int) := by
  have h := Nat.mod_lt p (by norm_num : 3 > 0)
  unfold weight371 weights
  interval_cases p % 3 <;> rfl

theorem digit_sub (d : Byte) (h : isDigitByte d = true) :
    ((d - 48 : Byte).val : Int) = (digitValue d : Int) ∧ digitValue d ≤ 9 := by
  simp only [isDigitByte, Bool.and_eq_true, decide_eq_true_eq] at h
  have : (d - 48 : Byte).val = d.val - 48 := by
    rw [Fin.sub_def]
    simp
    omega
  rw [this]
  exact ⟨rfl, by unfold digitValue; omega⟩

theorem weight371_le (p : Nat) : weight371 p ≤ 7 := by
  have h := Nat.mod_lt p (by norm_num : 3 > 0)
  unfold weight371
  interval_cases p % 3 <;> decide

/-- The loop of `calculateEstonian371CheckDigit` adds up the weighted digits
from the right; no addition wraps as long as `63 * len(base)` fits an `int`. -/
theorem checkDigitLoop_eq (base : GoString) (hd : ∀ b ∈ base, isDigitByte b = true) (n : Nat)
    (hn : n ≤ base.length) (sum : Int) (h0 : 0 ≤ sum) (hb : sum + 63 * n < 2 ^ 63) :
    checkDigitLoop base n sum =
      sum + (((base.reverse.drop (base.length - n)).enumFrom (base.length - n)).map
        fun p => ((digitValue p.2 * weight371 p.1 : Nat) : Int)).sum := by
  induction n generalizing sum with
  | zero =>
    have hnil : base.reverse.drop (base.length - 0) = [] :=
      List.drop_eq_nil_of_le (by simp)
    rw [hnil]
    simp [checkDigitLoop]
  | succ n ih =>
    have hlt : n < base.length := by omega
    have hidx : base.length - (n + 1) < base.reverse.length := by
      rw [List.length_reverse]; omega
    have hget : base.reverse[base.length - (n + 1)] = base[n] := by
      rw [List.getElem_reverse]
      congr 1
      omega
    have hdrop : base.reverse.drop (base.length - (n + 1)) =
        base[n] :: base.reverse.drop (base.length - n) := by
      rw [List.drop_eq_getElem_cons hidx, hget]
      congr 2
      omega
    have hgetD : base.getD n 0 = base[n] := by
      simp [List.getD_eq_getElem?_getD, List.getElem?_eq_getElem hlt]
    obtain ⟨hdig, hle9⟩ := digit_sub base[n] (hd _ (List.getElem_mem hlt))
    have hw := weight371_le (base.length - 1 - n)
    have hprod : digitValue base[n] * weight371 (base.length - 1 - n) ≤ 63 := by
      calc digitValue base[n] * weight371 (base.length - 1 - n) ≤ 9 * 7 :=
            Nat.mul_le_mul hle9 hw
        _ = 63 := rfl
    have hstep : checkDigitLoop base (n + 1) sum =
        checkDigitLoop base n (wrapInt64 (sum + ((base.getD n 0 - 48 : Byte).val : Int) *
          weights.getD ((base.length - 1 - n) % 3) 0)) := rfl
    rw [hstep, hgetD, hdig, weights_getD, wrapInt64_of_bounds _ (by positivity) (by push_cast at *; nlinarith)]
    rw [ih (by omega) _ (by positivity) (by push_cast at *; nlinarith), hdrop]
    simp only [List.enumFrom_cons, List.map_cons, List.sum_cons]
    have e1 : base.length - (n + 1) = base.length - 1 - n := by omega
    have e2 : base.length - (n + 1) + 1 = base.length - n := by omega
    rw [e1] at *
    rw [e2]
    push_cast
    ring

/-- On a digit string whose length keeps `63 * len` within an `int`, the
function computes the check digit of the specification. -/
theorem calculateEstonian371CheckDigit_eq_spec (base : GoString)
    (hd : ∀ b ∈ base, isDigitByte b = true) (hlen : base.length < 2 ^ 57) :
    calculateEstonian371CheckDigit base = (specCheckDigit base : Int) := by
  have hloop := checkDigitLoop_eq base hd base.length (le_refl _) 0 (le_refl _)
    (by have : (base.length : Int) < 2 ^ 57 := by exact_mod_cast hlen
        omega)
  simp only [Nat.sub_self, List.drop_zero, zero_add] at hloop
  have hsum : checkDigitLoop base base.length 0 = (weightedSum base : Int) := by
    rw [hloop]
    unfold weightedSum List.enum
    push_cast
    simp [List.map_map, Function.comp_def]
  unfold calculateEstonian371CheckDigit specCheckDigit
  simp only
  rw [hsum, Int.tmod_eq_emod (Int.ofNat_nonneg _) (by norm_num)]
  rw [Int.tmod_eq_emod (by omega) (by norm_num)]
  omega

/-! ## Digit strings -/

theorem isSpace_digit (r : Nat) (h : isDigitRune r = true) : isSpace r = false := by
  simp only [isDigitRune, Bool.and_eq_true, decide_eq_true_eq] at h
  simp only [isSpace, Bool.or_eq_false_iff, Bool.and_eq_false_imp, decide_eq_true_eq,
    decide_eq_false_iff_not]
  omega

theorem isDigitRune_space (r : Nat) (h : isSpace r = true) : isDigitRune r = false := by
  cases hd : isDigitRune r
  · rfl
  · rw [isSpace_digit r hd] at h; exact absurd h (by simp)

theorem isDigitByte_val (d : Byte) (h : isDigitByte d = true) :
    d.val < 0x80 ∧ isDigitRune d.val = true := by
  simp only [isDigitByte, Bool.and_eq_true, decide_eq_true_eq] at h
  simp only [isDigitRune, Bool.and_eq_true, decide_eq_true_eq]
  omega

/-- A non-empty digit string neither starts nor ends with white space. -/
theorem digits_not_space (b : GoString) (hne : b ≠ []) (hd : ∀ d ∈ b, isDigitByte d = true)
    (y : GoString) :
    isSpace (decodeRune (b ++ y)).1 = false ∧ isSpace (decodeLastRune (y ++ b)).1 = false := by
  constructor
  · obtain ⟨c, rest, rfl⟩ := List.exists_cons_of_ne_nil hne
    obtain ⟨h1, h2⟩ := isDigitByte_val c (hd c (List.mem_cons_self _ _))
    rw [List.cons_append, decodeRune_ascii c _ h1]
    exact isSpace_digit _ h2
  · rcases List.eq_nil_or_concat b with h | ⟨init, c, h⟩
    · exact absurd h hne
    · rw [List.concat_eq_append] at h
      subst h
      obtain ⟨h1, h2⟩ := isDigitByte_val c (hd c (by simp))
      rw [← List.append_assoc, decodeLastRune_ascii _ c h1]
      exact isSpace_digit _ h2

/-- Trimming removes the white space around a digit string and nothing else. -/
theorem trimSpace_padded_digits (L R : List Nat) (b : GoString)
    (hL : ∀ r ∈ L, isSpace r = true) (hR : ∀ r ∈ R, isSpace r = true) (hne : b ≠ [])
    (hd : ∀ d ∈ b, isDigitByte d = true) :
    trimSpace (encodeRunes L ++ b ++ encodeRunes R) = b := by
  unfold trimSpace
  rw [List.append_assoc, trimLeftSpace_encodeRunes L _ hL
    (Or.inr (digits_not_space b hne hd _).1)]
  apply trimRightSpace_encodeRunes b R hR
  have := (digits_not_space b hne hd []).2
  simp only [List.nil_append] at this
  exact Or.inr this

theorem trimSpace_digits (b : GoString) (hne : b ≠ []) (hd : ∀ d ∈ b, isDigitByte d = true) :
    trimSpace b = b := by
  have := trimSpace_padded_digits [] [] b (by simp) (by simp) hne hd
  simpa [encodeRunes_nil] using this

/-- Every string is its trimmed form with a run of white space runes on either
side. -/
theorem trimSpace_decomp (s : GoString) :
    ∃ L R : List Nat, (∀ r ∈ L, isSpace r = true) ∧ (∀ r ∈ R, isSpace r = true) ∧
      s = encodeRunes L ++ trimSpace s ++ encodeRunes R := by
  obtain ⟨L, hL, hs, _⟩ := trimLeftSpace_decomp s
  obtain ⟨R, hR, ht, _⟩ := trimRightSpace_decomp (trimLeftSpace s)
  refine ⟨L, R, hL, hR, ?_⟩
  unfold trimSpace
  rw [List.append_assoc, ← ht, ← hs]

/-- The range loop over a string that starts with white space meets those
white space runes first. -/
theorem runes_encodeRunes_append (rs : List Nat) (hrs : ∀ r ∈ rs, isSpace r = true)
    (t : GoString) : runes (encodeRunes rs ++ t) = rs ++ runes t := by
  induction rs with
  | nil => simp [encodeRunes_nil]
  | cons r rs ih =>
    have hr := hrs r (List.mem_cons_self _ _)
    have hd := decodeRune_encodeRune_space r hr (encodeRunes rs ++ t)
    rw [encodeRunes_cons, List.append_assoc]
    obtain ⟨c, rest, hc⟩ := List.exists_cons_of_ne_nil
      (show encodeRune r ++ (encodeRunes rs ++ t) ≠ [] by simp [encodeRune_ne_nil])
    rw [hc, runes_cons, ← hc, hd]
    simp only [List.drop_left, List.cons_append, List.cons.injEq, true_and]
    exact ih (fun q hq => hrs q (List.mem_cons_of_mem _ hq))

/-- The range loop over a string that starts with digits meets those digits
first. -/
theorem runes_digits_append (b : GoString) (hd : ∀ d ∈ b, isDigitByte d = true)
    (t : GoString) : runes (b ++ t) = b.map (fun d => d.val) ++ runes t := by
  induction b with
  | nil => simp
  | cons c rest ih =>
    obtain ⟨h1, _⟩ := isDigitByte_val c (hd c (List.mem_cons_self _ _))
    rw [List.cons_append, runes_ascii c _ h1, ih (fun d hd' => hd d (List.mem_cons_of_mem _ hd'))]
    simp

/-- The runes of a digit string with white space around it. -/
theorem runes_padded_digits (L R : List Nat) (b : GoString)
    (hL : ∀ r ∈ L, isSpace r = true) (hR : ∀ r ∈ R, isSpace r = true)
    (hd : ∀ d ∈ b, isDigitByte d = true) :
    runes (encodeRunes L ++ b ++ encodeRunes R) = L ++ b.map (fun d => d.val) ++ R := by
  rw [List.append_assoc, runes_encodeRunes_append L hL, runes_digits_append b hd]
  have := runes_encodeRunes_append R hR []
  simp only [List.append_nil, runes_nil] at this
  rw [this, List.append_assoc]

/-! ## GenerateEstonianReference and ValidateEstonianReference -/

theorem digitByte_facts (n : Nat) (h : n < 10) :
    isDigitByte (digitByte n) = true ∧ ((digitByte n - 48 : Byte).val : Int) = (n : Int) := by
  interval_cases n <;> exact ⟨rfl, rfl⟩

/-- On a digit string, with or without white space around it, the function
returns the digits followed by the check digit character. -/
theorem generate_padded_digits (L R : List Nat) (b : GoString)
    (hL : ∀ r ∈ L, isSpace r = true) (hR : ∀ r ∈ R, isSpace r = true) (hne : b ≠ [])
    (hd : ∀ d ∈ b, isDigitByte d = true) :
    GenerateEstonianReference (encodeRunes L ++ b ++ encodeRunes R) =
      .ok (b ++ [digitByte (calculateEstonian371CheckDigit b).toNat]) := by
  obtain ⟨h0, h9⟩ := calculateEstonian371CheckDigit_range b
  unfold GenerateEstonianReference
  simp only [trimSpace_padded_digits L R b hL hR hne hd, hne, if_false,
    (rangeHasNonDigit_eq_false_iff b).mpr hd, itoa_digit _ h0 h9]
  rfl

theorem generate_digits (b : GoString) (hne : b ≠ []) (hd : ∀ d ∈ b, isDigitByte d = true) :
    GenerateEstonianReference b =
      .ok (b ++ [digitByte (calculateEstonian371CheckDigit b).toNat]) := by
  have := generate_padded_digits [] [] b (by simp) (by simp) hne hd
  simpa [encodeRunes_nil] using this

/-- The function succeeds exactly on the strings whose trimmed form is a
non-empty digit string. -/
theorem generate_cases (s : GoString) :
    (trimSpace s = [] ∧
      GenerateEstonianReference s = .error (.errorf "base number cannot be empty" [])) ∨
    (trimSpace s ≠ [] ∧ (∃ d ∈ trimSpace s, isDigitByte d = false) ∧
      GenerateEstonianReference s =
        .error (.errorf "base number must contain only digits, got: %s" [trimSpace s])) ∨
    (trimSpace s ≠ [] ∧ (∀ d ∈ trimSpace s, isDigitByte d = true) ∧
      GenerateEstonianReference s = .ok (trimSpace s ++
        [digitByte (calculateEstonian371CheckDigit (trimSpace s)).toNat])) := by
  by_cases h0 : trimSpace s = []
  · left
    exact ⟨h0, by simp [GenerateEstonianReference, h0]⟩
  · right
    by_cases hr : rangeHasNonDigit (trimSpace s).length (trimSpace s) = true
    · left
      refine ⟨h0, ?_, by simp [GenerateEstonianReference, h0, hr]⟩
      by_contra hcon
      push_neg at hcon
      have hall : ∀ d ∈ trimSpace s, isDigitByte d = true := by
        intro d hd
        simpa using hcon d hd
      rw [(rangeHasNonDigit_eq_false_iff _).mpr hall] at hr
      exact absurd hr (by simp)
    · right
      have hr' : rangeHasNonDigit (trimSpace s).length (trimSpace s) = false := by
        simpa using hr
      have hall := (rangeHasNonDigit_eq_false_iff _).mp hr'
      obtain ⟨h0', h9⟩ := calculateEstonian371CheckDigit_range (trimSpace s)
      refine ⟨h0, hall, ?_⟩
      simp [GenerateEstonianReference, h0, hr', itoa_digit _ h0' h9]

/-- The function `ValidateEstonianReference`, condition by condition. -/
theorem validate_iff (s : GoString) :
    ValidateEstonianReference s = true ↔
      2 ≤ (trimSpace s).length ∧ (∀ d ∈ trimSpace s, isDigitByte d = true) ∧
      (((trimSpace s).getD ((trimSpace s).length - 1) 0 - 48 : Byte).val : Int) =
        calculateEstonian371CheckDigit ((trimSpace s).take ((trimSpace s).length - 1)) := by
  unfold ValidateEstonianReference
  simp only
  by_cases h2 : (trimSpace s).length < 2
  · simp only [h2, if_true]
    constructor
    · intro h; exact absurd h (by simp)
    · intro h; omega
  · simp only [h2, if_false]
    by_cases hr : rangeHasNonDigit (trimSpace s).length (trimSpace s) = true
    · simp only [hr, if_true]
      constructor
      · intro h; exact absurd h (by simp)
      · intro h
        rw [(rangeHasNonDigit_eq_false_iff _).mpr h.2.1] at hr
        exact absurd hr (by simp)
    · have hr' : rangeHasNonDigit (trimSpace s).length (trimSpace s) = false := by
        simpa using hr
      simp only [hr', decide_eq_true_eq]
      constructor
      · intro h
        exact ⟨by omega, (rangeHasNonDigit_eq_false_iff _).mp hr', by simpa using h⟩
      · intro h
        simpa using h.2.2

/-- A digit string followed by one more digit is valid exactly when that
digit is the check digit of the string. -/
theorem validate_digits_concat (b : GoString) (c : Byte) (hne : b ≠ [])
    (hd : ∀ d ∈ b, isDigitByte d = true) (hc : isDigitByte c = true) :
    ValidateEstonianReference (b ++ [c]) = true ↔
      (digitValue c : Int) = calculateEstonian371CheckDigit b := by
  have hall : ∀ d ∈ b ++ [c], isDigitByte d = true := by
    intro d hd'
    rcases List.mem_append.mp hd' with h | h
    · exact hd d h
    · rw [List.mem_singleton.mp h]; exact hc
  have htrim := trimSpace_digits (b ++ [c]) (by simp) hall
  have hlen : 1 ≤ b.length := List.length_pos.mpr hne
  rw [validate_iff, htrim]
  simp only [List.length_append, List.length_singleton, Nat.add_sub_cancel, List.take_left]
  have hget : (b ++ [c]).getD b.length 0 = c := by
    simp [List.getD_eq_getElem?_getD]
  rw [hget, (digit_sub c hc).1]
  constructor
  · intro h; exact h.2.2
  · intro h; exact ⟨by omega, hall, h⟩

theorem runes_of_digits (t : GoString) (hd : ∀ d ∈ t, isDigitByte d = true) :
    runes t = t.map (fun d => d.val) := by
  have := runes_digits_append t hd []
  simpa [runes_nil] using this

/-- No byte of the encoding of a white space rune is a digit. -/
theorem encodeRune_space_not_digit (r : Nat) (h : isSpace r = true) :
    ∀ d ∈ encodeRune r, isDigitByte d = false := by
  rw [isSpace_iff_mem] at h
  fin_cases h <;> decide

/-- A string whose trimmed form consists of digits only has no runes other
than white space and digits. -/
theorem runes_space_or_digit (s : GoString) (hd : ∀ d ∈ trimSpace s, isDigitByte d = true) :
    ∀ r ∈ runes s, isSpace r = true ∨ isDigitRune r = true := by
  obtain ⟨L, R, hL, hR, hs⟩ := trimSpace_decomp s
  intro r hr
  rw [hs, runes_padded_digits L R _ hL hR hd] at hr
  rcases List.mem_append.mp hr with hr | hr
  · rcases List.mem_append.mp hr with hr | hr
    · exact Or.inl (hL r hr)
    · obtain ⟨d, hdm, rfl⟩ := List.mem_map.mp hr
      exact Or.inr (isDigitByte_val d (hd d hdm)).2
  · exact Or.inl (hR r hr)

/-- A string with a rune that is neither white space nor a digit keeps a byte
that is not a digit when it is trimmed. -/
theorem trimSpace_has_non_digit (s : GoString)
    (h : ∃ r ∈ runes s, isSpace r = false ∧ isDigitRune r = false) :
    ¬ ∀ d ∈ trimSpace s, isDigitByte d = true := by
  intro hd
  obtain ⟨r, hr, h1, h2⟩ := h
  rcases runes_space_or_digit s hd r hr with h' | h'
  · rw [h1] at h'; exact absurd h' (by simp)
  · rw [h2] at h'; exact absurd h' (by simp)

/-- The trimmed form is never longer than the string, in bytes and in runes,
when it consists of digits. -/
theorem trimSpace_digits_length (s : GoString) (hd : ∀ d ∈ trimSpace s, isDigitByte d = true) :
    (trimSpace s).length ≤ s.length ∧ (trimSpace s).length ≤ (runes s).length := by
  obtain ⟨L, R, hL, hR, hs⟩ := trimSpace_decomp s
  have h1 := congrArg List.length hs
  have h2 := congrArg (fun x => (runes x).length) hs
  simp only [runes_padded_digits L R _ hL hR hd, List.length_append, List.length_map] at h1 h2
  constructor <;> omega

/-- Digits, then white space, then digits: trimming changes nothing and a byte
that is not a digit remains. -/
theorem trimSpace_inner_space (b1 b2 : GoString) (ws : List Nat) (h1 : b1 ≠ [])
    (hd1 : ∀ d ∈ b1, isDigitByte d = true) (h2 : b2 ≠ [])
    (hd2 : ∀ d ∈ b2, isDigitByte d = true) (hws : ws ≠ [])
    (hsp : ∀ r ∈ ws, isSpace r = true) :
    trimSpace (b1 ++ encodeRunes ws ++ b2) = b1 ++ encodeRunes ws ++ b2 ∧
      ∃ d ∈ b1 ++ encodeRunes ws ++ b2, isDigitByte d = false := by
  constructor
  · unfold trimSpace
    have hl : trimLeftSpace (b1 ++ encodeRunes ws ++ b2) = b1 ++ encodeRunes ws ++ b2 := by
      apply trimLeftSpace_of_not_space
      rw [List.append_assoc]
      exact Or.inr (digits_not_space b1 h1 hd1 _).1
    rw [hl]
    have hr := trimRightSpace_encodeRunes (b1 ++ encodeRunes ws ++ b2) [] (by simp)
      (Or.inr (digits_not_space b2 h2 hd2 _).2)
    simpa [encodeRunes_nil] using hr
  · obtain ⟨r, rs, rfl⟩ := List.exists_cons_of_ne_nil hws
    obtain ⟨c, rest, hc⟩ := List.exists_cons_of_ne_nil (encodeRune_ne_nil r)
    have hr := hsp r (List.mem_cons_self _ _)
    refine ⟨c, ?_, encodeRune_space_not_digit r hr c (by rw [hc]; exact List.mem_cons_self _ _)⟩
    rw [encodeRunes_cons, hc]
    simp

/-- What the function answers decides whether the trimmed string is a
non-empty digit string. -/
theorem generate_error_iff (s : GoString) :
    (∃ e, GenerateEstonianReference s = .error e) ↔
      (trimSpace s = [] ∨ ∃ d ∈ trimSpace s, isDigitByte d = false) := by
  rcases generate_cases s with ⟨h0, hg⟩ | ⟨h0, hex, hg⟩ | ⟨h0, hall, hg⟩
  · exact ⟨fun _ => Or.inl h0, fun _ => ⟨_, hg⟩⟩
  · exact ⟨fun _ => Or.inr hex, fun _ => ⟨_, hg⟩⟩
  · constructor
    · rintro ⟨e, he⟩
      rw [hg] at he
      exact absurd he (by simp)
    · rintro (h | ⟨d, hd, hf⟩)
      · exact absurd h h0
      · rw [hall d hd] at hf
        exact absurd hf (by simp)

/-- A byte that is not a digit shows as a rune that is not a digit, and the
other way round. -/
theorem exists_non_digit_iff (t : GoString) :
    (∃ r ∈ runes t, isDigitRune r = false) ↔ ∃ d ∈ t, isDigitByte d = false := by
  have h := runes_all_digit_iff t
  constructor
  · rintro ⟨r, hr, hf⟩
    by_contra hcon
    push_neg at hcon
    have := h.mpr (fun d hd => by simpa using hcon d hd) r hr
    rw [hf] at this
    exact absurd this (by simp)
  · rintro ⟨d, hd, hf⟩
    by_contra hcon
    push_neg at hcon
    have := h.mp (fun r hr => by simpa using hcon r hr) d hd
    rw [hf] at this
    exact absurd this (by simp)

/-! ## Claims about the reference checksum -/

/-- C1. Round trip: for every non-empty string `b` of digits,
`GenerateEstonianReference(b)` succeeds with some reference `r`, and
`ValidateEstonianReference(r)` is true. -/
theorem generate_validate_roundtrip (b : GoString) (hne : b ≠ [])
    (hd : ∀ d ∈ b, isDigitByte d = true) :
    ∃ r, GenerateEstonianReference b = .ok r ∧ ValidateEstonianReference r = true := by
  obtain ⟨h0, h9⟩ := calculateEstonian371CheckDigit_range b
  have hn : (calculateEstonian371CheckDigit b).toNat < 10 := by omega
  obtain ⟨hc, hv⟩ := digitByte_facts _ hn
  refine ⟨_, generate_digits b hne hd, ?_⟩
  rw [validate_digits_concat b _ hne hd hc, ← (digit_sub _ hc).1, hv]
  omega

theorem generate_validate_roundtrip_witness :
    lit "202501234" ≠ [] ∧ (∀ d ∈ lit "202501234", isDigitByte d = true) ∧
      ∃ r, GenerateEstonianReference (lit "202501234") = .ok r ∧
        ValidateEstonianReference r = true :=
  ⟨by decide, by decide, generate_validate_roundtrip (lit "202501234") (by decide) (by decide)⟩

/-- C2. For every non-empty digit string `b` (of a length whose weighted sum
fits an `int`), `GenerateEstonianReference(b)` returns `b` followed by the
single decimal digit `c = (10 - (S mod 10)) mod 10`, where `S` is the sum over
all positions `i`, counted from the right, of the digit at `i` times
`w(i mod 3)` with `w(0) = 7`, `w(1) = 3`, `w(2) = 1`; and
`calculateEstonian371CheckDigit(b)` equals that `c`. -/
theorem generate_eq_spec (b : GoString) (hne : b ≠ []) (hd : ∀ d ∈ b, isDigitByte d = true)
    (hlen : b.length < 2 ^ 57) :
    GenerateEstonianReference b = .ok (b ++ [digitByte (specCheckDigit b)]) ∧
      calculateEstonian371CheckDigit b = (specCheckDigit b : Int) ∧
      specCheckDigit b = (10 - weightedSum b % 10) % 10 ∧ specCheckDigit b < 10 ∧
      weight371 0 = 7 ∧ weight371 1 = 3 ∧ weight371 2 = 1 := by
  have hc := calculateEstonian371CheckDigit_eq_spec b hd hlen
  refine ⟨?_, hc, rfl, ?_, rfl, rfl, rfl⟩
  · rw [generate_digits b hne hd, hc, Int.toNat_ofNat]
  · unfold specCheckDigit; omega

theorem generate_eq_spec_witness :
    lit "12131295" ≠ [] ∧ (∀ d ∈ lit "12131295", isDigitByte d = true) ∧
      (lit "12131295").length < 2 ^ 57 ∧
      GenerateEstonianReference (lit "12131295") =
        .ok (lit "12131295" ++ [digitByte (specCheckDigit (lit "12131295"))]) ∧
      calculateEstonian371CheckDigit (lit "12131295") = (specCheckDigit (lit "12131295") : Int) ∧
      specCheckDigit (lit "12131295") = (10 - weightedSum (lit "12131295") % 10) % 10 ∧
      specCheckDigit (lit "12131295") < 10 ∧
      weight371 0 = 7 ∧ weight371 1 = 3 ∧ weight371 2 = 1 :=
  ⟨by decide, by decide, by decide,
    generate_eq_spec (lit "12131295") (by decide) (by decide) (by decide)⟩

/-- C3. The published fixtures: `GenerateEstonianReference` returns `"12344"`
for `"1234"`, `"121312952"` for `"12131295"`, `"770"` for `"77"`, `"00000"` for
`"0000"`, and `"12344"` for the padded input `"  1234  "`, each without
error. -/
theorem generate_fixtures :
    GenerateEstonianReference (lit "1234") = .ok (lit "12344") ∧
    GenerateEstonianReference (lit "12131295") = .ok (lit "121312952") ∧
    GenerateEstonianReference (lit "77") = .ok (lit "770") ∧
    GenerateEstonianReference (lit "0000") = .ok (lit "00000") ∧
    GenerateEstonianReference (lit "  1234  ") = .ok (lit "12344") :=
  ⟨rfl, rfl, rfl, rfl, rfl⟩

/-- C4. For every non-empty digit string `b`, the string returned by
`GenerateEstonianReference(b)` has length exactly `len(b) + 1`: the check digit
is a single character, the computed check digit lies in `0..9`. -/
theorem generate_length (b : GoString) (hne : b ≠ []) (hd : ∀ d ∈ b, isDigitByte d = true) :
    (∃ r, GenerateEstonianReference b = .ok r ∧ r.length = b.length + 1) ∧
      0 ≤ calculateEstonian371CheckDigit b ∧ calculateEstonian371CheckDigit b ≤ 9 ∧
      (itoa (calculateEstonian371CheckDigit b)).length = 1 := by
  obtain ⟨h0, h9⟩ := calculateEstonian371CheckDigit_range b
  refine ⟨⟨_, generate_digits b hne hd, by simp⟩, h0, h9, ?_⟩
  rw [itoa_digit _ h0 h9]
  rfl

theorem generate_length_witness :
    lit "999999999" ≠ [] ∧ (∀ d ∈ lit "999999999", isDigitByte d = true) ∧
      (∃ r, GenerateEstonianReference (lit "999999999") = .ok r ∧
        r.length = (lit "999999999").length + 1) ∧
      0 ≤ calculateEstonian371CheckDigit (lit "999999999") ∧
      calculateEstonian371CheckDigit (lit "999999999") ≤ 9 ∧
      (itoa (calculateEstonian371CheckDigit (lit "999999999"))).length = 1 :=
  ⟨by decide, by decide, generate_length (lit "999999999") (by decide) (by decide)⟩

/-- C5. `GenerateEstonianReference(s)` fails if and only if `s` with the
surrounding white space trimmed is empty or contains a character outside
`'0'..'9'`.  In particular it fails on `""`, on every string with a character
that is neither white space nor a digit (a letter, a punctuation mark), and on
digits separated by white space (`"12 34"`); and it succeeds on a digit string
with white space around it, with the same result as for the digit string
alone. -/
theorem generate_fails_iff :
    (∀ s : GoString, (∃ e, GenerateEstonianReference s = .error e) ↔
      (trimSpace s = [] ∨ ∃ r ∈ runes (trimSpace s), isDigitRune r = false)) ∧
    (∀ s : GoString, ∃ L R : List Nat, (∀ r ∈ L, isSpace r = true) ∧
      (∀ r ∈ R, isSpace r = true) ∧ s = encodeRunes L ++ trimSpace s ++ encodeRunes R) ∧
    (∃ e, GenerateEstonianReference (lit "") = .error e) ∧
    (∀ s : GoString, (∃ r ∈ runes s, isSpace r = false ∧ isDigitRune r = false) →
      ∃ e, GenerateEstonianReference s = .error e) ∧
    (∀ (b1 b2 : GoString) (ws : List Nat), b1 ≠ [] → (∀ d ∈ b1, isDigitByte d = true) →
      b2 ≠ [] → (∀ d ∈ b2, isDigitByte d = true) → ws ≠ [] → (∀ r ∈ ws, isSpace r = true) →
      ∃ e, GenerateEstonianReference (b1 ++ encodeRunes ws ++ b2) = .error e) ∧
    (∃ e, GenerateEstonianReference (lit "12 34") = .error e) ∧
    (∀ (L R : List Nat) (b : GoString), (∀ r ∈ L, isSpace r = true) →
      (∀ r ∈ R, isSpace r = true) → b ≠ [] → (∀ d ∈ b, isDigitByte d = true) →
      GenerateEstonianReference (encodeRunes L ++ b ++ encodeRunes R) =
        GenerateEstonianReference b ∧
      ∃ r, GenerateEstonianReference b = .ok r) := by
  refine ⟨?_, trimSpace_decomp, ⟨_, rfl⟩, ?_, ?_, ⟨_, rfl⟩, ?_⟩
  · intro s
    rw [generate_error_iff, exists_non_digit_iff]
  · intro s h
    rw [generate_error_iff]
    by_cases h0 : trimSpace s = []
    · exact Or.inl h0
    · right
      by_contra hcon
      push_neg at hcon
      exact trimSpace_has_non_digit s h (fun d hd => by simpa using hcon d hd)
  · intro b1 b2 ws h1 hd1 h2 hd2 hws hsp
    obtain ⟨ht, hex⟩ := trimSpace_inner_space b1 b2 ws h1 hd1 h2 hd2 hws hsp
    rw [generate_error_iff, ht]
    exact Or.inr hex
  · intro L R b hL hR hne hd
    rw [generate_padded_digits L R b hL hR hne hd, generate_digits b hne hd]
    exact ⟨rfl, _, rfl⟩

theorem generate_fails_iff_witness :
    (∃ e, GenerateEstonianReference (lit "INV123") = .error e) ∧
    (∃ e, GenerateEstonianReference (lit "123-456") = .error e) ∧
    (∃ e, GenerateEstonianReference (lit "12\u00a0\t34") = .error e) ∧
    GenerateEstonianReference (lit "  1234\n") = GenerateEstonianReference (lit "1234") :=
  ⟨generate_fails_iff.2.2.2.1 (lit "INV123") ⟨73, by decide, by decide, by decide⟩,
    generate_fails_iff.2.2.2.1 (lit "123-456") ⟨45, by decide, by decide, by decide⟩,
    generate_fails_iff.2.2.2.2.1 (lit "12") (lit "34") [0xA0, 0x09] (by decide) (by decide)
      (by decide) (by decide) (by decide) (by decide),
    (generate_fails_iff.2.2.2.2.2.2 [0x2003, 0x20] [0x0A] (lit "1234") (by decide) (by decide)
      (by decide) (by decide)).1⟩

/-- The counterexample for C6: on the empty string the function fails with
an error made by `fmt.Errorf`, which the check `errors.Is(err, ErrInvalidInput)`
does not accept. -/
theorem generate_error_not_invalid_input :
    GenerateEstonianReference (lit "") = .error (.errorf "base number cannot be empty" []) ∧
    errorsIs (.errorf "base number cannot be empty" []) .ErrInvalidInput = false ∧
    GenerateEstonianReference (lit "12a") =
      .error (.errorf "base number must contain only digits, got: %s" [lit "12a"]) ∧
    errorsIs (.errorf "base number must contain only digits, got: %s" [lit "12a"])
      .ErrInvalidInput = false :=
  ⟨rfl, rfl, rfl, rfl⟩

/-- C6, as amended. Whenever `GenerateEstonianReference` fails, the error is
one of two errors made by `fmt.Errorf` without `%w`: "base number cannot be
empty" when the trimmed base is empty, and "base number must contain only
digits, got: %s" with the trimmed base otherwise.  Such an error wraps
nothing: `errors.Is` holds for none of the sentinels of the package, and in
particular not for `ErrInvalidInput`. -/
theorem generate_error_plain (s : GoString) (e : GoError)
    (h : GenerateEstonianReference s = .error e) :
    ((trimSpace s = [] ∧ e = .errorf "base number cannot be empty" []) ∨
      (trimSpace s ≠ [] ∧
        e = .errorf "base number must contain only digits, got: %s" [trimSpace s])) ∧
    ∀ target : Sentinel, errorsIs e target = false := by
  rcases generate_cases s with ⟨h0, hg⟩ | ⟨h0, _, hg⟩ | ⟨_, _, hg⟩
  · rw [hg] at h
    injection h with h
    subst h
    exact ⟨Or.inl ⟨h0, rfl⟩, fun _ => rfl⟩
  · rw [hg] at h
    injection h with h
    subst h
    exact ⟨Or.inr ⟨h0, rfl⟩, fun _ => rfl⟩
  · rw [hg] at h
    exact absurd h (by simp)

theorem generate_error_plain_witness :
    GenerateEstonianReference (lit "INV123") =
        .error (.errorf "base number must contain only digits, got: %s" [lit "INV123"]) ∧
    ((trimSpace (lit "INV123") = [] ∧
        GoError.errorf "base number must contain only digits, got: %s" [lit "INV123"] =
          .errorf "base number cannot be empty" []) ∨
      (trimSpace (lit "INV123") ≠ [] ∧
        GoError.errorf "base number must contain only digits, got: %s" [lit "INV123"] =
          .errorf "base number must contain only digits, got: %s" [trimSpace (lit "INV123")])) ∧
    ∀ target : Sentinel,
      errorsIs (.errorf "base number must contain only digits, got: %s" [lit "INV123"])
        target = false :=
  ⟨rfl, generate_error_plain (lit "INV123") _ rfl⟩

theorem list_split_last (t : GoString) (h : 1 ≤ t.length) :
    t = t.take (t.length - 1) ++ [t.getD (t.length - 1) 0] := by
  rcases List.eq_nil_or_concat t with rfl | ⟨init, c, rfl⟩
  · simp at h
  · rw [List.concat_eq_append]
    simp [List.getD_eq_getElem?_getD]

/-- The function `ValidateEstonianReference` in the words of its contract. -/
theorem validate_iff_runes (s : GoString) :
    ValidateEstonianReference s = true ↔
      2 ≤ (runes (trimSpace s)).length ∧ (∀ r ∈ runes (trimSpace s), isDigitRune r = true) ∧
      ∃ base d, trimSpace s = base ++ [d] ∧
        (digitValue d : Int) = calculateEstonian371CheckDigit base := by
  rw [validate_iff]
  constructor
  · rintro ⟨h2, hd, heq⟩
    have hsplit := list_split_last (trimSpace s) (by omega)
    have hlast : isDigitByte ((trimSpace s).getD ((trimSpace s).length - 1) 0) = true :=
      hd _ (by
        have : (trimSpace s).getD ((trimSpace s).length - 1) 0 ∈
            (trimSpace s).take ((trimSpace s).length - 1) ++
              [(trimSpace s).getD ((trimSpace s).length - 1) 0] := by simp
        rw [← hsplit] at this
        exact this)
    refine ⟨?_, (runes_all_digit_iff _).mpr hd, _, _, hsplit, ?_⟩
    · rw [runes_of_digits _ hd, List.length_map]; exact h2
    · rw [← (digit_sub _ hlast).1]; exact heq
  · rintro ⟨h2, hr, base, d, hsplit, heq⟩
    have hd := (runes_all_digit_iff _).mp hr
    rw [runes_of_digits _ hd, List.length_map] at h2
    have hdd : isDigitByte d = true := hd d (by rw [hsplit]; simp)
    refine ⟨h2, hd, ?_⟩
    rw [hsplit]
    simp only [List.length_append, List.length_singleton, Nat.add_sub_cancel, List.take_left]
    have hget : (base ++ [d]).getD base.length 0 = d := by
      simp [List.getD_eq_getElem?_getD]
    rw [hget, (digit_sub d hdd).1]
    exact heq

theorem bool_eq_false_of_not {b : Bool} (h : b = true → False) : b = false := by
  cases b
  · rfl
  · exact absurd rfl h

/-- C7. `ValidateEstonianReference(s)` is true if and only if `s` with the
surrounding white space trimmed has at least two characters, consists of
digits only, and its last digit equals the 3-7-1 check digit recomputed over
all characters but the last.  Hence it is false for every string of at most
one character, for every string with a character that is neither white space
nor a digit, for every trimmed string with a character that is not a digit,
and for every valid reference whose last digit is replaced by another digit
(incremented or decremented). -/
theorem validate_spec :
    (∀ s : GoString, ValidateEstonianReference s = true ↔
      2 ≤ (runes (trimSpace s)).length ∧ (∀ r ∈ runes (trimSpace s), isDigitRune r = true) ∧
      ∃ base d, trimSpace s = base ++ [d] ∧
        (digitValue d : Int) = calculateEstonian371CheckDigit base) ∧
    (∀ s : GoString, (runes s).length ≤ 1 → ValidateEstonianReference s = false) ∧
    (∀ s : GoString, s.length ≤ 1 → ValidateEstonianReference s = false) ∧
    (∀ s : GoString, (∃ r ∈ runes s, isSpace r = false ∧ isDigitRune r = false) →
      ValidateEstonianReference s = false) ∧
    (∀ s : GoString, (∃ r ∈ runes (trimSpace s), isDigitRune r = false) →
      ValidateEstonianReference s = false) ∧
    (∀ (b : GoString) (d d' : Byte), b ≠ [] → (∀ c ∈ b, isDigitByte c = true) →
      isDigitByte d = true → isDigitByte d' = true →
      ValidateEstonianReference (b ++ [d]) = true → d' ≠ d →
      ValidateEstonianReference (b ++ [d']) = false) := by
  refine ⟨validate_iff_runes, ?_, ?_, ?_, ?_, ?_⟩
  · intro s h1
    apply bool_eq_false_of_not
    intro hv
    obtain ⟨h2, hd, _⟩ := (validate_iff s).mp hv
    have := (trimSpace_digits_length s hd).2
    omega
  · intro s h1
    apply bool_eq_false_of_not
    intro hv
    obtain ⟨h2, hd, _⟩ := (validate_iff s).mp hv
    have := (trimSpace_digits_length s hd).1
    omega
  · intro s h
    apply bool_eq_false_of_not
    intro hv
    obtain ⟨_, hd, _⟩ := (validate_iff s).mp hv
    exact trimSpace_has_non_digit s h hd
  · intro s h
    apply bool_eq_false_of_not
    intro hv
    obtain ⟨_, hd, _⟩ := (validate_iff s).mp hv
    obtain ⟨c, hc, hf⟩ := (exists_non_digit_iff _).mp h
    rw [hd c hc] at hf
    exact absurd hf (by simp)
  · intro b d d' hne hb hd hd' hv hdiff
    apply bool_eq_false_of_not
    intro hv'
    rw [validate_digits_concat b d hne hb hd] at hv
    rw [validate_digits_concat b d' hne hb hd'] at hv'
    have hval : digitValue d' = digitValue d := by
      have : (digitValue d' : Int) = (digitValue d : Int) := by rw [hv, hv']
      exact_mod_cast this
    simp only [isDigitByte, Bool.and_eq_true, decide_eq_true_eq] at hd hd'
    apply hdiff
    apply Fin.ext
    unfold digitValue at hval
    omega

theorem validate_spec_witness :
    ValidateEstonianReference (lit "é") = false ∧
    ValidateEstonianReference (lit "INV12347") = false ∧
    ValidateEstonianReference (lit "12345") = false ∧
    ValidateEstonianReference (lit "12343") = false :=
  ⟨validate_spec.2.1 (lit "é") (by decide),
    validate_spec.2.2.2.1 (lit "INV12347") ⟨73, by decide, by decide, by decide⟩,
    validate_spec.2.2.2.2.2 (lit "1234") 52 53 (by decide) (by decide) (by decide) (by decide)
      (by decide) (by decide),
    validate_spec.2.2.2.2.2 (lit "1234") 52 51 (by decide) (by decide) (by decide) (by decide)
      (by decide) (by decide)⟩

/-- The counterexample for C8: the function does not return the values that
the examples in its doc comment give. -/
theorem generate_doc_examples_fail :
    GenerateEstonianReference (lit "1234") ≠ .ok (lit "12347") ∧
    GenerateEstonianReference (lit "100001") ≠ .ok (lit "1000016") := by
  constructor
  · intro h
    have h' : GenerateEstonianReference (lit "1234") = .ok (lit "12344") := rfl
    rw [h'] at h
    injection h with h
    revert h
    decide
  · intro h
    have h' : GenerateEstonianReference (lit "100001") = .ok (lit "1000012") := rfl
    rw [h'] at h
    injection h with h
    revert h
    decide

/-- C8, as amended. For the inputs of the examples in the doc comment,
`GenerateEstonianReference("1234")` returns `"12344"` and
`GenerateEstonianReference("100001")` returns `"1000012"`. -/
theorem generate_doc_examples :
    GenerateEstonianReference (lit "1234") = .ok (lit "12344") ∧
    GenerateEstonianReference (lit "100001") = .ok (lit "1000012") :=
  ⟨rfl, rfl⟩

/-! ## Claims about the provider adapter -/

theorem Decimal.isPositive_iff (d : Decimal) : d.IsPositive = true ↔ 0 < d.toRat := by
  have h10 : (0 : ℚ) < (10 : ℚ) ^ d.exp := zpow_pos (by norm_num) _
  unfold Decimal.IsPositive Decimal.Sign Decimal.toRat
  rw [decide_eq_true_eq, Int.sign_eq_one_iff_pos]
  constructor
  · intro h
    exact mul_pos (by exact_mod_cast h) h10
  · intro h
    have := (mul_pos_iff_of_pos_right h10).mp h
    exact_mod_cast this

/-- C9. `deriveInvoiceStatus` is the specified function of
`(paid, paidAmount)`: `Paid` whenever `paid` is true; `Partial` when `paid` is
false and the amount is greater than zero; `Unpaid` when `paid` is false and
the amount is zero or negative.  In particular `(true, 0)` gives `Paid`,
`(false, 5.00)` gives `Partial` and `(false, 0)` gives `Unpaid`. -/
theorem deriveInvoiceStatus_spec :
    (∀ a : Decimal, deriveInvoiceStatus true a = .InvoiceStatusPaid) ∧
    (∀ a : Decimal, 0 < a.toRat → deriveInvoiceStatus false a = .InvoiceStatusPartial) ∧
    (∀ a : Decimal, a.toRat ≤ 0 → deriveInvoiceStatus false a = .InvoiceStatusUnpaid) ∧
    deriveInvoiceStatus true ⟨0, 0⟩ = .InvoiceStatusPaid ∧
    deriveInvoiceStatus false ⟨500, -2⟩ = .InvoiceStatusPartial ∧
    deriveInvoiceStatus false ⟨0, 0⟩ = .InvoiceStatusUnpaid ∧
    deriveInvoiceStatus false ⟨-500, -2⟩ = .InvoiceStatusUnpaid := by
  refine ⟨fun _ => rfl, ?_, ?_, rfl, rfl, rfl, rfl⟩
  · intro a h
    have := (Decimal.isPositive_iff a).mpr h
    simp [deriveInvoiceStatus, this]
  · intro a h
    have : a.IsPositive = false := by
      cases hp : a.IsPositive
      · rfl
      · have := (Decimal.isPositive_iff a).mp hp
        exact absurd this (not_lt.mpr h)
    simp [deriveInvoiceStatus, this]

theorem deriveInvoiceStatus_spec_witness :
    (0 : ℚ) < (Decimal.mk 1999 (-2)).toRat ∧
    deriveInvoiceStatus false ⟨1999, -2⟩ = .InvoiceStatusPartial ∧
    (Decimal.mk (-1) 3).toRat ≤ 0 ∧
    deriveInvoiceStatus false ⟨-1, 3⟩ = .InvoiceStatusUnpaid :=
  ⟨by norm_num [Decimal.toRat], deriveInvoiceStatus_spec.2.1 ⟨1999, -2⟩ (by norm_num [Decimal.toRat]),
    by norm_num [Decimal.toRat], deriveInvoiceStatus_spec.2.2.1 ⟨-1, 3⟩ (by norm_num [Decimal.toRat])⟩

/-! ## Facts about decimals and maps -/

theorem Decimal.toRat_zero : Decimal.zero.toRat = 0 := by
  simp [Decimal.toRat, Decimal.zero]

theorem Decimal.toRat_Mul (d d2 : Decimal) : (d.Mul d2).toRat = d.toRat * d2.toRat := by
  unfold Decimal.Mul Decimal.toRat
  simp only
  rw [zpow_add₀ (by norm_num : (10 : ℚ) ≠ 0)]
  push_cast
  ring

/-- Moving a decimal to a smaller exponent does not change the number. -/
theorem Decimal.toRat_rescale_le (d : Decimal) (exp : Int) (h : exp ≤ d.exp) :
    (d.rescale exp).toRat = d.toRat ∧ (d.rescale exp).exp = exp := by
  unfold Decimal.rescale
  by_cases he : d.exp = exp
  · simp [he]
  · have hlt : ¬ exp > d.exp := by omega
    simp only [he, hlt, if_false]
    refine ⟨?_, trivial⟩
    unfold Decimal.toRat
    simp only
    obtain ⟨n, hn⟩ : ∃ n : Nat, d.exp = exp + n := ⟨(d.exp - exp).toNat, by omega⟩
    have hab : (exp - d.exp).natAbs = n := by omega
    rw [hab, hn, zpow_add₀ (by norm_num : (10 : ℚ) ≠ 0), zpow_natCast]
    push_cast
    ring

/-- The method `Add` is exact. -/
theorem Decimal.toRat_Add (d d2 : Decimal) : (d.Add d2).toRat = d.toRat + d2.toRat := by
  unfold Decimal.Add Decimal.RescalePair
  by_cases h1 : d.exp < d2.exp
  · obtain ⟨hr, he⟩ := Decimal.toRat_rescale_le d2 d.exp (by omega)
    simp only [h1, if_true]
    rw [← hr]
    unfold Decimal.toRat
    rw [he]
    push_cast
    ring
  · by_cases h2 : d.exp > d2.exp
    · obtain ⟨hr, he⟩ := Decimal.toRat_rescale_le d d2.exp (by omega)
      simp only [h1, h2, if_true, if_false]
      rw [← hr]
      unfold Decimal.toRat
      rw [he]
      push_cast
      ring
    · have he : d.exp = d2.exp := by omega
      simp only [h1, h2, if_false]
      unfold Decimal.toRat
      rw [he]
      push_cast
      ring

theorem mapGet_mapSet (m : TaxMap) (k k' : GoString) (v : Decimal) :
    mapGet (mapSet m k v) k' = if k = k' then v else mapGet m k' := by
  induction m with
  | nil => simp [mapSet, mapGet]
  | cons kv rest ih =>
    obtain ⟨a, b⟩ := kv
    by_cases h : a = k
    · subst h
      by_cases h' : a = k' <;> simp [mapSet, mapGet, h']
    · by_cases h' : a = k'
      · subst h'
        have : ¬ k = a := fun e => h e.symm
        simp [mapSet, mapGet, h, this]
      · simp [mapSet, mapGet, h, h', ih]

theorem keys_mapSet (m : TaxMap) (k : GoString) (v : Decimal) :
    (mapSet m k v).map Prod.fst =
      if k ∈ m.map Prod.fst then m.map Prod.fst else m.map Prod.fst ++ [k] := by
  induction m with
  | nil => simp [mapSet]
  | cons kv rest ih =>
    obtain ⟨a, b⟩ := kv
    by_cases h : a = k
    · subst h
      simp [mapSet]
    · have hk : ¬ k = a := fun e => h e.symm
      simp only [mapSet, h, if_false, List.map_cons, ih, List.mem_cons, hk, false_or]
      split_ifs <;> simp

theorem nodup_keys_mapSet (m : TaxMap) (k : GoString) (v : Decimal)
    (h : (m.map Prod.fst).Nodup) : ((mapSet m k v).map Prod.fst).Nodup := by
  rw [keys_mapSet]
  split_ifs with hk
  · exact h
  · rw [List.nodup_append]
    exact ⟨h, List.nodup_singleton _, by
      intro a ha hb
      rw [List.mem_singleton.mp hb] at ha
      exact hk ha⟩

/-- In a map, the value listed with a key is the value read under that
key. -/
theorem mapGet_of_mem (m : TaxMap) (h : (m.map Prod.fst).Nodup) (k : GoString) (v : Decimal)
    (hm : (k, v) ∈ m) : mapGet m k = v := by
  induction m with
  | nil => simp at hm
  | cons kv rest ih =>
    obtain ⟨a, b⟩ := kv
    simp only [List.map_cons, List.nodup_cons] at h
    rcases List.mem_cons.mp hm with heq | hin
    · injection heq with h1 h2
      subst h1 h2
      simp [mapGet]
    · have hne : a ≠ k := by
        intro e
        subst e
        exact h.1 (List.mem_map.mpr ⟨(a, v), hin, rfl⟩)
      simp [mapGet, hne, ih h.2 hin]

/-- The state of the map after the loop over `lines`, started from `m`. -/
theorem foldl_taxStep_spec (lines : List CreateInvoiceLineInput) (m : TaxMap)
    (h : (m.map Prod.fst).Nodup) :
    ((lines.foldl taxStep m).map Prod.fst).Nodup ∧
    (∀ k, k ∈ (lines.foldl taxStep m).map Prod.fst ↔
      k ∈ m.map Prod.fst ∨ k ∈ lines.map (fun l => l.TaxID)) ∧
    (∀ k, (mapGet (lines.foldl taxStep m) k).toRat = (mapGet m k).toRat + lineTotal lines k) := by
  induction lines generalizing m with
  | nil => simp [lineTotal, h]
  | cons line rest ih =>
    have hn : ((taxStep m line).map Prod.fst).Nodup := nodup_keys_mapSet _ _ _ h
    obtain ⟨h1, h2, h3⟩ := ih (taxStep m line) hn
    rw [List.foldl_cons]
    refine ⟨h1, ?_, ?_⟩
    · intro k
      rw [h2 k]
      unfold taxStep
      simp only [keys_mapSet]
      split_ifs with hk
      · simp only [List.map_cons, List.mem_cons]
        constructor
        · rintro (h' | h')
          · exact Or.inl h'
          · exact Or.inr (Or.inr h')
        · rintro (h' | h' | h')
          · exact Or.inl h'
          · rw [h']; exact Or.inl hk
          · exact Or.inr h'
      · simp only [List.mem_append, List.mem_singleton, List.map_cons, List.mem_cons]
        tauto
    · intro k
      rw [h3 k]
      unfold taxStep
      simp only [mapGet_mapSet]
      by_cases hk : line.TaxID = k
      · subst hk
        simp only [if_true, Decimal.toRat_Add, Decimal.toRat_Mul, lineTotal, List.filter_cons,
          decide_True, List.map_cons, List.sum_cons]
        ring
      · simp [hk, lineTotal, List.filter_cons]

/-- C10. Line-to-tax aggregation: the tax amounts returned by
`buildRowsAndTaxes`, in whatever order the map is visited, hold exactly one
entry for each distinct `TaxID` of the lines and no other entry, and the
`Amount` of an entry is the exact sum of `Quantity * UnitPrice` over the lines
with that `TaxID`.  For two lines with the same tax identifier and
`(2, 10.00)` and `(3, 10.00)` the single entry is `50.00`. -/
theorem buildRowsAndTaxes_aggregates (iter : TaxMap → TaxMap) (hiter : IsIterationOrder iter)
    (lines : List CreateInvoiceLineInput) :
    ((buildRowsAndTaxes iter lines).2.map fun e => e.TaxID).Nodup ∧
    (∀ k, k ∈ (buildRowsAndTaxes iter lines).2.map (fun e => e.TaxID) ↔
      k ∈ lines.map (fun l => l.TaxID)) ∧
    (∀ e ∈ (buildRowsAndTaxes iter lines).2, e.Amount.toRat = lineTotal lines e.TaxID) ∧
    (∀ l1 l2 : CreateInvoiceLineInput, l1.TaxID = l2.TaxID →
      l1.Quantity = ⟨2, 0⟩ → l1.UnitPrice = ⟨1000, -2⟩ →
      l2.Quantity = ⟨3, 0⟩ → l2.UnitPrice = ⟨1000, -2⟩ →
      (buildRowsAndTaxes iter [l1, l2]).2 = [{ TaxID := l1.TaxID, Amount := ⟨5000, -2⟩ }]) := by
  obtain ⟨h1, h2, h3⟩ := foldl_taxStep_spec lines [] (by simp)
  have hperm := hiter (taxAmountsOf lines)
  have hkeys : ((buildRowsAndTaxes iter lines).2.map fun e => e.TaxID) =
      (iter (taxAmountsOf lines)).map Prod.fst := by
    simp [buildRowsAndTaxes, List.map_map, Function.comp_def]
  refine ⟨?_, ?_, ?_, ?_⟩
  · rw [hkeys]
    exact (hperm.map Prod.fst).nodup_iff.mpr h1
  · intro k
    rw [hkeys, (hperm.map Prod.fst).mem_iff]
    have := h2 k
    simpa [taxAmountsOf] using this
  · intro e he
    simp only [buildRowsAndTaxes, List.mem_map] at he
    obtain ⟨kv, hkv, rfl⟩ := he
    have hmem : (kv.1, kv.2) ∈ taxAmountsOf lines := hperm.mem_iff.mp hkv
    have hget := mapGet_of_mem _ h1 kv.1 kv.2 hmem
    have := h3 kv.1
    rw [hget] at this
    simpa [mapGet, Decimal.toRat_zero] using this
  · intro l1 l2 hid q1 p1 q2 p2
    have hm : taxAmountsOf [l1, l2] = [(l1.TaxID, ⟨5000, -2⟩)] := by
      simp only [taxAmountsOf, List.foldl_cons, List.foldl_nil, taxStep, q1, p1, q2, p2, ← hid,
        mapGet, mapSet, if_true]
      rfl
    have hp := hiter (taxAmountsOf [l1, l2])
    rw [hm] at hp
    have := List.perm_singleton.mp hp
    simp [buildRowsAndTaxes, hm, this]

theorem buildRowsAndTaxes_aggregates_witness :
    IsIterationOrder List.reverse ∧
    (buildRowsAndTaxes List.reverse
      [{ Quantity := ⟨2, 0⟩, UnitPrice := ⟨1000, -2⟩, TaxID := lit "A" },
       { Quantity := ⟨1, 0⟩, UnitPrice := ⟨5, -1⟩, TaxID := lit "B" },
       { Quantity := ⟨3, 0⟩, UnitPrice := ⟨1000, -2⟩, TaxID := lit "A" }]).2 =
      [{ TaxID := lit "B", Amount := ⟨5, -1⟩ }, { TaxID := lit "A", Amount := ⟨5000, -2⟩ }] ∧
    ((buildRowsAndTaxes List.reverse
      [{ Quantity := ⟨2, 0⟩, UnitPrice := ⟨1000, -2⟩, TaxID := lit "A" },
       { Quantity := ⟨1, 0⟩, UnitPrice := ⟨5, -1⟩, TaxID := lit "B" },
       { Quantity := ⟨3, 0⟩, UnitPrice := ⟨1000, -2⟩, TaxID := lit "A" }]).2.map
        fun e => e.TaxID).Nodup :=
  ⟨fun m => List.reverse_perm m, by decide,
    (buildRowsAndTaxes_aggregates List.reverse (fun m => List.reverse_perm m) _).1⟩

/-! ## The order of the tax amounts -/

theorem keys_taxStep (m : TaxMap) (line : CreateInvoiceLineInput) :
    (taxStep m line).map Prod.fst =
      if line.TaxID ∈ m.map Prod.fst then m.map Prod.fst else m.map Prod.fst ++ [line.TaxID] := by
  unfold taxStep
  exact keys_mapSet _ _ _

/-- The keys of the map after the loop, in the order of insertion. -/
theorem keys_foldl_taxStep (lines : List CreateInvoiceLineInput) (m : TaxMap) :
    (lines.foldl taxStep m).map Prod.fst =
      m.map Prod.fst ++
        (firstOccurrences (lines.map fun l => l.TaxID)).filter
          fun x => decide (x ∉ m.map Prod.fst) := by
  induction lines generalizing m with
  | nil => simp [firstOccurrences]
  | cons line rest ih =>
    rw [List.foldl_cons, ih, keys_taxStep]
    simp only [List.map_cons, firstOccurrences]
    by_cases hk : line.TaxID ∈ m.map Prod.fst
    · simp only [hk, if_true, List.filter_cons, not_true_eq_false, decide_False,
        List.filter_filter]
      congr 1
      apply List.filter_congr
      intro x _
      by_cases hx : x ∈ m.map Prod.fst
      · simp [hx]
      · have : x ≠ line.TaxID := fun e => hx (e ▸ hk)
        simp [hx, this]
    · simp only [hk, if_false, List.filter_cons, not_false_eq_true, decide_True, if_true,
        List.filter_filter, List.append_assoc, List.singleton_append]
      congr 2
      apply List.filter_congr
      intro x _
      simp only [List.mem_append, List.mem_singleton, not_or]
      by_cases hx : x ∈ m.map Prod.fst <;> by_cases hx' : x = line.TaxID <;> simp [hx, hx']

/-- The counterexample for C11: with the two tax ids `A` then `B` in the lines
and the map visited in the other order, the entry of `B` comes before the
entry of `A`. -/
theorem buildRowsAndTaxes_order_fails :
    IsIterationOrder List.reverse ∧
    (buildRowsAndTaxes List.reverse
      [{ Quantity := ⟨1, 0⟩, UnitPrice := ⟨1000, -2⟩, TaxID := lit "A" },
       { Quantity := ⟨1, 0⟩, UnitPrice := ⟨500, -2⟩, TaxID := lit "B" }]).2 =
      [{ TaxID := lit "B", Amount := ⟨500, -2⟩ }, { TaxID := lit "A", Amount := ⟨1000, -2⟩ }] :=
  ⟨fun m => List.reverse_perm m, by decide⟩

/-- C11, as amended. The tax-amount entries returned by `buildRowsAndTaxes`
come in the order in which the map is visited, which Go leaves open: for every
such order they are a rearrangement of the groups listed by first occurrence
of their `TaxID` in the lines, and they are in that very order when the map
happens to be visited in insertion order. -/
theorem buildRowsAndTaxes_order (iter : TaxMap → TaxMap) (hiter : IsIterationOrder iter)
    (lines : List CreateInvoiceLineInput) :
    (buildRowsAndTaxes iter lines).2.Perm (taxesByFirstOccurrence lines) ∧
    ((taxesByFirstOccurrence lines).map fun e => e.TaxID) =
      firstOccurrences (lines.map fun l => l.TaxID) ∧
    (buildRowsAndTaxes id lines).2 = taxesByFirstOccurrence lines := by
  refine ⟨?_, ?_, rfl⟩
  · exact (hiter (taxAmountsOf lines)).map _
  · have h := keys_foldl_taxStep lines []
    simp only [List.map_nil, List.nil_append, List.not_mem_nil, not_false_eq_true,
      decide_True, List.filter_true] at h
    rw [← h]
    simp [taxesByFirstOccurrence, taxAmountsOf, List.map_map, Function.comp_def]

theorem buildRowsAndTaxes_order_witness :
    IsIterationOrder List.reverse ∧
    (buildRowsAndTaxes List.reverse
      [{ Quantity := ⟨1, 0⟩, UnitPrice := ⟨1000, -2⟩, TaxID := lit "A" },
       { Quantity := ⟨1, 0⟩, UnitPrice := ⟨500, -2⟩, TaxID := lit "B" },
       { Quantity := ⟨2, 0⟩, UnitPrice := ⟨1000, -2⟩, TaxID := lit "A" }]).2.Perm
      (taxesByFirstOccurrence
        [{ Quantity := ⟨1, 0⟩, UnitPrice := ⟨1000, -2⟩, TaxID := lit "A" },
         { Quantity := ⟨1, 0⟩, UnitPrice := ⟨500, -2⟩, TaxID := lit "B" },
         { Quantity := ⟨2, 0⟩, UnitPrice := ⟨1000, -2⟩, TaxID := lit "A" }]) :=
  ⟨fun m => List.reverse_perm m,
    (buildRowsAndTaxes_order List.reverse (fun m => List.reverse_perm m) _).1⟩

/-! ## Claims about error classification and code mappings -/

/-- C12. Error classification by `wrapError`: for every operation name `op`
and every `APIError` with status `s`, `wrapError(op, e)` is a `ProviderError`
with provider `"merit"` and operation `op`, for which `IsAuthFailed` holds iff
`s` is 401 or 403, `IsNotFound` iff `s = 404`, and `IsRateLimit` iff `s = 429`;
for every other `s` none of the three holds and the error unwraps to the
original `APIError`.  `wrapError(op, nil)` is `nil`. -/
theorem wrapError_classifies (op : String) (s : Int) (msg : GoString) :
    (∃ inner, wrapError op (some (.apiError s msg)) = some (.providerError "merit" op inner)) ∧
    (IsAuthFailed (wrapError op (some (.apiError s msg))) = true ↔ (s = 401 ∨ s = 403)) ∧
    (IsNotFound (wrapError op (some (.apiError s msg))) = true ↔ s = 404) ∧
    (IsRateLimit (wrapError op (some (.apiError s msg))) = true ↔ s = 429) ∧
    (s ≠ 401 → s ≠ 403 → s ≠ 404 → s ≠ 429 →
      wrapError op (some (.apiError s msg)) =
        some (.providerError "merit" op (.apiError s msg)) ∧
      unwrap (.providerError "merit" op (.apiError s msg)) = some (.apiError s msg)) ∧
    wrapError op (some (.apiError 500 msg)) =
      some (.providerError "merit" op (.apiError 500 msg)) ∧
    wrapError op none = none := by
  have hw : wrapError op (some (.apiError s msg)) = some (.providerError "merit" op
      (if s = 401 ∨ s = 403 then .sentinel .ErrAuthFailed
        else if s = 404 then .sentinel .ErrNotFound
        else if s = 429 then .sentinel .ErrRateLimit
        else .apiError s msg)) := rfl
  refine ⟨⟨_, hw⟩, ?_, ?_, ?_, ?_, rfl, rfl⟩
  · rw [hw]
    by_cases h1 : s = 401 ∨ s = 403
    · simp [IsAuthFailed, errorsIs, h1]
    · have h1' := h1
      simp only [not_or] at h1'
      by_cases h2 : s = 404
      · simp [IsAuthFailed, errorsIs, h2]
      · by_cases h3 : s = 429
        · simp [IsAuthFailed, errorsIs, h3]
        · simp [IsAuthFailed, errorsIs, h1, h2, h3]
  · rw [hw]
    by_cases h1 : s = 401 ∨ s = 403
    · have : s ≠ 404 := by omega
      simp [IsNotFound, errorsIs, h1, this]
    · by_cases h2 : s = 404
      · simp [IsNotFound, errorsIs, h2]
      · by_cases h3 : s = 429
        · simp [IsNotFound, errorsIs, h3]
        · simp [IsNotFound, errorsIs, h1, h2, h3]
  · rw [hw]
    by_cases h1 : s = 401 ∨ s = 403
    · have : s ≠ 429 := by omega
      simp [IsRateLimit, errorsIs, h1, this]
    · by_cases h2 : s = 404
      · simp [IsRateLimit, errorsIs, h2]
      · by_cases h3 : s = 429
        · simp [IsRateLimit, errorsIs, h3]
        · simp [IsRateLimit, errorsIs, h1, h2, h3]
  · intro h1 h2 h3 h4
    rw [hw]
    have : ¬ (s = 401 ∨ s = 403) := by omega
    simp [this, h3, h4, unwrap]

theorem wrapError_classifies_witness :
    wrapError "GetInvoice" (some (.apiError 502 (lit "Bad Gateway"))) =
        some (.providerError "merit" "GetInvoice" (.apiError 502 (lit "Bad Gateway"))) ∧
    unwrap (.providerError "merit" "GetInvoice" (.apiError 502 (lit "Bad Gateway"))) =
      some (.apiError 502 (lit "Bad Gateway")) :=
  (wrapError_classifies "GetInvoice" 502 (lit "Bad Gateway")).2.2.2.2.1
    (by decide) (by decide) (by decide) (by decide)

/-- C18. The item type mapping is a bijection on the known values:
`mapMeritItemType(mapItemTypeToMerit(t)) = t` for `t` one of `stock`,
`service`, `item`, and `mapItemTypeToMerit(mapMeritItemType(c)) = c` for `c`
one of `1`, `2`, `3`. -/
theorem itemType_roundtrip :
    (∀ t : ItemType, t = ItemTypeStock ∨ t = ItemTypeService ∨ t = ItemTypeItem →
      mapMeritItemType (mapItemTypeToMerit t) = t) ∧
    (∀ c : Int, c = 1 ∨ c = 2 ∨ c = 3 → mapItemTypeToMerit (mapMeritItemType c) = c) ∧
    ItemTypeStock = lit "stock" ∧ ItemTypeService = lit "service" ∧
    ItemTypeItem = lit "item" := by
  refine ⟨?_, ?_, rfl, rfl, rfl⟩
  · rintro t (rfl | rfl | rfl) <;> decide
  · rintro c (rfl | rfl | rfl) <;> decide

theorem itemType_roundtrip_witness :
    mapMeritItemType (mapItemTypeToMerit (lit "service")) = lit "service" ∧
    mapItemTypeToMerit (mapMeritItemType 1) = 1 :=
  ⟨itemType_roundtrip.1 (lit "service") (Or.inr (Or.inl rfl)),
    itemType_roundtrip.2.1 1 (Or.inl rfl)⟩

/-- C19. The code mappings are total with a default: `mapMeritItemType(c)` is
`item` for every `c` outside `1, 2, 3`; `mapItemTypeToMerit` returns `3` for
every string other than `stock`, `service`, `item`, the empty string included;
`mapPaymentDirection(d)` is `customer` for every `d` outside `1, 2, 3, 4`,
while `1, 2, 3, 4` map to `customer`, `vendor`, `other_income`,
`other_expense`. -/
theorem mappings_default :
    (∀ c : Int, c ≠ 1 → c ≠ 2 → c ≠ 3 → mapMeritItemType c = lit "item") ∧
    (∀ t : ItemType, t ≠ lit "stock" → t ≠ lit "service" → t ≠ lit "item" →
      mapItemTypeToMerit t = 3) ∧
    mapItemTypeToMerit (lit "") = 3 ∧
    (∀ d : Int, d ≠ 1 → d ≠ 2 → d ≠ 3 → d ≠ 4 → mapPaymentDirection d = lit "customer") ∧
    mapPaymentDirection 1 = lit "customer" ∧ mapPaymentDirection 2 = lit "vendor" ∧
    mapPaymentDirection 3 = lit "other_income" ∧
    mapPaymentDirection 4 = lit "other_expense" := by
  refine ⟨?_, ?_, by decide, ?_, by decide, by decide, by decide, by decide⟩
  · intro c h1 h2 h3
    simp [mapMeritItemType, merit.ItemTypeStock, merit.ItemTypeService, merit.ItemTypeItem,
      h1, h2, h3, ItemTypeItem]
  · intro t h1 h2 h3
    simp [mapItemTypeToMerit, ItemTypeStock, ItemTypeService, ItemTypeItem, h1, h2, h3,
      merit.ItemTypeItem]
  · intro d h1 h2 h3 h4
    simp [mapPaymentDirection, merit.DirectionCustomers, merit.DirectionVendors,
      merit.DirectionOtherIncome, merit.DirectionOtherExpenses, h1, h2, h3, h4,
      PaymentDirectionCustomer]

theorem mappings_default_witness :
    mapMeritItemType 0 = lit "item" ∧ mapMeritItemType (-7) = lit "item" ∧
    mapItemTypeToMerit (lit "Stock") = 3 ∧ mapPaymentDirection 5 = lit "customer" :=
  ⟨mappings_default.1 0 (by decide) (by decide) (by decide),
    mappings_default.1 (-7) (by decide) (by decide) (by decide),
    mappings_default.2.1 (lit "Stock") (by decide) (by decide) (by decide),
    mappings_default.2.2.2.1 5 (by decide) (by decide) (by decide) (by decide)⟩

/-- C20. Transport status classification: for every received response with
status `s` and body `b`, `Client.post` returns the `APIError` with
`StatusCode = s` and `Message = b` if and only if `s < 200` or `s >= 300`; in
that case the body is not decoded into the result.  A 401 response with body
`Invalid API credentials` yields `APIError{401, "Invalid API credentials"}`. -/
theorem post_status_classification {R : Type} (reqBody : GoString) (s : Int) (b : GoString)
    (unmarshal : GoString → R → R × Option GoError) (result : Option R) :
    ((post (.ok reqBody) none (.ok ⟨s, .ok b⟩) unmarshal result).1 = some (.apiError s b) ↔
      (s < 200 ∨ s ≥ 300)) ∧
    ((∃ s' b', (post (.ok reqBody) none (.ok ⟨s, .ok b⟩) unmarshal result).1 =
        some (.apiError s' b')) ↔ (s < 200 ∨ s ≥ 300)) ∧
    ((s < 200 ∨ s ≥ 300) →
      (post (.ok reqBody) none (.ok ⟨s, .ok b⟩) unmarshal result).2 = result ∧
      ∀ unmarshal' : GoString → R → R × Option GoError,
        post (.ok reqBody) none (.ok ⟨s, .ok b⟩) unmarshal' result =
          post (.ok reqBody) none (.ok ⟨s, .ok b⟩) unmarshal result) ∧
    (post (.ok reqBody) none (.ok ⟨401, .ok (lit "Invalid API credentials")⟩) unmarshal
      result).1 = some (.apiError 401 (lit "Invalid API credentials")) := by
  have hbad : (s < 200 ∨ s ≥ 300) → ∀ u : GoString → R → R × Option GoError,
      post (.ok reqBody) none (.ok ⟨s, .ok b⟩) u result = (some (.apiError s b), result) := by
    intro h u
    simp [post, h]
  have hgood : ¬ (s < 200 ∨ s ≥ 300) → ∀ s' b',
      (post (.ok reqBody) none (.ok ⟨s, .ok b⟩) unmarshal result).1 ≠
        some (.apiError s' b') := by
    intro h s' b'
    simp only [post, h, if_false]
    cases result with
    | none => simp
    | some r =>
      by_cases hl : b.length > 0
      · simp only [hl, if_true]
        rcases hu : unmarshal b r with ⟨r', _ | err⟩ <;> simp
      · simp [hl]
  refine ⟨?_, ?_, ?_, ?_⟩
  · constructor
    · intro h
      by_contra hcon
      exact hgood hcon s b h
    · intro h
      rw [hbad h unmarshal]
  · constructor
    · rintro ⟨s', b', h⟩
      by_contra hcon
      exact hgood hcon s' b' h
    · intro h
      exact ⟨s, b, by rw [hbad h unmarshal]⟩
  · intro h
    refine ⟨by rw [hbad h unmarshal], fun u => ?_⟩
    rw [hbad h u, hbad h unmarshal]
  · simp [post]

theorem post_status_classification_witness :
    (post (.ok (lit "{}")) none (.ok ⟨503, .ok (lit "busy")⟩)
        (fun _ (r : Nat) => (r + 1, none)) (some 7)).2 = some 7 :=
  ((post_status_classification (lit "{}") 503 (lit "busy")
    (fun _ (r : Nat) => (r + 1, none)) (some 7)).2.2.1 (Or.inr (by decide))).1

/-! ## Claims about customers -/

/-- The counterexample for C13: when the only field present is `Email` and it
holds the empty string, the serialized request has no `Email` member. -/
theorem updateCustomer_only_email_fails :
    marshalUpdateCustomerRequest
        (updateCustomerRequest { ID := lit "c1", Email := some (lit "") }) =
      [("Id", .str (lit "c1")), ("OverdueCharge", .decimal Decimal.zero)] ∧
    "Email" ∉ (marshalUpdateCustomerRequest
        (updateCustomerRequest { ID := lit "c1", Email := some (lit "") })).map Prod.fst := by
  constructor
  · rfl
  · decide

/-- C13, as amended. For every `UpdateCustomerInput` in which only `Email` is
present, with a value other than the empty string, the serialized wire request
built by `UpdateCustomer` holds the `Id` and the `Email` with the input's
values and none of the other optional members with a string or pointer type
(nothing is said here about `OverdueCharge`). -/
theorem updateCustomer_only_email (id email : GoString) (hne : email ≠ [])
    (clientUpdateCustomer : UpdateCustomerRequest → Option GoError) :
    (marshalUpdateCustomerRequest
        (updateCustomerRequest { ID := id, Email := some email })).filter
        (fun kv => decide (kv.1 ≠ "OverdueCharge")) =
      [("Id", .str id), ("Email", .str email)] ∧
    UpdateCustomer clientUpdateCustomer { ID := id, Email := some email } =
      wrapError "UpdateCustomer"
        (clientUpdateCustomer { ID := id, Email := email }) := by
  constructor
  · simp [marshalUpdateCustomerRequest, updateCustomerRequest, omitEmptyString, omitNilInt,
      omitNilBool, hne]
  · rfl

theorem updateCustomer_only_email_witness :
    lit "a@b.ee" ≠ [] ∧
    (marshalUpdateCustomerRequest
        (updateCustomerRequest { ID := lit "c1", Email := some (lit "a@b.ee") })).filter
        (fun kv => decide (kv.1 ≠ "OverdueCharge")) =
      [("Id", .str (lit "c1")), ("Email", .str (lit "a@b.ee"))] :=
  ⟨by decide, (updateCustomer_only_email (lit "c1") (lit "a@b.ee") (by decide)
    (fun _ => none)).1⟩

/-- C16. `CustomerService.FindOrCreate(email, input)`, for every provider: if
`FindCustomerByEmail(email)` returns a customer, that customer is returned and
`CreateCustomer` is not called; if it fails with an error that is-a
`NotFound`, the result is exactly the result of `CreateCustomer(input)`; if it
fails with any other error, that error is returned with no customer and
`CreateCustomer` is not called. -/
theorem findOrCreate_spec {σ : Type} (p : CustomerProvider σ) (st : σ) (email : GoString)
    (input : CreateCustomerInput) :
    (∀ c st1, p.FindCustomerByEmail st email = ((some c, none), st1) →
      FindOrCreate p st email input =
        ((some c, none), st1, [.FindCustomerByEmail email])) ∧
    (∀ e st1, p.FindCustomerByEmail st email = ((none, some e), st1) →
      IsNotFound (some e) = true →
      FindOrCreate p st email input =
        ((p.CreateCustomer st1 input).1, (p.CreateCustomer st1 input).2,
          [.FindCustomerByEmail email, .CreateCustomer input])) ∧
    (∀ existing e st1, p.FindCustomerByEmail st email = ((existing, some e), st1) →
      IsNotFound (some e) = false →
      FindOrCreate p st email input =
        ((none, some e), st1, [.FindCustomerByEmail email])) := by
  refine ⟨?_, ?_, ?_⟩
  · intro c st1 h
    simp [FindOrCreate, h]
  · intro e st1 h hnf
    simp [FindOrCreate, h, hnf]
  · intro existing e st1 h hnf
    simp [FindOrCreate, h, hnf]

theorem findOrCreate_spec_witness :
    FindOrCreate
        ({ FindCustomerByEmail := fun n _ =>
            ((none, some (.providerError "merit" "FindCustomerByEmail"
              (.sentinel .ErrNotFound))), n + 1),
           CreateCustomer := fun n input => ((some { Name := input.Name }, none), n + 10) } :
          CustomerProvider Nat)
        0 (lit "a@b.ee") { Name := lit "A" } =
      ((some { Name := lit "A" }, none), 11,
        [.FindCustomerByEmail (lit "a@b.ee"), .CreateCustomer { Name := lit "A" }]) :=
  (findOrCreate_spec
    ({ FindCustomerByEmail := fun n _ =>
        ((none, some (.providerError "merit" "FindCustomerByEmail"
          (.sentinel .ErrNotFound))), n + 1),
       CreateCustomer := fun n input => ((some { Name := input.Name }, none), n + 10) } :
      CustomerProvider Nat)
    0 (lit "a@b.ee") { Name := lit "A" }).2.1 _ 1 rfl rfl

theorem findCustomerLoop_eq_find (ToLower : GoString → GoString) (email : GoString)
    (items : List CustomerListItem) :
    findCustomerLoop ToLower email items =
      (items.find? fun item => decide (ToLower (trimSpace item.Email) = email)).map
        mapCustomerListItem := by
  induction items with
  | nil => rfl
  | cons item rest ih =>
    by_cases h : ToLower (trimSpace item.Email) = email
    · simp [findCustomerLoop, List.find?, h]
    · simp [findCustomerLoop, List.find?, h, ih]

/-- C17. `meritProvider.FindCustomerByEmail`: when the listing succeeds with
the list `cs`, the result is the mapping of the first element of `cs` whose
`Email` equals the queried email after trimming the surrounding white space
and lower-casing both sides; if no element matches, it fails with a
`ProviderError` (provider `"merit"`, operation `"FindCustomerByEmail"`) that
is-a `NotFound`. -/
theorem findCustomerByEmail_spec (ToLower : GoString → GoString) (cs : List CustomerListItem)
    (email : GoString) :
    (∀ item, cs.find? (fun item => decide (ToLower (trimSpace item.Email) =
        ToLower (trimSpace email))) = some item →
      FindCustomerByEmail ToLower cs none email = (some (mapCustomerListItem item), none)) ∧
    (cs.find? (fun item => decide (ToLower (trimSpace item.Email) =
        ToLower (trimSpace email))) = none →
      FindCustomerByEmail ToLower cs none email =
        (none, some (.providerError "merit" "FindCustomerByEmail" (.sentinel .ErrNotFound))) ∧
      IsNotFound (FindCustomerByEmail ToLower cs none email).2 = true) ∧
    (∀ (pre : List CustomerListItem) (item : CustomerListItem) (post : List CustomerListItem),
      cs = pre ++ item :: post →
      (∀ x ∈ pre, ToLower (trimSpace x.Email) ≠ ToLower (trimSpace email)) →
      ToLower (trimSpace item.Email) = ToLower (trimSpace email) →
      FindCustomerByEmail ToLower cs none email = (some (mapCustomerListItem item), none)) ∧
    ((∀ x ∈ cs, ToLower (trimSpace x.Email) ≠ ToLower (trimSpace email)) →
      FindCustomerByEmail ToLower cs none email =
        (none, some (.providerError "merit" "FindCustomerByEmail"
          (.sentinel .ErrNotFound)))) := by
  have hfind : ∀ item, cs.find? (fun item => decide (ToLower (trimSpace item.Email) =
        ToLower (trimSpace email))) = some item →
      FindCustomerByEmail ToLower cs none email = (some (mapCustomerListItem item), none) := by
    intro item h
    simp [FindCustomerByEmail, findCustomerLoop_eq_find, h]
  have hnone : cs.find? (fun item => decide (ToLower (trimSpace item.Email) =
        ToLower (trimSpace email))) = none →
      FindCustomerByEmail ToLower cs none email =
        (none, some (.providerError "merit" "FindCustomerByEmail"
          (.sentinel .ErrNotFound))) := by
    intro h
    simp [FindCustomerByEmail, findCustomerLoop_eq_find, h]
  refine ⟨hfind, ?_, ?_, ?_⟩
  · intro h
    refine ⟨hnone h, ?_⟩
    rw [hnone h]
    rfl
  · intro pre item post hcs hpre hitem
    apply hfind
    rw [hcs, List.find?_append]
    have h1 : pre.find? (fun item => decide (ToLower (trimSpace item.Email) =
        ToLower (trimSpace email))) = none := by
      rw [List.find?_eq_none]
      intro x hx
      simpa using hpre x hx
    simp [h1, List.find?, hitem]
  · intro hall
    apply hnone
    rw [List.find?_eq_none]
    intro x hx
    simpa using hall x hx

theorem findCustomerByEmail_spec_witness :
    FindCustomerByEmail id
        [{ CustomerID := lit "1", Email := lit "x@y.ee" },
         { CustomerID := lit "2", Email := lit " a@b.ee " },
         { CustomerID := lit "3", Email := lit "a@b.ee" }] none (lit "a@b.ee\n") =
      (some (mapCustomerListItem { CustomerID := lit "2", Email := lit " a@b.ee " }), none) :=
  (findCustomerByEmail_spec id
    [{ CustomerID := lit "1", Email := lit "x@y.ee" },
     { CustomerID := lit "2", Email := lit " a@b.ee " },
     { CustomerID := lit "3", Email := lit "a@b.ee" }] (lit "a@b.ee\n")).2.2.1
    [{ CustomerID := lit "1", Email := lit "x@y.ee" }]
    { CustomerID := lit "2", Email := lit " a@b.ee " }
    [{ CustomerID := lit "3", Email := lit "a@b.ee" }] rfl (by decide) (by decide)

/-! ## Facts about the run of BatchCreate -/

theorem sum_map_set {α : Type} (φ : α → Nat) (l : List α) (g : Nat) (x y : α)
    (h : l[g]? = some x) : ((l.set g y).map φ).sum + φ x = (l.map φ).sum + φ y := by
  induction l generalizing g with
  | nil => simp at h
  | cons a l ih =>
    cases g with
    | zero =>
      simp only [List.getElem?_cons_zero, Option.some.injEq] at h
      subst h
      simp only [List.set_cons_zero, List.map_cons, List.sum_cons]
      omega
    | succ g =>
      simp only [List.getElem?_cons_succ] at h
      have := ih g h
      simp only [List.set_cons_succ, List.map_cons, List.sum_cons]
      omega

theorem getElem?_setPhase {Input : Type} (gs : List (Goroutine Input)) (g k : Nat)
    (gr : Goroutine Input) (p : Phase) (h : gs[g]? = some gr) :
    (setPhase gs g gr p)[k]? = if g = k then some { gr with phase := p } else gs[k]? := by
  unfold setPhase
  rw [List.getElem?_set]
  have hlt : g < gs.length := by
    by_contra hn
    rw [List.getElem?_eq_none (by omega)] at h
    exact absurd h (by simp)
  simp [hlt]

theorem step_spawn {Input Invoice : Type} {f : Input → Option Invoice × Option GoError}
    {inputs : List Input} {s s' : BatchState Input Invoice}
    (h : step f inputs s .spawn = some s') :
    ∃ input r, s.returned = false ∧ inputs[s.i]? = some input ∧ s.results[s.i]? = some r ∧
      s' = { s with
        i := s.i + 1,
        results := s.results.set s.i { r with Index := (s.i : Int) },
        wg := s.wg + 1,
        goroutines := s.goroutines ++ [{ idx := s.i, input := input, phase := .waiting }] } := by
  simp only [step] at h
  split at h
  · exact absurd h (by simp)
  · rename_i hret
    split at h
    · rename_i input r hi hr
      exact ⟨input, r, by simpa using hret, hi, hr, by simpa using h.symm⟩
    · exact absurd h (by simp)

theorem step_phase {Input Invoice : Type} {f : Input → Option Invoice × Option GoError}
    {inputs : List Input} {s s' : BatchState Input Invoice} {g : Nat} :
    (step f inputs s (.acquire g) = some s' →
      ∃ gr, s.goroutines[g]? = some gr ∧ gr.phase = .waiting ∧ s.sem < semCapacity ∧
        s' = { s with sem := s.sem + 1, goroutines := setPhase s.goroutines g gr .calling }) ∧
    (step f inputs s (.finish g) = some s' →
      ∃ gr r, s.goroutines[g]? = some gr ∧ s.results[gr.idx]? = some r ∧ gr.phase = .calling ∧
        s' = { s with
          results := s.results.set gr.idx
            { r with Invoice := (f gr.input).1, Err := (f gr.input).2 },
          goroutines := setPhase s.goroutines g gr .finished }) ∧
    (step f inputs s (.release g) = some s' →
      ∃ gr, s.goroutines[g]? = some gr ∧ gr.phase = .finished ∧ 0 < s.sem ∧
        s' = { s with sem := s.sem - 1, goroutines := setPhase s.goroutines g gr .released }) ∧
    (step f inputs s (.done g) = some s' →
      ∃ gr, s.goroutines[g]? = some gr ∧ gr.phase = .released ∧ 0 < s.wg ∧
        s' = { s with wg := s.wg - 1, goroutines := setPhase s.goroutines g gr .done }) := by
  refine ⟨?_, ?_, ?_, ?_⟩
  · intro h
    simp only [step] at h
    split at h
    · rename_i gr hg
      split at h
      · rename_i hc
        exact ⟨gr, hg, hc.1, hc.2, by simpa using h.symm⟩
      · exact absurd h (by simp)
    · exact absurd h (by simp)
  · intro h
    simp only [step] at h
    split at h
    · rename_i gr hg
      split at h
      · rename_i r hr
        split at h
        · rename_i hc
          exact ⟨gr, r, hg, hr, hc, by simpa using h.symm⟩
        · exact absurd h (by simp)
      · exact absurd h (by simp)
    · exact absurd h (by simp)
  · intro h
    simp only [step] at h
    split at h
    · rename_i gr hg
      split at h
      · rename_i hc
        exact ⟨gr, hg, hc.1, hc.2, by simpa using h.symm⟩
      · exact absurd h (by simp)
    · exact absurd h (by simp)
  · intro h
    simp only [step] at h
    split at h
    · rename_i gr hg
      split at h
      · rename_i hc
        exact ⟨gr, hg, hc.1, hc.2, by simpa using h.symm⟩
      · exact absurd h (by simp)
    · exact absurd h (by simp)

theorem step_ret {Input Invoice : Type} {f : Input → Option Invoice × Option GoError}
    {inputs : List Input} {s s' : BatchState Input Invoice}
    (h : step f inputs s .ret = some s') :
    s.returned = false ∧ s.i = inputs.length ∧ s.wg = 0 ∧ s' = { s with returned := true } := by
  simp only [step] at h
  split at h
  · rename_i hc
    exact ⟨hc.1, hc.2.1, hc.2.2, by simpa using h.symm⟩
  · exact absurd h (by simp)

theorem le_sum_map {α : Type} (φ : α → Nat) (l : List α) (g : Nat) (x : α)
    (h : l[g]? = some x) : φ x ≤ (l.map φ).sum := by
  have := sum_map_set φ l g x x h
  induction l generalizing g with
  | nil => simp at h
  | cons a l ih =>
    cases g with
    | zero =>
      simp only [List.getElem?_cons_zero, Option.some.injEq] at h
      subst h
      simp
    | succ g =>
      simp only [List.getElem?_cons_succ] at h
      have := ih g h (sum_map_set φ l g x x h)
      simp only [List.map_cons, List.sum_cons]
      omega

theorem args_setPhase {Input : Type} (inputs : List Input) (gs : List (Goroutine Input))
    (g : Nat) (gr : Goroutine Input) (p : Phase) (hg : gs[g]? = some gr)
    (hargs : ∀ (k : Nat) (x : Goroutine Input), gs[k]? = some x →
      x.idx = k ∧ inputs[k]? = some x.input) :
    ∀ (k : Nat) (x : Goroutine Input), (setPhase gs g gr p)[k]? = some x →
      x.idx = k ∧ inputs[k]? = some x.input := by
  intro k x hx
  rw [getElem?_setPhase gs g k gr p hg] at hx
  by_cases hgk : g = k
  · subst hgk
    simp only [if_true, Option.some.injEq] at hx
    subst hx
    exact hargs g gr hg
  · simp only [hgk, if_false] at hx
    exact hargs k x hx

/-- A change of phase that does not cross the end of the provider call leaves
every slot as it is. -/
theorem slotOf_setPhase {Input Invoice : Type} (f : Input → Option Invoice × Option GoError)
    (s s' : BatchState Input Invoice) (g : Nat) (gr : Goroutine Input) (p : Phase)
    (hg : s.goroutines[g]? = some gr) (hs' : s'.goroutines = setPhase s.goroutines g gr p)
    (hp : (gr.phase = .waiting ∨ gr.phase = .calling) ↔ (p = .waiting ∨ p = .calling))
    (k : Nat) : slotOf f s' k = slotOf f s k := by
  unfold slotOf
  rw [hs', getElem?_setPhase _ g k gr p hg]
  by_cases hgk : g = k
  · subst hgk
    simp only [if_true, hg]
    by_cases h1 : gr.phase = .waiting ∨ gr.phase = .calling
    · simp [h1, hp.mp h1]
    · have h2 : ¬ (p = .waiting ∨ p = .calling) := fun h => h1 (hp.mpr h)
      simp [h1, h2]
  · simp [hgk]

theorem sum_phase_setPhase {Input : Type} (φ : Phase → Nat) (gs : List (Goroutine Input))
    (g : Nat) (gr : Goroutine Input) (p : Phase) (hg : gs[g]? = some gr) :
    ((setPhase gs g gr p).map fun x => φ x.phase).sum + φ gr.phase =
      (gs.map fun x => φ x.phase).sum + φ p :=
  sum_map_set (fun x => φ x.phase) gs g gr { gr with phase := p } hg

theorem pending_pos {Input Invoice : Type} (s : BatchState Input Invoice) (g : Nat)
    (gr : Goroutine Input) (hg : s.goroutines[g]? = some gr) (hne : gr.phase ≠ .done) :
    0 < pending s := by
  have hle : notDone gr.phase ≤ (s.goroutines.map fun x => notDone x.phase).sum :=
    le_sum_map (fun x : Goroutine Input => notDone x.phase) s.goroutines g gr hg
  have h1 : notDone gr.phase = 1 := by
    cases hp : gr.phase <;> first | rfl | exact absurd hp hne
  unfold pending
  omega

theorem batchInit_inv {Input Invoice : Type} (f : Input → Option Invoice × Option GoError)
    (inputs : List Input) : BatchInv f inputs (batchInit inputs : BatchState Input Invoice) where
  i_le := Nat.zero_le _
  len_goroutines := rfl
  len_results := by simp [batchInit]
  args := by intro g gr h; simp [batchInit] at h
  sem_eq := rfl
  sem_le := Nat.zero_le _
  wg_eq := rfl
  slots := by
    intro k r h
    simp only [batchInit, List.getElem?_replicate] at h
    split_ifs at h
    simp only [Option.some.injEq] at h
    subst h
    simp [slotOf, batchInit]
  ret_done := by intro h; simp [batchInit] at h

/-- The invariant is kept by a step that only moves a goroutine to another
phase and adjusts the channel and the wait group accordingly. -/
theorem phase_step_inv {Input Invoice : Type} {f : Input → Option Invoice × Option GoError}
    {inputs : List Input} {s : BatchState Input Invoice} {g : Nat} {gr : Goroutine Input}
    (hinv : BatchInv f inputs s) (hg : s.goroutines[g]? = some gr) (p : Phase)
    (sem' wg' : Nat) (hne : gr.phase ≠ .done)
    (hsem : sem' + holdsPlace gr.phase = s.sem + holdsPlace p) (hle : sem' ≤ semCapacity)
    (hwg : wg' + notDone gr.phase = s.wg + notDone p)
    (hp : (gr.phase = .waiting ∨ gr.phase = .calling) ↔ (p = .waiting ∨ p = .calling)) :
    BatchInv f inputs
      { s with sem := sem', wg := wg', goroutines := setPhase s.goroutines g gr p } := by
  have hH := sum_phase_setPhase holdsPlace s.goroutines g gr p hg
  have hP := sum_phase_setPhase notDone s.goroutines g gr p hg
  refine ⟨hinv.i_le, ?_, hinv.len_results, ?_, ?_, hle, ?_, ?_, ?_⟩
  · simp [setPhase, hinv.len_goroutines]
  · exact args_setPhase inputs _ g gr _ hg hinv.args
  · have := hinv.sem_eq
    simp only [holders] at this ⊢
    omega
  · have := hinv.wg_eq
    simp only [pending] at this ⊢
    omega
  · intro k r hr
    rw [slotOf_setPhase f s _ g gr p hg rfl hp k]
    exact hinv.slots k r hr
  · intro hret
    have := hinv.ret_done hret
    have hpos := pending_pos s g gr hg hne
    omega

theorem acquire_inv {Input Invoice : Type} {f : Input → Option Invoice × Option GoError}
    {inputs : List Input} {s s' : BatchState Input Invoice} {g : Nat}
    (hinv : BatchInv f inputs s) (h : step f inputs s (.acquire g) = some s') :
    BatchInv f inputs s' := by
  obtain ⟨gr, hg, hph, hsem, rfl⟩ := step_phase.1 h
  have := phase_step_inv hinv hg .calling (s.sem + 1) s.wg (by simp [hph])
    (by simp [hph, holdsPlace]) (by simp only [semCapacity] at hsem ⊢; omega)
    (by simp [hph, notDone]) (by simp [hph])
  exact this

theorem release_inv {Input Invoice : Type} {f : Input → Option Invoice × Option GoError}
    {inputs : List Input} {s s' : BatchState Input Invoice} {g : Nat}
    (hinv : BatchInv f inputs s) (h : step f inputs s (.release g) = some s') :
    BatchInv f inputs s' := by
  obtain ⟨gr, hg, hph, hsem, rfl⟩ := step_phase.2.2.1 h
  have hle := hinv.sem_le
  have := phase_step_inv hinv hg .released (s.sem - 1) s.wg (by simp [hph])
    (by simp only [hph, holdsPlace]; omega) (by omega)
    (by simp [hph, notDone]) (by simp [hph])
  exact this

theorem done_inv {Input Invoice : Type} {f : Input → Option Invoice × Option GoError}
    {inputs : List Input} {s s' : BatchState Input Invoice} {g : Nat}
    (hinv : BatchInv f inputs s) (h : step f inputs s (.done g) = some s') :
    BatchInv f inputs s' := by
  obtain ⟨gr, hg, hph, hwg, rfl⟩ := step_phase.2.2.2 h
  have := phase_step_inv hinv hg .done s.sem (s.wg - 1) (by simp [hph])
    (by simp [hph, holdsPlace]) hinv.sem_le
    (by simp only [hph, notDone]; omega) (by simp [hph])
  exact this

theorem finish_inv {Input Invoice : Type} {f : Input → Option Invoice × Option GoError}
    {inputs : List Input} {s s' : BatchState Input Invoice} {g : Nat}
    (hinv : BatchInv f inputs s) (h : step f inputs s (.finish g) = some s') :
    BatchInv f inputs s' := by
  obtain ⟨gr, r, hg, hr, hph, rfl⟩ := step_phase.2.1 h
  have hidx : gr.idx = g := (hinv.args g gr hg).1
  have hH := sum_phase_setPhase holdsPlace s.goroutines g gr .finished hg
  have hP := sum_phase_setPhase notDone s.goroutines g gr .finished hg
  rw [hph] at hH hP
  have e1 : holdsPlace .calling = 1 := rfl
  have e2 : holdsPlace .finished = 1 := rfl
  have e3 : notDone .calling = 1 := rfl
  have e4 : notDone .finished = 1 := rfl
  have hrslot : r = { Index := (g : Int) } := by
    have := hinv.slots gr.idx r hr
    rw [hidx] at this
    rw [this]
    simp [slotOf, hg, hph]
  refine ⟨hinv.i_le, ?_, ?_, ?_, ?_, hinv.sem_le, ?_, ?_, ?_⟩
  · simp [setPhase, hinv.len_goroutines]
  · simp [hinv.len_results]
  · exact args_setPhase inputs _ g gr _ hg hinv.args
  · have := hinv.sem_eq
    simp only [holders] at this ⊢
    omega
  · have := hinv.wg_eq
    simp only [pending] at this ⊢
    omega
  · intro k x hx
    simp only [hidx, List.getElem?_set] at hx
    unfold slotOf
    simp only [getElem?_setPhase _ g k gr .finished hg]
    by_cases hgk : g = k
    · subst hgk
      simp only [if_true] at hx ⊢
      split_ifs at hx
      simp only [Option.some.injEq] at hx
      subst hx
      rw [hrslot]
      simp
    · simp only [hgk, if_false] at hx ⊢
      exact hinv.slots k x hx
  · intro hret
    have := hinv.ret_done hret
    have hpos := pending_pos s g gr hg (by simp [hph])
    omega

theorem spawn_inv {Input Invoice : Type} {f : Input → Option Invoice × Option GoError}
    {inputs : List Input} {s s' : BatchState Input Invoice}
    (hinv : BatchInv f inputs s) (h : step f inputs s .spawn = some s') :
    BatchInv f inputs s' := by
  obtain ⟨input, r, hret, hin, hr, rfl⟩ := step_spawn h
  have hlt : s.i < inputs.length := by
    by_contra hn
    rw [List.getElem?_eq_none (by omega)] at hin
    exact absurd hin (by simp)
  have hnone : s.goroutines[s.i]? = none :=
    List.getElem?_eq_none (by rw [hinv.len_goroutines])
  have hrslot : r = {} := by
    have := hinv.slots s.i r hr
    rw [this]
    simp [slotOf, hnone]
  refine ⟨?_, ?_, ?_, ?_, ?_, hinv.sem_le, ?_, ?_, ?_⟩
  · exact hlt
  · simp [hinv.len_goroutines]
  · simp [hinv.len_results]
  · intro k x hx
    simp only [List.getElem?_append, hinv.len_goroutines] at hx
    by_cases hk : k < s.i
    · simp only [hk, if_true] at hx
      exact hinv.args k x hx
    · simp only [hk, if_false] at hx
      by_cases hk' : k = s.i
      · subst hk'
        simp only [Nat.sub_self, List.getElem?_cons_zero, Option.some.injEq] at hx
        subst hx
        exact ⟨rfl, hin⟩
      · have : k - s.i = (k - s.i - 1) + 1 := by omega
        rw [this] at hx
        simp at hx
  · have := hinv.sem_eq
    simp only [holders, List.map_append, List.sum_append, List.map_cons, List.map_nil,
      List.sum_cons, List.sum_nil, holdsPlace] at this ⊢
    omega
  · have := hinv.wg_eq
    simp only [pending, List.map_append, List.sum_append, List.map_cons, List.map_nil,
      List.sum_cons, List.sum_nil, notDone] at this ⊢
    omega
  · intro k x hx
    simp only [List.getElem?_set] at hx
    unfold slotOf
    simp only [List.getElem?_append, hinv.len_goroutines]
    by_cases hk' : s.i = k
    · subst hk'
      simp only [if_true] at hx
      split_ifs at hx
      simp only [Option.some.injEq] at hx
      subst hx
      rw [hrslot]
      simp
    · simp only [hk', if_false] at hx
      have hx' := hinv.slots k x hx
      rw [hx']
      unfold slotOf
      by_cases hk : k < s.i
      · simp [hk]
      · have hn : s.goroutines[k]? = none :=
          List.getElem?_eq_none (by rw [hinv.len_goroutines]; omega)
        have : k - s.i = (k - s.i - 1) + 1 := by omega
        simp only [hk, if_false, hn]
        rw [this]
        simp
  · intro hr'
    simp [hret] at hr'

theorem ret_inv {Input Invoice : Type} {f : Input → Option Invoice × Option GoError}
    {inputs : List Input} {s s' : BatchState Input Invoice}
    (hinv : BatchInv f inputs s) (h : step f inputs s .ret = some s') :
    BatchInv f inputs s' := by
  obtain ⟨_, hi, hwg, rfl⟩ := step_ret h
  refine ⟨hinv.i_le, hinv.len_goroutines, hinv.len_results, hinv.args, hinv.sem_eq,
    hinv.sem_le, hinv.wg_eq, hinv.slots, ?_⟩
  intro _
  have := hinv.wg_eq
  exact ⟨hi, by simp only [pending] at this ⊢; omega⟩

/-- Every step keeps the invariant. -/
theorem step_inv {Input Invoice : Type} {f : Input → Option Invoice × Option GoError}
    {inputs : List Input} {s s' : BatchState Input Invoice} (a : Action)
    (hinv : BatchInv f inputs s) (h : step f inputs s a = some s') :
    BatchInv f inputs s' := by
  cases a with
  | spawn => exact spawn_inv hinv h
  | acquire g => exact acquire_inv hinv h
  | finish g => exact finish_inv hinv h
  | release g => exact release_inv hinv h
  | done g => exact done_inv hinv h
  | ret => exact ret_inv hinv h

/-- The invariant holds in every state that a schedule reaches. -/
theorem exec_inv {Input Invoice : Type} {f : Input → Option Invoice × Option GoError}
    {inputs : List Input} (schedule : List Action) (s s' : BatchState Input Invoice)
    (hinv : BatchInv f inputs s) (h : exec f inputs schedule s = some s') :
    BatchInv f inputs s' := by
  induction schedule generalizing s with
  | nil =>
    simp only [exec, Option.some.injEq] at h
    subst h
    exact hinv
  | cons a rest ih =>
    simp only [exec] at h
    split at h
    · rename_i s1 hs1
      exact ih s1 (step_inv a hinv hs1) h
    · exact absurd h (by simp)

/-- Every step brings the run one step closer to its end. -/
theorem step_measure {Input Invoice : Type} {f : Input → Option Invoice × Option GoError}
    {inputs : List Input} {s s' : BatchState Input Invoice} (a : Action)
    (h : step f inputs s a = some s') :
    runMeasure inputs s' + 1 = runMeasure inputs s := by
  cases a with
  | spawn =>
    obtain ⟨input, r, hret, hin, hr, rfl⟩ := step_spawn h
    have hlt : s.i < inputs.length := by
      by_contra hn
      rw [List.getElem?_eq_none (by omega)] at hin
      exact absurd hin (by simp)
    simp only [runMeasure, hret, List.map_append, List.sum_append, List.map_cons, List.map_nil,
      List.sum_cons, List.sum_nil, stepsLeft]
    simp
    omega
  | acquire g =>
    obtain ⟨gr, hg, hph, _, rfl⟩ := step_phase.1 h
    have hS := sum_phase_setPhase stepsLeft s.goroutines g gr .calling hg
    rw [hph] at hS
    have e1 : stepsLeft .waiting = 4 := rfl
    have e2 : stepsLeft .calling = 3 := rfl
    simp only [runMeasure]
    omega
  | finish g =>
    obtain ⟨gr, r, hg, _, hph, rfl⟩ := step_phase.2.1 h
    have hS := sum_phase_setPhase stepsLeft s.goroutines g gr .finished hg
    rw [hph] at hS
    have e1 : stepsLeft .calling = 3 := rfl
    have e2 : stepsLeft .finished = 2 := rfl
    simp only [runMeasure]
    omega
  | release g =>
    obtain ⟨gr, hg, hph, _, rfl⟩ := step_phase.2.2.1 h
    have hS := sum_phase_setPhase stepsLeft s.goroutines g gr .released hg
    rw [hph] at hS
    have e1 : stepsLeft .finished = 2 := rfl
    have e2 : stepsLeft .released = 1 := rfl
    simp only [runMeasure]
    omega
  | done g =>
    obtain ⟨gr, hg, hph, _, rfl⟩ := step_phase.2.2.2 h
    have hS := sum_phase_setPhase stepsLeft s.goroutines g gr .done hg
    rw [hph] at hS
    have e1 : stepsLeft .released = 1 := rfl
    have e2 : stepsLeft .done = 0 := rfl
    simp only [runMeasure]
    omega
  | ret =>
    obtain ⟨hret, _, _, rfl⟩ := step_ret h
    simp only [runMeasure, hret]
    simp
    omega

theorem exists_of_sum_pos {α : Type} (φ : α → Nat) (l : List α) (h : 0 < (l.map φ).sum) :
    ∃ (g : Nat) (x : α), l[g]? = some x ∧ 0 < φ x := by
  induction l with
  | nil => simp at h
  | cons a l ih =>
    by_cases ha : 0 < φ a
    · exact ⟨0, a, by simp, ha⟩
    · have : 0 < (l.map φ).sum := by
        simp only [List.map_cons, List.sum_cons] at h
        omega
      obtain ⟨g, x, hg, hx⟩ := ih this
      exact ⟨g + 1, x, by simpa using hg, hx⟩

theorem can_finish {Input Invoice : Type} {f : Input → Option Invoice × Option GoError}
    {inputs : List Input} {s : BatchState Input Invoice} {g : Nat} {gr : Goroutine Input}
    (hinv : BatchInv f inputs s) (hg : s.goroutines[g]? = some gr) (hph : gr.phase = .calling) :
    ∃ s', step f inputs s (.finish g) = some s' := by
  have hidx := (hinv.args g gr hg).1
  have hlt : g < s.goroutines.length := by
    by_contra hn
    rw [List.getElem?_eq_none (by omega)] at hg
    exact absurd hg (by simp)
  have hres : gr.idx < s.results.length := by
    rw [hidx, hinv.len_results]
    have := hinv.i_le
    have := hinv.len_goroutines
    omega
  obtain ⟨r, hr⟩ : ∃ r, s.results[gr.idx]? = some r :=
    ⟨s.results[gr.idx], List.getElem?_eq_getElem hres⟩
  cases h : step f inputs s (.finish g) with
  | some s' => exact ⟨s', rfl⟩
  | none => simp [step, hg, hr, hph] at h

theorem can_release {Input Invoice : Type} {f : Input → Option Invoice × Option GoError}
    {inputs : List Input} {s : BatchState Input Invoice} {g : Nat} {gr : Goroutine Input}
    (hinv : BatchInv f inputs s) (hg : s.goroutines[g]? = some gr)
    (hph : gr.phase = .finished) :
    ∃ s', step f inputs s (.release g) = some s' := by
  have hle : holdsPlace gr.phase ≤ (s.goroutines.map fun x => holdsPlace x.phase).sum :=
    le_sum_map (fun x : Goroutine Input => holdsPlace x.phase) s.goroutines g gr hg
  rw [hph] at hle
  have e1 : holdsPlace .finished = 1 := rfl
  have hsem : 0 < s.sem := by
    have := hinv.sem_eq
    simp only [holders] at this
    omega
  cases h : step f inputs s (.release g) with
  | some s' => exact ⟨s', rfl⟩
  | none => simp [step, hg, hph, hsem] at h

/-- A run that has not returned can take a step: it never gets stuck. -/
theorem progress {Input Invoice : Type} {f : Input → Option Invoice × Option GoError}
    {inputs : List Input} {s : BatchState Input Invoice} (hinv : BatchInv f inputs s)
    (hret : s.returned = false) : ∃ a s', step f inputs s a = some s' := by
  by_cases hi : s.i < inputs.length
  · have hres : s.i < s.results.length := by rw [hinv.len_results]; exact hi
    cases h : step f inputs s .spawn with
    | some s' => exact ⟨_, s', h⟩
    | none =>
      simp [step, hret, List.getElem?_eq_getElem hi, List.getElem?_eq_getElem hres] at h
  · have hi' : s.i = inputs.length := by have := hinv.i_le; omega
    by_cases hp : pending s = 0
    · have hwg : s.wg = 0 := by rw [hinv.wg_eq]; exact hp
      cases h : step f inputs s .ret with
      | some s' => exact ⟨_, s', h⟩
      | none => simp [step, hret, hi', hwg] at h
    · obtain ⟨g, gr, hg, hpos⟩ := exists_of_sum_pos
        (fun x : Goroutine Input => notDone x.phase) s.goroutines (by
          simp only [pending] at hp; omega)
      cases hph : gr.phase with
      | waiting =>
        by_cases hsem : s.sem < semCapacity
        · cases h : step f inputs s (.acquire g) with
          | some s' => exact ⟨_, s', h⟩
          | none => simp [step, hg, hph, hsem] at h
        · have hh : 0 < holders s := by
            rw [← hinv.sem_eq]
            simp only [semCapacity] at hsem
            omega
          obtain ⟨g', gr', hg', hpos'⟩ := exists_of_sum_pos
            (fun x : Goroutine Input => holdsPlace x.phase) s.goroutines hh
          cases hph' : gr'.phase with
          | calling =>
            obtain ⟨s', hs'⟩ := can_finish hinv hg' hph'
            exact ⟨_, s', hs'⟩
          | finished =>
            obtain ⟨s', hs'⟩ := can_release hinv hg' hph'
            exact ⟨_, s', hs'⟩
          | waiting => simp [hph', holdsPlace] at hpos'
          | released => simp [hph', holdsPlace] at hpos'
          | done => simp [hph', holdsPlace] at hpos'
      | calling =>
        obtain ⟨s', hs'⟩ := can_finish hinv hg hph
        exact ⟨_, s', hs'⟩
      | finished =>
        obtain ⟨s', hs'⟩ := can_release hinv hg hph
        exact ⟨_, s', hs'⟩
      | released =>
        have hwg : 0 < s.wg := by
          rw [hinv.wg_eq]
          omega
        cases h : step f inputs s (.done g) with
        | some s' => exact ⟨_, s', h⟩
        | none => simp [step, hg, hph, hwg] at h
      | done => simp [hph, notDone] at hpos

/-- From every state of a run some schedule leads to the `return`. -/
theorem exists_schedule {Input Invoice : Type} {f : Input → Option Invoice × Option GoError}
    {inputs : List Input} (n : Nat) (s : BatchState Input Invoice)
    (hinv : BatchInv f inputs s) (hn : runMeasure inputs s = n) :
    ∃ schedule s', exec f inputs schedule s = some s' ∧ s'.returned = true := by
  induction n generalizing s with
  | zero =>
    cases hret : s.returned with
    | true => exact ⟨[], s, rfl, hret⟩
    | false => simp [runMeasure, hret] at hn
  | succ n ih =>
    cases hret : s.returned with
    | true => exact ⟨[], s, rfl, hret⟩
    | false =>
      obtain ⟨a, s1, hs1⟩ := progress hinv hret
      have hm := step_measure a hs1
      obtain ⟨schedule, s', hex, hr⟩ := ih s1 (step_inv a hinv hs1) (by omega)
      exact ⟨a :: schedule, s', by simp only [exec, hs1, hex], hr⟩

theorem notDone_eq_zero (p : Phase) (h : notDone p = 0) : p = .done := by
  cases p <;> first | rfl | exact absurd h (by decide)

/-- When the run has returned, the slice holds what the specification
says. -/
theorem results_at_return {Input Invoice : Type} {f : Input → Option Invoice × Option GoError}
    {inputs : List Input} {s : BatchState Input Invoice} (hinv : BatchInv f inputs s)
    (hret : s.returned = true) : s.results = batchSpec f inputs := by
  obtain ⟨hi, hp⟩ := hinv.ret_done hret
  apply List.ext_getElem?
  intro k
  simp only [batchSpec, List.getElem?_map, List.getElem?_enum, Option.map_map]
  by_cases hk : k < inputs.length
  · have hkr : k < s.results.length := by rw [hinv.len_results]; exact hk
    have hkg : k < s.goroutines.length := by rw [hinv.len_goroutines, hi]; exact hk
    have hg : s.goroutines[k]? = some s.goroutines[k] := List.getElem?_eq_getElem hkg
    have hslot := hinv.slots k s.results[k] (List.getElem?_eq_getElem hkr)
    obtain ⟨_, hin⟩ := hinv.args k _ hg
    have hle : notDone s.goroutines[k].phase ≤
        (s.goroutines.map fun x => notDone x.phase).sum :=
      le_sum_map (fun x : Goroutine Input => notDone x.phase) s.goroutines k _ hg
    have hdone : s.goroutines[k].phase = .done :=
      notDone_eq_zero _ (by simp only [pending] at hp; omega)
    rw [List.getElem?_eq_getElem hkr, hslot, hin]
    simp [slotOf, hg, hdone]
  · rw [List.getElem?_eq_none (by rw [hinv.len_results]; omega),
      List.getElem?_eq_none (by omega)]
    rfl

theorem sum_map_le {α : Type} (φ ψ : α → Nat) (l : List α) (h : ∀ x, φ x ≤ ψ x) :
    (l.map φ).sum ≤ (l.map ψ).sum := by
  induction l with
  | nil => simp
  | cons a l ih =>
    have := h a
    simp only [List.map_cons, List.sum_cons]
    omega

theorem inFlight_le_holders {Input Invoice : Type} (s : BatchState Input Invoice) :
    inFlight s ≤ holders s := by
  apply sum_map_le
  intro x
  cases x.phase <;> decide

theorem batchSpec_getElem? {Input Invoice : Type} (f : Input → Option Invoice × Option GoError)
    (inputs : List Input) (i : Nat) :
    (batchSpec f inputs)[i]? =
      inputs[i]?.map fun x => { Invoice := (f x).1, Err := (f x).2, Index := (i : Int) } := by
  simp [batchSpec, List.getElem?_enum, Option.map_map, Function.comp_def]

/-! ## Claims about batch creation -/

/-- C14. Batch ordering: for every provider whose `CreateInvoice` behaves as a
function `f` of its input and every list `inputs`, every run of
`InvoiceService.BatchCreate`, whatever the schedule of its goroutines, returns
the list of the length of `inputs` that holds at each index `i` the index `i`
and the invoice and error that `f` gives for `inputs[i]`; the entry at an
index depends on nothing but the input at that index; for the empty list the
result is empty.  A run never gets stuck before its `return` and takes exactly
`runMeasure` steps, so `BatchCreate` returns. -/
theorem batchCreate_spec {Input Invoice : Type} (f : Input → Option Invoice × Option GoError)
    (inputs : List Input) :
    (∀ (schedule : List Action) (r : List (BatchResult Invoice)),
      BatchCreate f inputs schedule = some r → r = batchSpec f inputs) ∧
    (∃ schedule : List Action, BatchCreate f inputs schedule = some (batchSpec f inputs)) ∧
    (∀ (schedule : List Action) (s : BatchState Input Invoice),
      exec f inputs schedule (batchInit inputs) = some s →
      (s.returned = false → ∃ a s', step f inputs s a = some s') ∧
      (∀ a s', step f inputs s a = some s' →
        runMeasure inputs s' + 1 = runMeasure inputs s)) ∧
    (batchSpec f inputs).length = inputs.length ∧
    (∀ i : Nat, (batchSpec f inputs)[i]? =
      inputs[i]?.map fun x => { Invoice := (f x).1, Err := (f x).2, Index := (i : Int) }) ∧
    (∀ (f' : Input → Option Invoice × Option GoError) (inputs' : List Input) (i : Nat),
      inputs'[i]? = inputs[i]? → (∀ x, inputs[i]? = some x → f' x = f x) →
      (batchSpec f' inputs')[i]? = (batchSpec f inputs)[i]?) ∧
    batchSpec f ([] : List Input) = [] := by
  refine ⟨?_, ?_, ?_, by simp [batchSpec], batchSpec_getElem? f inputs, ?_, rfl⟩
  · intro schedule r h
    unfold BatchCreate at h
    split at h
    · rename_i s hs
      have hinv := exec_inv schedule _ s (batchInit_inv f inputs) hs
      split at h
      · rename_i hret
        simp only [Option.some.injEq] at h
        rw [← h]
        exact results_at_return hinv hret
      · exact absurd h (by simp)
    · exact absurd h (by simp)
  · obtain ⟨schedule, s', hex, hret⟩ :=
      exists_schedule _ (batchInit inputs) (batchInit_inv f inputs) rfl
    have hinv := exec_inv schedule _ s' (batchInit_inv f inputs) hex
    exact ⟨schedule, by simp [BatchCreate, hex, hret, results_at_return hinv hret]⟩
  · intro schedule s hs
    have hinv := exec_inv schedule _ s (batchInit_inv f inputs) hs
    exact ⟨fun hret => progress hinv hret, fun a s' h => step_measure a h⟩
  · intro f' inputs' i hi hf
    rw [batchSpec_getElem?, batchSpec_getElem?, hi]
    cases hx : inputs[i]? with
    | none => rfl
    | some x => simp [hf x hx]

theorem batchCreate_spec_witness :
    BatchCreate (fun n : Nat => if n = 8 then (none, some (.sentinel .ErrRateLimit))
        else (some (n + 100), none)) [7, 8, 9]
      [.spawn, .acquire 0, .spawn, .spawn, .acquire 2, .finish 2, .acquire 1, .finish 0,
        .release 2, .finish 1, .release 0, .done 0, .release 1, .done 2, .done 1, .ret] =
      some [⟨some 107, none, 0⟩, ⟨none, some (.sentinel .ErrRateLimit), 1⟩,
        ⟨some 109, none, 2⟩] ∧
    [⟨some 107, none, 0⟩, ⟨none, some (.sentinel .ErrRateLimit), 1⟩, ⟨some 109, none, 2⟩] =
      batchSpec (fun n : Nat => if n = 8 then (none, some (.sentinel .ErrRateLimit))
        else (some (n + 100), none)) [7, 8, 9] :=
  ⟨rfl, (batchCreate_spec (fun n : Nat => if n = 8 then (none, some (.sentinel .ErrRateLimit))
      else (some (n + 100), none)) [7, 8, 9]).1
    [.spawn, .acquire 0, .spawn, .spawn, .acquire 2, .finish 2, .acquire 1, .finish 0,
      .release 2, .finish 1, .release 0, .done 0, .release 1, .done 2, .done 1, .ret] _ rfl⟩

/-- C15. Bounded concurrency: in every state of every run of
`InvoiceService.BatchCreate`, for any number of inputs, at most 5 provider
calls are in flight; while 5 calls are in flight no further goroutine is
admitted, and a goroutine is admitted only while fewer than 5 hold a place. -/
theorem batchCreate_bounded {Input Invoice : Type}
    (f : Input → Option Invoice × Option GoError) (inputs : List Input)
    (schedule : List Action) (s : BatchState Input Invoice)
    (h : exec f inputs schedule (batchInit inputs) = some s) :
    inFlight s ≤ 5 ∧ holders s ≤ 5 ∧ s.sem = holders s ∧
    (inFlight s = 5 → ∀ g, step f inputs s (.acquire g) = none) ∧
    (∀ g s', step f inputs s (.acquire g) = some s' → inFlight s < 5 ∧ holders s < 5) := by
  have hinv := exec_inv schedule _ s (batchInit_inv f inputs) h
  have hle := inFlight_le_holders s
  have hsem := hinv.sem_eq
  have hcap := hinv.sem_le
  simp only [semCapacity] at hcap
  refine ⟨by omega, by omega, hsem, ?_, ?_⟩
  · intro h5 g
    cases hs : step f inputs s (.acquire g) with
    | none => rfl
    | some s' =>
      obtain ⟨_, _, _, hlt, _⟩ := step_phase.1 hs
      simp only [semCapacity] at hlt
      omega
  · intro g s' hs
    obtain ⟨_, _, _, hlt, _⟩ := step_phase.1 hs
    simp only [semCapacity] at hlt
    omega

theorem batchCreate_bounded_witness :
    exec (fun n : Nat => (some n, none)) [1, 2, 3, 4, 5, 6]
        [.spawn, .spawn, .spawn, .spawn, .spawn, .spawn, .acquire 5, .acquire 3, .acquire 0,
          .acquire 1, .acquire 4]
        (batchInit [1, 2, 3, 4, 5, 6]) =
      some { i := 6,
             results := [⟨none, none, 0⟩, ⟨none, none, 1⟩, ⟨none, none, 2⟩, ⟨none, none, 3⟩,
               ⟨none, none, 4⟩, ⟨none, none, 5⟩],
             sem := 5, wg := 6,
             goroutines := [⟨0, 1, .calling⟩, ⟨1, 2, .calling⟩, ⟨2, 3, .waiting⟩,
               ⟨3, 4, .calling⟩, ⟨4, 5, .calling⟩, ⟨5, 6, .calling⟩],
             returned := false } ∧
    @step Nat Nat (fun n : Nat => (some n, none)) [1, 2, 3, 4, 5, 6]
      { i := 6,
        results := [⟨none, none, 0⟩, ⟨none, none, 1⟩, ⟨none, none, 2⟩, ⟨none, none, 3⟩,
          ⟨none, none, 4⟩, ⟨none, none, 5⟩],
        sem := 5, wg := 6,
        goroutines := [⟨0, 1, .calling⟩, ⟨1, 2, .calling⟩, ⟨2, 3, .waiting⟩,
          ⟨3, 4, .calling⟩, ⟨4, 5, .calling⟩, ⟨5, 6, .calling⟩],
        returned := false } (.acquire 2) = none :=
  ⟨rfl, (batchCreate_bounded (fun n : Nat => (some n, none)) [1, 2, 3, 4, 5, 6]
    [.spawn, .spawn, .spawn, .spawn, .spawn, .spawn, .acquire 5, .acquire 3, .acquire 0,
      .acquire 1, .acquire 4] _ rfl).2.2.2.1 rfl 2⟩

/-! ## Single digit errors -/


/-- The weighted sum of a digit string that is split at one of its digits:
the digit `x` stands at position `suf.length` from the right. -/
theorem weightedSum_split (pre suf : GoString) (x : Byte) :
    weightedSum (pre ++ x :: suf) =
      weightedSum suf + digitValue x * weight371 suf.length +
        ((pre.reverse.enumFrom (suf.length + 1)).map
          fun p => digitValue p.2 * weight371 p.1).sum := by
  unfold weightedSum List.enum
  simp [List.enumFrom_append, List.reverse_append, Nat.add_assoc]

theorem weight371_cases (p : Nat) : weight371 p = 7 ∨ weight371 p = 3 ∨ weight371 p = 1 := by
  have h := Nat.mod_lt p (by norm_num : 3 > 0)
  unfold weight371
  interval_cases p % 3 <;> simp

/-- Replacing one digit of a digit string by a different digit changes the
check digit of the specification. -/
theorem specCheckDigit_set_ne (pre suf : GoString) (x y : Byte) (hx : digitValue x ≤ 9)
    (hy : digitValue y ≤ 9) (hne : digitValue x ≠ digitValue y) :
    specCheckDigit (pre ++ x :: suf) ≠ specCheckDigit (pre ++ y :: suf) := by
  unfold specCheckDigit
  rw [weightedSum_split, weightedSum_split]
  generalize weightedSum suf = A
  generalize ((pre.reverse.enumFrom (suf.length + 1)).map
    fun p => digitValue p.2 * weight371 p.1).sum = B
  rcases weight371_cases suf.length with h | h | h <;> rw [h] <;> omega

/-- Two digit characters with the same value are the same character. -/
theorem digitValue_inj (c d : Byte) (hc : isDigitByte c = true) (hd : isDigitByte d = true)
    (h : digitValue c = digitValue d) : c = d := by
  simp only [isDigitByte, Bool.and_eq_true, decide_eq_true_eq] at hc hd
  unfold digitValue at h
  apply Fin.ext
  omega

theorem digitValue_le (c : Byte) (hc : isDigitByte c = true) : digitValue c ≤ 9 := by
  simp only [isDigitByte, Bool.and_eq_true, decide_eq_true_eq] at hc
  unfold digitValue
  omega

/-- A valid reference with one digit of its base replaced is not valid. -/
theorem validate_base_digit_replaced (pre suf : GoString) (x y c : Byte)
    (hpre : ∀ d ∈ pre, isDigitByte d = true) (hsuf : ∀ d ∈ suf, isDigitByte d = true)
    (hx : isDigitByte x = true) (hy : isDigitByte y = true) (hc : isDigitByte c = true)
    (hlen : (pre ++ x :: suf).length < 2 ^ 57) (hne : y ≠ x)
    (hv : ValidateEstonianReference ((pre ++ x :: suf) ++ [c]) = true) :
    ValidateEstonianReference ((pre ++ y :: suf) ++ [c]) = false := by
  have hdx : ∀ d ∈ pre ++ x :: suf, isDigitByte d = true := by
    intro d hd
    rcases List.mem_append.mp hd with h | h
    · exact hpre d h
    · rcases List.mem_cons.mp h with h | h
      · rw [h]; exact hx
      · exact hsuf d h
  have hdy : ∀ d ∈ pre ++ y :: suf, isDigitByte d = true := by
    intro d hd
    rcases List.mem_append.mp hd with h | h
    · exact hpre d h
    · rcases List.mem_cons.mp h with h | h
      · rw [h]; exact hy
      · exact hsuf d h
  have hleny : (pre ++ y :: suf).length < 2 ^ 57 := by
    simpa using hlen
  rw [validate_digits_concat _ c (by simp) hdx hc,
    calculateEstonian371CheckDigit_eq_spec _ hdx hlen] at hv
  apply bool_eq_false_of_not
  intro hv2
  rw [validate_digits_concat _ c (by simp) hdy hc,
    calculateEstonian371CheckDigit_eq_spec _ hdy hleny] at hv2
  have hspec := specCheckDigit_set_ne pre suf x y (digitValue_le x hx) (digitValue_le y hy)
    (fun h => hne (digitValue_inj y x hy hx h.symm))
  apply hspec
  have : (specCheckDigit (pre ++ x :: suf) : Int) = specCheckDigit (pre ++ y :: suf) := by
    rw [← hv, ← hv2]
  exact_mod_cast this

/-- C26. Single-digit error detection: for every reference `r` of digits only,
of length at least 2 (and of a length whose weighted sum fits an `int`), with
`ValidateEstonianReference(r) = true`, every position `i` of `r`, base digits
and check digit alike, and every digit `d` other than `r[i]`, the string with
`r[i]` replaced by `d` is rejected by `ValidateEstonianReference`.  And for
each non-empty digit base exactly one of the ten one-digit extensions
validates. -/
theorem validate_single_digit_error :
    (∀ (r : GoString) (i : Nat) (hi : i < r.length) (d : Byte),
      (∀ c ∈ r, isDigitByte c = true) → 2 ≤ r.length → r.length < 2 ^ 57 →
      ValidateEstonianReference r = true → isDigitByte d = true → d ≠ r[i] →
      ValidateEstonianReference (r.set i d) = false) ∧
    (∀ b : GoString, b ≠ [] → (∀ c ∈ b, isDigitByte c = true) →
      ∃! c : Byte, isDigitByte c = true ∧ ValidateEstonianReference (b ++ [c]) = true) := by
  constructor
  · intro r i hi d hr h2 hlen hv hd hne
    obtain ⟨l₁, l₂, hsplit, hl₁, hset⟩ := @List.exists_of_set Byte i d r hi
    have hmem : ∀ c ∈ l₁ ++ r[i] :: l₂, isDigitByte c = true := by
      rw [← hsplit]; exact hr
    have hpre : ∀ c ∈ l₁, isDigitByte c = true := fun c hc =>
      hmem c (List.mem_append_left _ hc)
    have hx : isDigitByte r[i] = true := hr _ (List.getElem_mem hi)
    have hsuf : ∀ c ∈ l₂, isDigitByte c = true := fun c hc =>
      hmem c (List.mem_append_right _ (List.mem_cons_of_mem _ hc))
    rw [hset]
    generalize r[i] = x at hsplit hx hne hmem
    subst hsplit
    rcases List.eq_nil_or_concat l₂ with rfl | ⟨suf, c, rfl⟩
    · -- the replaced digit is the check digit
      have hne1 : l₁ ≠ [] := by
        rintro rfl
        simp at h2
      apply bool_eq_false_of_not
      intro hv2
      rw [validate_digits_concat l₁ x hne1 hpre hx] at hv
      rw [validate_digits_concat l₁ d hne1 hpre hd] at hv2
      apply hne
      apply digitValue_inj d x hd hx
      have : (digitValue d : Int) = digitValue x := by rw [hv, hv2]
      exact_mod_cast this
    · -- the replaced digit is a digit of the base
      rw [List.concat_eq_append] at hv hsuf hlen ⊢
      have hc : isDigitByte c = true := hsuf c (by simp)
      have hsuf1 : ∀ e ∈ suf, isDigitByte e = true := fun e he =>
        hsuf e (List.mem_append_left _ he)
      have e1 : ∀ z : Byte, l₁ ++ z :: (suf ++ [c]) = (l₁ ++ z :: suf) ++ [c] := by
        intro z; simp
      rw [e1] at hv hlen ⊢
      apply validate_base_digit_replaced l₁ suf x d c hpre hsuf1 hx hd hc _ hne hv
      simp only [List.length_append, List.length_cons, List.length_nil] at hlen ⊢
      omega
  · intro b hne hb
    obtain ⟨h0, h9⟩ := calculateEstonian371CheckDigit_range b
    have hn : (calculateEstonian371CheckDigit b).toNat < 10 := by omega
    obtain ⟨hc, hval⟩ := digitByte_facts _ hn
    refine ⟨digitByte (calculateEstonian371CheckDigit b).toNat, ⟨hc, ?_⟩, ?_⟩
    · rw [validate_digits_concat b _ hne hb hc, ← (digit_sub _ hc).1, hval]
      omega
    · rintro y ⟨hy, hvy⟩
      rw [validate_digits_concat b _ hne hb hy] at hvy
      apply digitValue_inj y _ hy hc
      have h1 := (digit_sub _ hc).1
      rw [hval] at h1
      have : (digitValue y : Int) = digitValue (digitByte (calculateEstonian371CheckDigit b).toNat) := by
        rw [hvy, ← h1]
        omega
      exact_mod_cast this

theorem validate_single_digit_error_witness :
    ValidateEstonianReference ((lit "12344").set 1 (digitByte 7)) = false ∧
    ValidateEstonianReference ((lit "12344").set 4 (digitByte 5)) = false ∧
    ∃! c : Byte, isDigitByte c = true ∧ ValidateEstonianReference (lit "1234" ++ [c]) = true :=
  ⟨validate_single_digit_error.1 (lit "12344") 1 (by decide) (digitByte 7) (by decide)
      (by decide) (by decide) (by decide) (by decide) (by decide),
    validate_single_digit_error.1 (lit "12344") 4 (by decide) (digitByte 5) (by decide)
      (by decide) (by decide) (by decide) (by decide) (by decide),
    validate_single_digit_error.2 (lit "1234") (by decide) (by decide)⟩

/-! ## The signature -/

theorem length_putUint32 (x : Nat) : (putUint32 x).length = 4 := rfl

/-- A SHA-256 sum has 32 bytes. -/
theorem length_sha256Sum (data : GoString) : (sha256Sum data).length = 32 := by
  simp [sha256Sum, Digest.bytes, length_putUint32]

/-- The encoding has four characters for every three bytes, begun or
complete. -/
theorem length_EncodeToString (s : GoString) :
    (EncodeToString s).length = 4 * ((s.length + 2) / 3) := by
  induction s using EncodeToString.induct with
  | case1 => rfl
  | case2 a => simp [EncodeToString]
  | case3 a b => simp [EncodeToString]
  | case4 a b c rest ih =>
    simp only [EncodeToString, List.length_cons, ih]
    omega

/-- The `hmac` of the standard library computes the HMAC of RFC 2104. -/
theorem hmac_eq_spec (key message : GoString) :
    ((hmacNew key).Write message).Sum = hmacSHA256 key message := by
  simp [HMAC.Sum, HMAC.Write, hmacNew, hmacPad, hmacSHA256, sha256BlockSize]

theorem length_sign (apiID apiKey ts body : GoString) :
    (sign apiID apiKey ts body).length = 44 := by
  simp [sign, HMAC.Sum, length_EncodeToString, length_sha256Sum]

/-- C22. `sign` is a function of its four arguments equal to the reference
definition: for all `apiID`, `apiKey`, `ts`, `body`, the result is the
standard base64 encoding of HMAC-SHA256 with the bytes of `apiKey` as the key
and the bytes of `apiID` followed by `ts` followed by `body` as the message;
calls with identical arguments return identical strings, and the result is
never the empty string (it has 44 characters). -/
theorem sign_spec (apiID apiKey ts body : GoString) :
    sign apiID apiKey ts body = signSpec apiID apiKey ts body ∧
    signSpec apiID apiKey ts body =
      EncodeToString (hmacSHA256 apiKey (apiID ++ ts ++ body)) ∧
    (∀ apiID2 apiKey2 ts2 body2 : GoString,
      apiID2 = apiID → apiKey2 = apiKey → ts2 = ts → body2 = body →
      sign apiID2 apiKey2 ts2 body2 = sign apiID apiKey ts body) ∧
    sign apiID apiKey ts body ≠ [] ∧
    (sign apiID apiKey ts body).length = 44 := by
  refine ⟨?_, rfl, ?_, ?_, length_sign apiID apiKey ts body⟩
  · unfold sign signSpec
    simp only
    rw [hmac_eq_spec]
  · rintro _ _ _ _ rfl rfl rfl rfl
    rfl
  · intro h
    have := length_sign apiID apiKey ts body
    rw [h] at this
    simp at this

theorem sign_spec_witness :
    sign (lit "test-api-id") (lit "test-api-key") (lit "20240624205902") (lit "") =
      sign (lit "test-api-id") (lit "test-api-key") (lit "20240624205902") (lit "") :=
  (sign_spec (lit "test-api-id") (lit "test-api-key") (lit "20240624205902") (lit "")).2.2.1
    _ _ _ _ rfl rfl rfl rfl

/-- The signatures of two fixtures of `TestSign`, as an independent
implementation of HMAC-SHA256 and base64 gives them. -/
theorem sign_fixtures :
    sign (lit "test-api-id") (lit "test-api-key") (lit "20240624205902") (lit "") =
      lit "VEckU29v9j64+IMzzDhOgN8rF2fhNA5Y81XYifbp0Lc=" ∧
    sign (lit "670fe52f-558a-4be8-ade0-526e01a106d0") (lit "secret-key-123")
        (lit "20240624205902") (lit "{}") =
      lit "dJgRLeKCtRCt1Eq0ThEh8+EEyBGdWonj5tdmQ0kSY6U=" := by
  decide

/-- C27. The signature does not separate its fields: for every key and all
`(apiID, ts, body)` and `(apiID2, ts2, body2)` whose concatenations are equal
strings the signatures are equal; and there are argument tuples that differ in
`apiID`, in `ts` and in `body` and yield the same signature under every
key. -/
theorem sign_not_separated (key apiID ts body apiID2 ts2 body2 : GoString)
    (h : apiID ++ ts ++ body = apiID2 ++ ts2 ++ body2) :
    sign apiID key ts body = sign apiID2 key ts2 body2 ∧
    ∃ a t b a2 t2 b2 : GoString, a ≠ a2 ∧ t ≠ t2 ∧ b ≠ b2 ∧
      ∀ k, sign a k t b = sign a2 k t2 b2 := by
  have hgen : ∀ (k a t b a2 t2 b2 : GoString), a ++ t ++ b = a2 ++ t2 ++ b2 →
      sign a k t b = sign a2 k t2 b2 := by
    intro k a t b a2 t2 b2 h
    unfold sign
    simp only
    rw [h]
  refine ⟨hgen _ _ _ _ _ _ _ h, lit "id1", lit "20240101000000", lit "[1]", lit "id",
    lit "120240101000000[1", lit "]", by decide, by decide, by decide, fun k => hgen _ _ _ _ _ _ _ (by decide)⟩

theorem sign_not_separated_witness :
    sign (lit "id1") (lit "key1") (lit "20240101000000") (lit "{}") =
      sign (lit "id") (lit "key1") (lit "120240101000000") (lit "{}") :=
  (sign_not_separated (lit "key1") (lit "id1") (lit "20240101000000") (lit "{}") (lit "id")
    (lit "120240101000000") (lit "{}") (by decide)).1

/-! ## Claims about the transport -/

/-- The counterexample for C21: a 200 response whose body is not empty and
which `json.Unmarshal` rejects gives no error when the caller passes no
result. -/
theorem post_decode_fails :
    post (.ok (lit "{}")) none (.ok ⟨200, .ok (lit "not json")⟩)
        (fun _ (r : Unit) => (r, some (.errorf "invalid character" []))) none =
      (none, none) ∧
    lit "not json" ≠ [] := by
  constructor
  · rfl
  · decide

/-- C21, as amended. For every 2xx response received by `Client.post`: if the
body is empty or the caller passes no result (`nil`), `post` returns no error
and leaves the result unchanged; otherwise the body is decoded into the
caller's result with `json.Unmarshal`, and `post` fails, with an error that
wraps the one of `json.Unmarshal`, exactly when `json.Unmarshal` rejects the
body. -/
theorem post_decode {R : Type} (reqBody : GoString) (s : Int) (b : GoString)
    (unmarshal : GoString → R → R × Option GoError) (result : Option R)
    (hs : 200 ≤ s ∧ s < 300) :
    ((b = [] ∨ result = none) →
      post (.ok reqBody) none (.ok ⟨s, .ok b⟩) unmarshal result = (none, result)) ∧
    (∀ r, result = some r → b ≠ [] →
      post (.ok reqBody) none (.ok ⟨s, .ok b⟩) unmarshal result =
        ((unmarshal b r).2.map (GoError.wrapf "merit: unmarshal response: %w" []),
          some (unmarshal b r).1) ∧
      ((post (.ok reqBody) none (.ok ⟨s, .ok b⟩) unmarshal result).1 ≠ none ↔
        (unmarshal b r).2 ≠ none)) := by
  have hst : ¬ (s < 200 ∨ s ≥ 300) := by omega
  constructor
  · rintro (rfl | rfl)
    · cases result <;> simp [post, hst]
    · simp [post, hst]
  · intro r hr hb
    subst hr
    have hl : b.length > 0 := List.length_pos.mpr hb
    rcases hu : unmarshal b r with ⟨r', _ | err⟩ <;> simp [post, hst, hl, hu]

theorem post_decode_witness :
    post (.ok (lit "{}")) none (.ok ⟨200, .ok (lit "7")⟩)
        (fun _ (_ : Nat) => (7, none)) (some 0) = (none, some 7) :=
  ((post_decode (lit "{}") 200 (lit "7") (fun _ (_ : Nat) => (7, none)) (some 0)
    (by decide)).2 0 rfl (by decide)).1

/-! ## Claims about the status of invoices -/

/-- C24. Status has a single derivation path: every `Invoice` or
`PurchaseInvoice` that the adapter constructs, in `mapInvoiceListItem`,
`mapInvoiceDetail`, `mapPurchaseListItem`, `mapPurchaseDetail` and as the
success result of `CreateInvoice`, `CreateCreditNote` and `CreatePurchase`,
satisfies `Status = deriveInvoiceStatus(Paid, PaidAmount)` on its own `Paid`
and `PaidAmount`. -/
theorem status_single_derivation {Time : Type} (ops : TimeOps Time) (iter : TaxMap → TaxMap) :
    (∀ item : InvoiceListItem,
      (mapInvoiceListItem ops item).Status =
        deriveInvoiceStatus (mapInvoiceListItem ops item).Paid
          (mapInvoiceListItem ops item).PaidAmount) ∧
    (∀ d : InvoiceDetail,
      (mapInvoiceDetail ops d).Status =
        deriveInvoiceStatus (mapInvoiceDetail ops d).Paid (mapInvoiceDetail ops d).PaidAmount) ∧
    (∀ item : PurchaseListItem,
      (mapPurchaseListItem ops item).Status =
        deriveInvoiceStatus (mapPurchaseListItem ops item).Paid
          (mapPurchaseListItem ops item).PaidAmount) ∧
    (∀ d : InvoiceDetail,
      (mapPurchaseDetail ops d).Status =
        deriveInvoiceStatus (mapPurchaseDetail ops d).Paid
          (mapPurchaseDetail ops d).PaidAmount) ∧
    (∀ client input inv, (CreateInvoice ops iter client input).1 = some inv →
      inv.Status = deriveInvoiceStatus inv.Paid inv.PaidAmount) ∧
    (∀ client input inv, (CreateCreditNote ops iter client input).1 = some inv →
      inv.Status = deriveInvoiceStatus inv.Paid inv.PaidAmount) ∧
    (∀ client input inv, (CreatePurchase ops iter client input).1 = some inv →
      inv.Status = deriveInvoiceStatus inv.Paid inv.PaidAmount) := by
  refine ⟨fun _ => rfl, fun _ => rfl, fun _ => rfl, fun _ => rfl, ?_, ?_, ?_⟩
  · intro client input inv h
    unfold CreateInvoice at h
    simp only at h
    cases hc : client (createInvoiceRequest ops iter input) with
    | error e => rw [hc] at h; simp at h
    | ok resp =>
      rw [hc] at h
      simp only [Option.some.injEq] at h
      subst h
      rfl
  · intro client input inv h
    unfold CreateCreditNote at h
    simp only at h
    cases hc : client (createCreditNoteRequest ops iter input) with
    | error e => rw [hc] at h; simp at h
    | ok resp =>
      rw [hc] at h
      simp only [Option.some.injEq] at h
      subst h
      rfl
  · intro client input inv h
    unfold CreatePurchase at h
    simp only at h
    cases hc : client (createPurchaseRequest ops iter input) with
    | error e => rw [hc] at h; simp at h
    | ok resp =>
      rw [hc] at h
      simp only [Option.some.injEq] at h
      subst h
      rfl

theorem status_single_derivation_witness :
    (InvoiceStatus.InvoiceStatusUnpaid : InvoiceStatus) =
      deriveInvoiceStatus false Decimal.zero :=
  (status_single_derivation
    ({ zero := 0, IsZero := fun t => decide (t = 0), Format := fun t _ => itoa t,
       Parse := fun _ _ => (0, none) } : TimeOps Int) id).2.2.2.2.1
    (fun _ => .ok { InvoiceID := lit "inv-1" })
    { DocDate := 20240101, DueDate := 20240115 }
    { ID := lit "inv-1", DocDate := 20240101, DueDate := 20240115,
      Status := .InvoiceStatusUnpaid } rfl

/-! ## Claims about the creation of invoices -/

/-- Which order the map of tax amounts is ranged over in changes the request
of `CreateInvoice` in the order of its tax entries only. -/
theorem createInvoiceRequest_iter {Time : Type} (ops : TimeOps Time) (iter iter2 : TaxMap → TaxMap)
    (hiter : IsIterationOrder iter) (hiter2 : IsIterationOrder iter2)
    (input : CreateInvoiceInput Time) :
    { createInvoiceRequest ops iter2 input with TaxAmount := [] } =
      { createInvoiceRequest ops iter input with TaxAmount := [] } ∧
    (createInvoiceRequest ops iter2 input).TaxAmount.Perm
      (createInvoiceRequest ops iter input).TaxAmount := by
  constructor
  · rfl
  · show List.Perm (List.map _ (iter2 _)) (List.map _ (iter _))
    exact ((hiter2 _).trans (hiter _).symm).map _

/-- C30. `CreateInvoice` ignores the `TotalAmount` of its input: for any two
`CreateInvoiceInput` values that differ only in `TotalAmount`,
`meritProvider.CreateInvoice` builds identical wire requests, for each order
in which the map of tax amounts is ranged over (with two different orders the
requests differ in the order of the tax entries only); the `TotalAmount` of the
request is the zero decimal; against the same client, or the same response,
the results are identical; and an invoice that is returned has `TotalAmount`,
`TaxAmount` and `PaidAmount` zero and no `Lines`. -/
theorem createInvoice_ignores_total {Time : Type} (ops : TimeOps Time)
    (iter iter2 : TaxMap → TaxMap) (hiter : IsIterationOrder iter)
    (hiter2 : IsIterationOrder iter2) (a b : CreateInvoiceInput Time)
    (hab : b = { a with TotalAmount := b.TotalAmount })
    (client : CreateInvoiceRequest → Except GoError CreateInvoiceResponse)
    (resp : Except GoError CreateInvoiceResponse) :
    createInvoiceRequest ops iter a = createInvoiceRequest ops iter b ∧
    ({ createInvoiceRequest ops iter2 b with TaxAmount := [] } =
        { createInvoiceRequest ops iter a with TaxAmount := [] } ∧
      (createInvoiceRequest ops iter2 b).TaxAmount.Perm
        (createInvoiceRequest ops iter a).TaxAmount) ∧
    (createInvoiceRequest ops iter a).TotalAmount = Decimal.zero ∧
    CreateInvoice ops iter client a = CreateInvoice ops iter client b ∧
    CreateInvoice ops iter (fun _ => resp) a = CreateInvoice ops iter2 (fun _ => resp) b ∧
    (∀ inv, (CreateInvoice ops iter client a).1 = some inv →
      inv.TotalAmount = Decimal.zero ∧ inv.TaxAmount = Decimal.zero ∧
      inv.PaidAmount = Decimal.zero ∧ inv.Lines = []) := by
  have hreq : createInvoiceRequest ops iter a = createInvoiceRequest ops iter b := by
    rw [hab]
    rfl
  have hreq2 : createInvoiceRequest ops iter2 a = createInvoiceRequest ops iter2 b := by
    rw [hab]
    rfl
  refine ⟨hreq, ?_, rfl, ?_, ?_, ?_⟩
  · rw [← hreq2]
    exact createInvoiceRequest_iter ops iter iter2 hiter hiter2 a
  · rw [hab]
    rfl
  · rw [hab]
    cases resp <;> rfl
  · intro inv h
    unfold CreateInvoice at h
    simp only at h
    cases hc : client (createInvoiceRequest ops iter a) with
    | error e => rw [hc] at h; simp at h
    | ok r =>
      rw [hc] at h
      simp only [Option.some.injEq] at h
      subst h
      exact ⟨rfl, rfl, rfl, rfl⟩

theorem createInvoice_ignores_total_witness :
    createInvoiceRequest
        ({ zero := 0, IsZero := fun t => decide (t = 0), Format := fun t _ => itoa t,
           Parse := fun _ _ => (0, none) } : TimeOps Int) id
        { DocDate := 20240101, DueDate := 20240115, InvoiceNo := lit "INV-1",
          Lines := [{ Code := lit "A", Quantity := ⟨2, 0⟩, UnitPrice := ⟨1000, -2⟩,
                      TaxID := lit "vat-20" }],
          TotalAmount := ⟨2000, -2⟩ } =
      createInvoiceRequest
        ({ zero := 0, IsZero := fun t => decide (t = 0), Format := fun t _ => itoa t,
           Parse := fun _ _ => (0, none) } : TimeOps Int) id
        { DocDate := 20240101, DueDate := 20240115, InvoiceNo := lit "INV-1",
          Lines := [{ Code := lit "A", Quantity := ⟨2, 0⟩, UnitPrice := ⟨1000, -2⟩,
                      TaxID := lit "vat-20" }],
          TotalAmount := ⟨999999, 0⟩ } :=
  (createInvoice_ignores_total
    ({ zero := 0, IsZero := fun t => decide (t = 0), Format := fun t _ => itoa t,
       Parse := fun _ _ => (0, none) } : TimeOps Int) id List.reverse
    (fun _ => List.Perm.refl _) (fun m => List.reverse_perm m)
    { DocDate := 20240101, DueDate := 20240115, InvoiceNo := lit "INV-1",
      Lines := [{ Code := lit "A", Quantity := ⟨2, 0⟩, UnitPrice := ⟨1000, -2⟩,
                  TaxID := lit "vat-20" }],
      TotalAmount := ⟨2000, -2⟩ }
    { DocDate := 20240101, DueDate := 20240115, InvoiceNo := lit "INV-1",
      Lines := [{ Code := lit "A", Quantity := ⟨2, 0⟩, UnitPrice := ⟨1000, -2⟩,
                  TaxID := lit "vat-20" }],
      TotalAmount := ⟨999999, 0⟩ }
    rfl (fun _ => .ok { InvoiceID := lit "inv-1" }) (.ok { InvoiceID := lit "inv-1" })).1

/-! ## Claims about partial updates -/

/-- The counterexample for C25: the field `Code` is present in the input and
holds the empty string, and the serialized request has no `Code` member.  (The
request also shows a `SalesPrice` although the input has none.) -/
theorem updateItem_present_fields_fails :
    marshalUpdateItemRequest (updateItemRequest { ID := lit "i1", Code := some (lit "") }) =
      [("Id", .str (lit "i1")), ("SalesPrice", .decimal Decimal.zero),
        ("DiscountPct", .decimal Decimal.zero),
        ("LastPurchasePrice", .decimal Decimal.zero)] ∧
    jsonMember (marshalUpdateItemRequest
      (updateItemRequest { ID := lit "i1", Code := some (lit "") })) "Code" = none := by
  constructor
  · rfl
  · decide

theorem jsonMember_nil (key : String) : jsonMember [] key = none := rfl

theorem jsonMember_cons (k : String) (v : JSONValue) (rest : List (String × JSONValue))
    (key : String) :
    jsonMember ((k, v) :: rest) key = if k = key then some v else jsonMember rest key := by
  by_cases h : k = key
  · simp [jsonMember, List.find?, h]
  · have hb : (k == key) = false := by simp [h]
    simp [jsonMember, List.find?, h, hb]

theorem jsonMember_omitEmptyString (k : String) (s : GoString)
    (rest : List (String × JSONValue)) (key : String) :
    jsonMember (omitEmptyString k s ++ rest) key =
      if k = key ∧ s ≠ [] then some (.str s) else jsonMember rest key := by
  unfold omitEmptyString
  by_cases hs : s = []
  · simp [hs]
  · simp only [hs, if_false, List.singleton_append, jsonMember_cons]
    by_cases hk : k = key <;> simp [hk, hs]

/-- The member with a given key of a serialized `UpdateItemRequest`, field by
field. -/
theorem jsonMember_marshalUpdateItemRequest (req : UpdateItemRequest) (key : String) :
    jsonMember (marshalUpdateItemRequest req) key =
      if "Id" = key then some (.str req.ID)
      else if "Code" = key ∧ req.Code ≠ [] then some (.str req.Code)
      else if "Description" = key ∧ req.Description ≠ [] then some (.str req.Description)
      else if "SalesPrice" = key then some (.decimal req.SalesPrice)
      else if "ItemGrCode" = key ∧ req.ItemGrCode ≠ [] then some (.str req.ItemGrCode)
      else if "DiscountPct" = key then some (.decimal req.DiscountPct)
      else if "EANCode" = key ∧ req.EANCode ≠ [] then some (.str req.EANCode)
      else if "NameEN" = key ∧ req.NameEN ≠ [] then some (.str req.NameEN)
      else if "LastPurchasePrice" = key then some (.decimal req.LastPurchasePrice)
      else if "SalesAccountCode" = key ∧ req.SalesAccountCode ≠ [] then
        some (.str req.SalesAccountCode)
      else if "InventoryAccountCode" = key ∧ req.InventoryAccountCode ≠ [] then
        some (.str req.InventoryAccountCode)
      else if "ItemCostAccountCode" = key ∧ req.ItemCostAccountCode ≠ [] then
        some (.str req.ItemCostAccountCode)
      else if "TaxId" = key ∧ req.TaxID ≠ [] then some (.str req.TaxID)
      else jsonMember (omitNilInt "GTUCode" req.GTUCode) key := by
  unfold marshalUpdateItemRequest
  simp only [List.append_assoc, List.singleton_append, List.cons_append, List.nil_append,
    jsonMember_cons,
    jsonMember_omitEmptyString]

/-- The fields of the request that `UpdateItem` builds. -/
theorem updateItemRequest_fields (input : UpdateItemInput) :
    (updateItemRequest input).ID = input.ID ∧
    (updateItemRequest input).Code = input.Code.getD [] ∧
    (updateItemRequest input).Description = input.Description.getD [] ∧
    (updateItemRequest input).SalesPrice = input.SalesPrice.getD Decimal.zero ∧
    (updateItemRequest input).TaxID = input.TaxID.getD [] ∧
    (updateItemRequest input).GTUCode = none := by
  obtain ⟨id, code, desc, price, tax⟩ := input
  cases code <;> cases desc <;> cases price <;> cases tax <;>
    exact ⟨rfl, rfl, rfl, rfl, rfl, rfl⟩

/-- C25, as amended. Partial update of an item: for every `UpdateItemInput`,
each of `Code`, `Description` and `TaxID` that is absent from the input, or
present with the empty string, is absent from the serialized wire request
built by `UpdateItem`; each of them that is present with another value is
carried with that value; a `SalesPrice` that is present is carried with its
value; and the `Id` of the request is the `ID` of the input.  (Nothing is said
here about a `SalesPrice` that is absent.) -/
theorem updateItem_present_fields (input : UpdateItemInput)
    (clientUpdateItem : UpdateItemRequest → Option GoError) :
    jsonMember (marshalUpdateItemRequest (updateItemRequest input)) "Id" =
      some (.str input.ID) ∧
    ((input.Code = none ∨ input.Code = some []) →
      jsonMember (marshalUpdateItemRequest (updateItemRequest input)) "Code" = none) ∧
    (∀ v, input.Code = some v → v ≠ [] →
      jsonMember (marshalUpdateItemRequest (updateItemRequest input)) "Code" =
        some (.str v)) ∧
    ((input.Description = none ∨ input.Description = some []) →
      jsonMember (marshalUpdateItemRequest (updateItemRequest input)) "Description" = none) ∧
    (∀ v, input.Description = some v → v ≠ [] →
      jsonMember (marshalUpdateItemRequest (updateItemRequest input)) "Description" =
        some (.str v)) ∧
    ((input.TaxID = none ∨ input.TaxID = some []) →
      jsonMember (marshalUpdateItemRequest (updateItemRequest input)) "TaxId" = none) ∧
    (∀ v, input.TaxID = some v → v ≠ [] →
      jsonMember (marshalUpdateItemRequest (updateItemRequest input)) "TaxId" =
        some (.str v)) ∧
    (∀ v, input.SalesPrice = some v →
      jsonMember (marshalUpdateItemRequest (updateItemRequest input)) "SalesPrice" =
        some (.decimal v)) ∧
    UpdateItem clientUpdateItem input =
      wrapError "UpdateItem" (clientUpdateItem (updateItemRequest input)) := by
  obtain ⟨hid, hcode, hdesc, hprice, htax, hgtu⟩ := updateItemRequest_fields input
  refine ⟨?_, ?_, ?_, ?_, ?_, ?_, ?_, ?_, rfl⟩
  · simp [jsonMember_marshalUpdateItemRequest, hid]
  · rintro (h | h) <;>
      simp [jsonMember_marshalUpdateItemRequest, hcode, hgtu, h, omitNilInt, jsonMember_nil]
  · intro v h hv
    simp [jsonMember_marshalUpdateItemRequest, hcode, h, hv]
  · rintro (h | h) <;>
      simp [jsonMember_marshalUpdateItemRequest, hdesc, hgtu, h, omitNilInt, jsonMember_nil]
  · intro v h hv
    simp [jsonMember_marshalUpdateItemRequest, hdesc, h, hv]
  · rintro (h | h) <;>
      simp [jsonMember_marshalUpdateItemRequest, htax, hgtu, h, omitNilInt, jsonMember_nil]
  · intro v h hv
    simp [jsonMember_marshalUpdateItemRequest, htax, h, hv]
  · intro v h
    simp [jsonMember_marshalUpdateItemRequest, hprice, h]

theorem updateItem_present_fields_witness :
    jsonMember (marshalUpdateItemRequest (updateItemRequest
        { ID := lit "i1", Description := some (lit "Bolt"), SalesPrice := some ⟨150, -2⟩ }))
      "Description" = some (.str (lit "Bolt")) ∧
    jsonMember (marshalUpdateItemRequest (updateItemRequest
        { ID := lit "i1", Description := some (lit "Bolt"), SalesPrice := some ⟨150, -2⟩ }))
      "Code" = none :=
  ⟨(updateItem_present_fields
      { ID := lit "i1", Description := some (lit "Bolt"), SalesPrice := some ⟨150, -2⟩ }
      (fun _ => none)).2.2.2.2.1 (lit "Bolt") rfl (by decide),
    (updateItem_present_fields
      { ID := lit "i1", Description := some (lit "Bolt"), SalesPrice := some ⟨150, -2⟩ }
      (fun _ => none)).2.1 (Or.inl rfl)⟩

/-! ## Claims about empty fields and blank addresses -/

theorem mem_omitEmptyString_str (k key : String) (s t : GoString) :
    (k, JSONValue.str t) ∈ omitEmptyString key s ↔ k = key ∧ t = s ∧ s ≠ [] := by
  unfold omitEmptyString
  by_cases hs : s = []
  · simp [hs]
  · simp [hs]

theorem not_mem_omitNilInt_str (k key : String) (x : Option Int) (t : GoString) :
    (k, JSONValue.str t) ∉ omitNilInt key x := by
  cases x <;> simp [omitNilInt]

theorem not_mem_omitNilBool_str (k key : String) (x : Option Bool) (t : GoString) :
    (k, JSONValue.str t) ∉ omitNilBool key x := by
  cases x <;> simp [omitNilBool]

/-- The request that `UpdateCustomer` builds, field by field: a field that is
absent leaves the empty string in the request. -/
theorem updateCustomerRequest_eq (u : UpdateCustomerInput) :
    updateCustomerRequest u =
      { ID := u.ID, Name := u.Name.getD [], Email := u.Email.getD [], PhoneNo := u.Phone.getD [],
        Address := u.Address.getD [], City := u.City.getD [],
        PostalCode := u.PostalCode.getD [], CountryCode := u.CountryCode.getD [],
        RegNo := u.RegNo.getD [], VatRegNo := u.VATRegNo.getD [] } := by
  obtain ⟨id, name, email, phone, address, city, postal, country, regno, vat⟩ := u
  cases name <;> cases email <;> cases phone <;> cases address <;> cases city <;>
    cases postal <;> cases country <;> cases regno <;> cases vat <;> rfl

/-- C28. In `UpdateCustomer` an optional field that is present and empty is
not told apart from one that is absent: for every `UpdateCustomerInput` and
every optional string field, the wire request built from the input with that
field present and equal to the empty string is the wire request built from the
input with that field absent; hence no member of a serialized request other
than `Id` holds the empty string, and no update input can clear a field of a
customer. -/
theorem updateCustomer_empty_is_absent (u : UpdateCustomerInput) :
    updateCustomerRequest { u with Name := some [] } =
      updateCustomerRequest { u with Name := none } ∧
    updateCustomerRequest { u with Email := some [] } =
      updateCustomerRequest { u with Email := none } ∧
    updateCustomerRequest { u with Phone := some [] } =
      updateCustomerRequest { u with Phone := none } ∧
    updateCustomerRequest { u with Address := some [] } =
      updateCustomerRequest { u with Address := none } ∧
    updateCustomerRequest { u with City := some [] } =
      updateCustomerRequest { u with City := none } ∧
    updateCustomerRequest { u with PostalCode := some [] } =
      updateCustomerRequest { u with PostalCode := none } ∧
    updateCustomerRequest { u with CountryCode := some [] } =
      updateCustomerRequest { u with CountryCode := none } ∧
    updateCustomerRequest { u with RegNo := some [] } =
      updateCustomerRequest { u with RegNo := none } ∧
    updateCustomerRequest { u with VATRegNo := some [] } =
      updateCustomerRequest { u with VATRegNo := none } ∧
    (∀ k v, (k, v) ∈ marshalUpdateCustomerRequest (updateCustomerRequest u) → k ≠ "Id" →
      v ≠ .str []) := by
  refine ⟨?_, ?_, ?_, ?_, ?_, ?_, ?_, ?_, ?_, ?_⟩
  iterate 9 rw [updateCustomerRequest_eq, updateCustomerRequest_eq]; rfl
  intro k v h hk hv
  subst hv
  simp only [marshalUpdateCustomerRequest, List.mem_append, List.mem_singleton, Prod.mk.injEq,
    mem_omitEmptyString_str, not_mem_omitNilInt_str, not_mem_omitNilBool_str, or_false,
    false_or] at h
  have hsymm : ∀ x : GoString, ([] = x ∧ x ≠ []) ↔ False :=
    fun x => ⟨fun hx => hx.2 hx.1.symm, False.elim⟩
  simp only [hsymm, reduceCtorEq, and_false, or_false, false_or] at h
  exact hk h.1

theorem updateCustomer_empty_is_absent_witness :
    (JSONValue.str (lit "a@b.ee")) ≠ .str [] :=
  (updateCustomer_empty_is_absent { ID := lit "c1", Email := some (lit "a@b.ee") }).2.2.2.2.2.2.2.2.2
    "Email" (.str (lit "a@b.ee")) (by decide) (by decide)

/-- A string is trimmed to nothing exactly when it is empty or white space
only. -/
theorem trimSpace_eq_nil_iff (s : GoString) : trimSpace s = [] ↔ isBlank s = true := by
  unfold isBlank
  rw [List.all_eq_true]
  constructor
  · intro h
    obtain ⟨L, R, hL, hR, hs⟩ := trimSpace_decomp s
    rw [h, List.append_nil, ← encodeRunes_append] at hs
    have hLR : ∀ r ∈ L ++ R, isSpace r = true := by
      intro r hr
      rcases List.mem_append.mp hr with hr | hr
      · exact hL r hr
      · exact hR r hr
    have := runes_encodeRunes_append (L ++ R) hLR []
    rw [List.append_nil, runes_nil, List.append_nil] at this
    rw [hs, this]
    exact hLR
  · intro h
    obtain ⟨rs, hrs, hs, hend⟩ := trimLeftSpace_decomp s
    have hnil : trimLeftSpace s = [] := by
      rcases hend with hnil | hns
      · exact hnil
      · by_contra hne
        obtain ⟨b, rest, hb⟩ := List.exists_cons_of_ne_nil hne
        have hr : runes s = rs ++ runes (trimLeftSpace s) := by
          conv_lhs => rw [hs]
          exact runes_encodeRunes_append rs hrs _
        have hmem : (decodeRune (trimLeftSpace s)).1 ∈ runes s := by
          rw [hr, hb, runes_cons]
          simp
        rw [h _ hmem] at hns
        exact absurd hns (by simp)
    unfold trimSpace
    rw [hnil]
    rfl

/-- C29. Blank-email lookup matches blank-email customers: for every queried
email that is empty or white space only, if the successful customer listing
contains a customer whose `Email` is empty or white space only,
`meritProvider.FindCustomerByEmail` returns the first such customer, not
`NotFound`, and `CustomerService.FindOrCreate` returns that customer and
creates nothing.  `strings.ToLower` enters through the fact that it maps the
empty string, and no other, to the empty string. -/
theorem blank_email_lookup {σ : Type} (ToLower : GoString → GoString)
    (hT : ∀ s, ToLower s = [] ↔ s = []) (items : List CustomerListItem) (email : GoString)
    (item : CustomerListItem) (hq : isBlank email = true)
    (hfirst : items.find? (fun it => isBlank it.Email) = some item)
    (listCustomers : σ → (List CustomerListItem × Option GoError) × σ)
    (createCustomer : σ → CreateCustomerInput → (Option Customer × Option GoError) × σ)
    (st st1 : σ) (input : CreateCustomerInput) (hlist : listCustomers st = ((items, none), st1)) :
    FindCustomerByEmail ToLower items none email = (some (mapCustomerListItem item), none) ∧
    IsNotFound (FindCustomerByEmail ToLower items none email).2 = false ∧
    FindOrCreate (meritCustomerProvider ToLower listCustomers createCustomer) st email input =
      ((some (mapCustomerListItem item), none), st1, [.FindCustomerByEmail email]) := by
  have he : ToLower (trimSpace email) = [] := by
    rw [(trimSpace_eq_nil_iff email).mpr hq]
    exact (hT []).mpr rfl
  have hpred : (fun it : CustomerListItem =>
      decide (ToLower (trimSpace it.Email) = ToLower (trimSpace email))) =
      fun it => isBlank it.Email := by
    funext it
    rw [he]
    by_cases hb : isBlank it.Email = true
    · rw [hb, (trimSpace_eq_nil_iff _).mpr hb]
      simpa using (hT []).mpr rfl
    · have hne : trimSpace it.Email ≠ [] := fun h => hb ((trimSpace_eq_nil_iff _).mp h)
      have : ToLower (trimSpace it.Email) ≠ [] := fun h => hne ((hT _).mp h)
      simp [this, hb]
  have hfind : FindCustomerByEmail ToLower items none email =
      (some (mapCustomerListItem item), none) := by
    simp only [FindCustomerByEmail, findCustomerLoop_eq_find, hpred, hfirst, Option.map_some']
  refine ⟨hfind, by rw [hfind]; rfl, ?_⟩
  simp [FindOrCreate, meritCustomerProvider, hlist, hfind, IsNotFound]

theorem blank_email_lookup_witness :
    FindCustomerByEmail id
        [{ CustomerID := lit "1", Email := lit "x@y.ee" }, { CustomerID := lit "2", Email := lit " " },
         { CustomerID := lit "3" }] none (lit "\t ") =
      (some (mapCustomerListItem { CustomerID := lit "2", Email := lit " " }), none) :=
  (blank_email_lookup id (fun _ => Iff.rfl)
    [{ CustomerID := lit "1", Email := lit "x@y.ee" }, { CustomerID := lit "2", Email := lit " " },
     { CustomerID := lit "3" }] (lit "\t ") { CustomerID := lit "2", Email := lit " " }
    (by decide) (by decide)
    (fun (n : Nat) =>
      (([{ CustomerID := lit "1", Email := lit "x@y.ee" },
         { CustomerID := lit "2", Email := lit " " }, { CustomerID := lit "3" }], none), n + 1))
    (fun n input => ((some { Name := input.Name }, none), n + 10)) 0 1 { Name := lit "A" } rfl).1

/-! ## Claims about the lookup of a customer when the listing fails -/

/-- The counterexample for C23: the listing call is answered with status 404.
`FindCustomerByEmail` returns an error that is-a `NotFound` although the
listing call failed, and `FindOrCreate` goes on to create a customer. -/
theorem findCustomerByEmail_listing_404 :
    merit.ListCustomers (.ok (lit "{}")) none (.ok ⟨404, .ok (lit "Not Found")⟩)
        (fun _ r => (r, none)) =
      ([], some (.apiError 404 (lit "Not Found"))) ∧
    IsNotFound (FindCustomerByEmail id [] (some (.apiError 404 (lit "Not Found")))
      (lit "a@b.ee")).2 = true ∧
    FindOrCreate
        (meritCustomerProvider id
          (fun (n : Nat) =>
            (merit.ListCustomers (.ok (lit "{}")) none (.ok ⟨404, .ok (lit "Not Found")⟩)
              (fun _ r => (r, none)), n))
          (fun n input => ((some { ID := lit "new", Name := input.Name }, none), n + 1)))
        0 (lit "a@b.ee") { Name := lit "A" } =
      ((some { ID := lit "new", Name := lit "A" }, none), 1,
        [.FindCustomerByEmail (lit "a@b.ee"), .CreateCustomer { Name := lit "A" }]) := by
  refine ⟨rfl, rfl, rfl⟩

/-- An `APIError` is classified as `NotFound` exactly when its status is
404. -/
theorem isNotFound_wrapError_apiError (op : String) (s : Int) (msg : GoString) :
    IsNotFound (wrapError op (some (.apiError s msg))) = decide (s = 404) := by
  by_cases h1 : s = 401 ∨ s = 403
  · have h4 : s ≠ 404 := by omega
    simp [wrapError, errorsAsAPIError, IsNotFound, errorsIs, h1, h4]
  · by_cases h4 : s = 404
    · simp [wrapError, errorsAsAPIError, IsNotFound, errorsIs, h4]
    · by_cases h9 : s = 429
      · simp [wrapError, errorsAsAPIError, IsNotFound, errorsIs, h9]
      · simp [wrapError, errorsAsAPIError, IsNotFound, errorsIs, h1, h4, h9]

/-- An error of the environment that `post` has wrapped is not classified as
`NotFound`. -/
theorem isNotFound_wrapError_external (op format : String) (args : List GoString) (e : GoError)
    (h : isExternal e = true) :
    IsNotFound (wrapError op (some (.wrapf format args e))) = false := by
  simp only [isExternal, Bool.and_eq_true, Option.isNone_iff_eq_none, Bool.not_eq_true'] at h
  simp [wrapError, errorsAsAPIError, IsNotFound, errorsIs, h.1, h.2]

theorem wrapError_ne_none (op : String) (e : GoError) : wrapError op (some e) ≠ none := by
  unfold wrapError
  simp only
  rcases h : errorsAsAPIError e with _ | ⟨s, m⟩ <;> simp

/-- The error of a listing call that was not answered with status 404 is not
classified as `NotFound`, as long as the errors of the environment are
external. -/
theorem listCustomers_error_not_notFound (marshal : Except GoError GoString)
    (newRequestErr : Option GoError) (send : Except GoError HTTPResponse)
    (unmarshal : GoString → List CustomerListItem → List CustomerListItem × Option GoError)
    (hm : ∀ e, marshal = .error e → isExternal e = true)
    (hn : ∀ e, newRequestErr = some e → isExternal e = true)
    (hs : ∀ e, send = .error e → isExternal e = true)
    (hb : ∀ resp e, send = .ok resp → resp.Body = .error e → isExternal e = true)
    (hu : ∀ b r e, (unmarshal b r).2 = some e → isExternal e = true)
    (h404 : ∀ resp, send = .ok resp → resp.StatusCode ≠ 404)
    (op : String) (e : GoError)
    (he : (merit.ListCustomers marshal newRequestErr send unmarshal).2 = some e) :
    IsNotFound (wrapError op (some e)) = false := by
  unfold merit.ListCustomers post at he
  cases marshal with
  | error em =>
    simp only [Option.some.injEq] at he
    subst he
    exact isNotFound_wrapError_external _ _ _ _ (hm em rfl)
  | ok body =>
    cases newRequestErr with
    | some en =>
      simp only [Option.some.injEq] at he
      subst he
      exact isNotFound_wrapError_external _ _ _ _ (hn en rfl)
    | none =>
      cases send with
      | error es =>
        simp only [Option.some.injEq] at he
        subst he
        exact isNotFound_wrapError_external _ _ _ _ (hs es rfl)
      | ok resp =>
        obtain ⟨status, rbody⟩ := resp
        cases rbody with
        | error eb =>
          simp only [Option.some.injEq] at he
          subst he
          exact isNotFound_wrapError_external _ _ _ _ (hb ⟨status, .error eb⟩ eb rfl rfl)
        | ok respBody =>
          simp only at he
          by_cases hst : status < 200 ∨ status ≥ 300
          · simp only [hst, if_true, Option.some.injEq] at he
            subst he
            rw [isNotFound_wrapError_apiError]
            have := h404 ⟨status, .ok respBody⟩ rfl
            simpa using this
          · simp only [hst, if_false] at he
            by_cases hl : respBody.length > 0
            · simp only [hl, if_true] at he
              rcases hun : unmarshal respBody [] with ⟨r, _ | eu⟩
              · rw [hun] at he
                simp at he
              · rw [hun] at he
                simp only [Option.some.injEq] at he
                subst he
                exact isNotFound_wrapError_external _ _ _ _
                  (hu respBody [] eu (by rw [hun]))
            · simp only [hl, if_false] at he
              simp at he

/-- C23, as amended. `meritProvider.FindCustomerByEmail` returns an error
that is-a `NotFound` only when the customer listing call succeeded and no
listed customer matched, provided that the listing call is not answered with
status 404 (and that the errors of the network and of the JSON decoder are
neither `APIError`s nor `NotFound` themselves); whenever the listing call
fails with a network error or a non-2xx status other than 404, the returned
error is not a `NotFound`, and `CustomerService.FindOrCreate` returns it
without creating a customer. -/
theorem findCustomerByEmail_notFound_only {σ : Type} (ToLower : GoString → GoString)
    (marshal : Except GoError GoString) (newRequestErr : Option GoError)
    (send : Except GoError HTTPResponse)
    (unmarshal : GoString → List CustomerListItem → List CustomerListItem × Option GoError)
    (hm : ∀ e, marshal = .error e → isExternal e = true)
    (hn : ∀ e, newRequestErr = some e → isExternal e = true)
    (hs : ∀ e, send = .error e → isExternal e = true)
    (hb : ∀ resp e, send = .ok resp → resp.Body = .error e → isExternal e = true)
    (hu : ∀ b r e, (unmarshal b r).2 = some e → isExternal e = true)
    (h404 : ∀ resp, send = .ok resp → resp.StatusCode ≠ 404)
    (listing : List CustomerListItem × Option GoError)
    (hlisting : listing = merit.ListCustomers marshal newRequestErr send unmarshal)
    (email : GoString)
    (createCustomer : σ → CreateCustomerInput → (Option Customer × Option GoError) × σ)
    (st : σ) (input : CreateCustomerInput) :
    (IsNotFound (FindCustomerByEmail ToLower listing.1 listing.2 email).2 = true ↔
      listing.2 = none ∧
        ∀ item ∈ listing.1, ToLower (trimSpace item.Email) ≠ ToLower (trimSpace email)) ∧
    (listing.2 ≠ none →
      IsNotFound (FindCustomerByEmail ToLower listing.1 listing.2 email).2 = false ∧
      (FindCustomerByEmail ToLower listing.1 listing.2 email).2 ≠ none ∧
      FindOrCreate (meritCustomerProvider ToLower (fun s => (listing, s)) createCustomer)
          st email input =
        ((none, (FindCustomerByEmail ToLower listing.1 listing.2 email).2), st,
          [.FindCustomerByEmail email])) := by
  obtain ⟨items, err⟩ := listing
  cases err with
  | none =>
    refine ⟨?_, fun h => absurd rfl h⟩
    simp only [FindCustomerByEmail, findCustomerLoop_eq_find, true_and]
    cases hf : items.find? (fun item => decide (ToLower (trimSpace item.Email) =
        ToLower (trimSpace email))) with
    | none =>
      simp only [Option.map_none', IsNotFound, errorsIs, decide_True, true_iff]
      intro item hitem
      have := List.find?_eq_none.mp hf item hitem
      simpa using this
    | some item =>
      simp only [Option.map_some', IsNotFound]
      constructor
      · intro h
        exact absurd h (by simp)
      · intro h
        have hmem := List.mem_of_find?_eq_some hf
        have hp := List.find?_some hf
        exact absurd (by simpa using hp) (h item hmem)
  | some e =>
    have hnf : IsNotFound (wrapError "FindCustomerByEmail" (some e)) = false :=
      listCustomers_error_not_notFound marshal newRequestErr send unmarshal hm hn hs hb hu
        h404 _ e (by rw [← hlisting])
    have hne := wrapError_ne_none "FindCustomerByEmail" e
    have hfind : FindCustomerByEmail ToLower items (some e) email =
        (none, wrapError "FindCustomerByEmail" (some e)) := rfl
    refine ⟨?_, fun _ => ⟨by rw [hfind]; exact hnf, by rw [hfind]; exact hne, ?_⟩⟩
    · rw [hfind]
      simp [hnf]
    · simp [FindOrCreate, meritCustomerProvider, hfind, hnf, hne]

theorem findCustomerByEmail_notFound_only_witness :
    IsNotFound (FindCustomerByEmail id [] (some (.apiError 500 (lit "down")))
      (lit "a@b.ee")).2 = false :=
  ((findCustomerByEmail_notFound_only id (.ok (lit "{}")) none
    (.ok ⟨500, .ok (lit "down")⟩) (fun _ r => (r, none))
    (fun _ h => by cases h) (fun _ h => by cases h) (fun _ h => by cases h)
    (fun resp e h h2 => by cases h; cases h2) (fun _ _ _ h => by cases h)
    (fun resp h => by cases h; decide)
    ([], some (.apiError 500 (lit "down"))) rfl (lit "a@b.ee")
    (fun (n : Nat) input => ((some { Name := input.Name }, none), n + 1)) 0
    { Name := lit "A" }).2 (by simp)).1

end Accounting
